import Mathlib

/-!
SerialLCD_STM32: the serial channel and the AT command assembler.

A shallow embedding of `uart_object.c` / `uart_object.h` (ring buffers, the
serial channel, the USART1 interrupt handler) and of `ATcmd_object.c`: the
command assembler (`add_char_to_cmd_buf`, `clean_cmd_buf`, `get_a_cmd`), the
table lookup (`get_cmd_index`), the tokenizer (`get_cmd_param`), the
dispatcher (`execute_a_cmd`), the action `SetDebug` and the action bindings of
`object_ATcmd_init`; of `lcd_object.c` the device set-up (`object_lcd_init`,
`LCD_Init_hx8347a`, `ClearScreen`), the action `SetDevice`, the number and
colour helpers (`str_to_uint`, `RGB_to_color`) and the drawing actions
`DrawPoint`, `FillRectangle` and `DrawCircle`.

Conventions.
* `unsigned char` is `Fin 256`; `unsigned int` indices are `Nat`.  Every index
  the code stores is first reduced modulo `SERIAL_BUFFER_SIZE`, and 64 divides
  2^32, so `(x + 1) % 64` over `Nat` is the value the 32-bit code computes.
* `int` results are `Int` (`-1` is the failure value).
* The C globals (`usart1` with its two static rings, the USART1 peripheral and
  `at_command`) are the fields of one explicit state, `Board`.
* A store outside `command.buf` has no defined result in C: `add_char_to_cmd_buf`
  and `get_a_cmd` return `none` for it.  The same holds for a store outside the
  pointer array `args` and for a string scan that leaves the buffer, in
  `get_cmd_param` and `execute_a_cmd`.
* The C library functions `strncmp` and `strtok` are modelled from the C
  standard, on byte lists and on indices into the command buffer.
* Function pointers are values of the enumeration `Handler` (`none` is NULL);
  the display hardware is the list of stores and delays sent to it.
* The bytes written to the serial line are `transmitted`: those handed to the
  peripheral, then those still waiting in the transmit ring.
* The main loop and the interrupts are a list of `Event`s (`main_run`).
* `unsigned int` arithmetic is reduced modulo 2^32 where it can wrap; an `int`
  operation that overflows has no defined result (`int_of`), and the casts
  between the two are `to_int` and `to_uint`.
-/

namespace SerialLCD

/-! ## uart_object.h -/

/-- An `unsigned char`. -/
abbrev uchar := Fin 256

/-- `#define SERIAL_BUFFER_SIZE 64` -/
def SERIAL_BUFFER_SIZE : Nat := 64

/-- `UART_BUFFER_STATUS`: 0 empty, 1 available, 2 full. -/
inductive UART_BUFFER_STATUS where
  | empty
  | available
  | full
deriving DecidableEq

/-- `struct ring_buffer`. -/
structure ring_buffer where
  buffer : List uchar
  head : Nat
  tail : Nat
  status : UART_BUFFER_STATUS
deriving DecidableEq

/-- `struct object_usart`, with the two static rings it points to held in
place (`rx_buffer_isr1`, `tx_buffer_isr1`).  The three function pointers are
bound once, to `Serial1Read`, `print_from_uart` and `set_debug_uart`. -/
structure object_uart where
  channel : Nat
  debug : uchar
  rx_buffer : ring_buffer
  tx_buffer : ring_buffer
deriving DecidableEq

/-- The USART1 peripheral as far as this code drives it: whether the TXE
interrupt is enabled (`USART_ITConfig(USART1, USART_IT_TXE, ·)`) and the bytes
handed to `USART_SendData(USART1, ·)`, oldest first. -/
structure USART_TypeDef where
  IT_TXE : Bool
  sent : List uchar
deriving DecidableEq

/-! ## uart_object.c -/

/-- The static initialiser `{{0},0,0,empty}` of `rx_buffer_isr1` and
`tx_buffer_isr1`. -/
def ring_buffer_isr_init : ring_buffer :=
  { buffer := List.replicate SERIAL_BUFFER_SIZE 0, head := 0, tail := 0, status := .empty }

/-- `static int store_char(unsigned char c, struct ring_buffer *buffer)`. -/
def store_char (c : uchar) (buffer : ring_buffer) : Int × ring_buffer :=
  let i := (buffer.head + 1) % SERIAL_BUFFER_SIZE
  if buffer.status ≠ .full then
    let i2 := (i + 1) % SERIAL_BUFFER_SIZE
    (0, { buffer := buffer.buffer.set buffer.head c
          head := i
          tail := buffer.tail
          status := if i2 = buffer.tail then .full else .available })
  else
    (-1, buffer)

/-- `static int Serial1Read(object_uart *o_uart)`. -/
def Serial1Read (o_uart : object_uart) : Int × object_uart :=
  let rx := o_uart.rx_buffer
  if rx.status ≠ .empty then
    let tmp_tail := (rx.tail + 1) % SERIAL_BUFFER_SIZE
    let tmp_head := rx.head
    let c : uchar := rx.buffer.getD rx.tail 0
    (((c.val : Nat) : Int),
     { o_uart with rx_buffer :=
        { buffer := rx.buffer.set rx.tail 0
          head := rx.head
          tail := tmp_tail
          status := if tmp_tail = tmp_head then .empty else .available } })
  else
    (-1, o_uart)

/-- The transmit half of `USART1_IRQHandler` (flag TXE set): with an empty
transmit ring the TXE interrupt is disabled, otherwise one byte moves from the
ring to the wire. -/
def USART1_IRQHandler_TXE (u : object_uart) (hw : USART_TypeDef) :
    object_uart × USART_TypeDef :=
  let tx := u.tx_buffer
  if tx.status = .empty then
    (u, { hw with IT_TXE := false })
  else
    let c : uchar := tx.buffer.getD tx.tail 0
    let tail := (tx.tail + 1) % SERIAL_BUFFER_SIZE
    ({ u with tx_buffer :=
        { buffer := tx.buffer
          head := tx.head
          tail := tail
          status := if tail = tx.head then .empty else .available } },
     { hw with sent := hw.sent ++ [c] })

/-- `void USART1_IRQHandler(void)`: `rxne` is the received byte when flag RXNE
is set, `txe` is flag TXE. -/
def USART1_IRQHandler (rxne : Option uchar) (txe : Bool)
    (u : object_uart) (hw : USART_TypeDef) : object_uart × USART_TypeDef :=
  let u1 : object_uart :=
    match rxne with
    | some c => { u with rx_buffer := (store_char c u.rx_buffer).2 }
    | none => u
  if txe then USART1_IRQHandler_TXE u1 hw else (u1, hw)

/-- `static int Serial1Write(object_uart *o_uart, char c)`.  The busy wait
`while (tx_buffer->status == full);` can only be ended by the interrupt handler
draining a byte; the model lets the handler run once when the ring is full,
which leaves the ring not full. -/
def Serial1Write (o_uart : object_uart) (hw : USART_TypeDef) (c : uchar) :
    object_uart × USART_TypeDef :=
  let i := (o_uart.tx_buffer.head + 1) % SERIAL_BUFFER_SIZE
  let waited :=
    if o_uart.tx_buffer.status = .full then USART1_IRQHandler_TXE o_uart hw else (o_uart, hw)
  let u := waited.1
  let i2 := (i + 1) % SERIAL_BUFFER_SIZE
  ({ u with tx_buffer :=
      { buffer := u.tx_buffer.buffer.set u.tx_buffer.head c
        head := i
        tail := u.tx_buffer.tail
        status := if i2 = u.tx_buffer.tail then .full else .available } },
   { waited.2 with IT_TXE := true })

/-- `static void SerialPrint(object_uart *o_uart, char *dat)`: writes the bytes
of `dat` up to its first NUL. -/
def SerialPrint (o_uart : object_uart) (hw : USART_TypeDef) :
    List uchar → object_uart × USART_TypeDef
  | [] => (o_uart, hw)
  | p :: dat =>
    if p ≠ 0 then
      let w := Serial1Write o_uart hw p
      SerialPrint w.1 w.2 dat
    else (o_uart, hw)

/-- `static int print_from_uart(object_uart *o_uart, const char *format, ...)`.
`text` is the expansion of the format; `vsnprintf` keeps its first
`SERIAL_BUFFER_SIZE - 1` bytes in the scratch buffer and returns the full
length. -/
def print_from_uart (o_uart : object_uart) (hw : USART_TypeDef) (text : List uchar) :
    Int × object_uart × USART_TypeDef :=
  let ret : Int := text.length
  let buf := text.take (SERIAL_BUFFER_SIZE - 1)
  if ret > 0 then (ret, SerialPrint o_uart hw buf) else (ret, o_uart, hw)

/-- `int object_uart_init(object_uart *o_uart, unsigned int channel)`, channel 1:
the state of `usart1` when it returns 0 (the rings are the static ones, whose
storage starts zeroed). -/
def object_uart_init : object_uart :=
  { channel := 1
    debug := 0
    rx_buffer := { ring_buffer_isr_init with head := 0, tail := 0, status := .empty }
    tx_buffer := { ring_buffer_isr_init with head := 0, tail := 0, status := .empty } }

/-! ## ATcmd_object.h -/

/-- `#define ATCMD_BUFFER_SIZE 200` -/
def ATCMD_BUFFER_SIZE : Nat := 200

/-- `ATCMD_BUFFER_STATUS`: 0 not_start (no "AT+" received yet), 1 incomplete
("AT+" is ok, but ";" is not received), 2 complete. -/
inductive ATCMD_BUFFER_STATUS where
  | not_start
  | incomplete
  | complete
deriving DecidableEq

/-- `struct ATcmd_buffer`. -/
structure ATcmd_buffer where
  buf : List uchar
  new_position : Nat
  status : ATCMD_BUFFER_STATUS
deriving DecidableEq

/-- The globals the assembler works on: `usart1`, the USART1 peripheral and
`at_command.command`. -/
structure Board where
  usart1 : object_uart
  USART1 : USART_TypeDef
  at_command : ATcmd_buffer
deriving DecidableEq

/-! ## ATcmd_object.c -/

/-- The cast `(unsigned char)c` of an `int`. -/
def to_uchar (c : Int) : uchar := ⟨(c % 256).toNat, by omega⟩

/-- The bytes of a string literal (without the closing NUL). -/
def c_str (s : String) : List uchar := s.toList.map (fun ch => to_uchar ch.toNat)

/-- What `%s` prints of a byte array: the bytes before its first NUL. -/
def c_string_of (buf : List uchar) : List uchar := buf.takeWhile (fun b => b ≠ 0)

/-- `static void add_char_to_cmd_buf(object_ATcmd *at_cmd, int c)`.  The source
stores at `buf[new_position]` without a test; `none` stands for a store at an
index that is not below `ATCMD_BUFFER_SIZE`. -/
def add_char_to_cmd_buf (at_cmd : ATcmd_buffer) (c : Int) : Option ATcmd_buffer :=
  if at_cmd.new_position < ATCMD_BUFFER_SIZE then
    some { at_cmd with
            buf := at_cmd.buf.set at_cmd.new_position (to_uchar c)
            new_position := at_cmd.new_position + 1 }
  else
    none

/-- `static void clean_cmd_buf(object_ATcmd *at_cmd)`: the loop
`for (count = 0; count < new_position; count++) buf[count] = 0`, then cursor 0
and status `not_start`. -/
def clean_cmd_buf (at_cmd : ATcmd_buffer) : ATcmd_buffer :=
  { buf := (List.range at_cmd.new_position).foldl (fun b count => b.set count 0) at_cmd.buf
    new_position := 0
    status := .not_start }

/-- `static int get_a_cmd(object_ATcmd *at_cmd)`, on the globals `usart1` and
`at_command`.  `usart1.getchar` is `Serial1Read` and `usart1.printf` is
`print_from_uart`.  Byte values: 65 is A, 84 is T, 43 is +, 59 is the
terminator, 10 is newline, 0 is NUL. -/
def get_a_cmd (g : Board) : Option (Int × Board) :=
  match g.at_command.status with
  | .not_start =>
    let r := Serial1Read g.usart1
    let c := r.1
    let g1 : Board := { g with usart1 := r.2 }
    if c ≠ -1 then
      if to_uchar c = 65 then
        (add_char_to_cmd_buf g1.at_command c).map
          (fun a => (0, { g1 with at_command := a }))
      else if to_uchar c = 84 then
        if g1.at_command.buf.getD 0 0 = 65 then
          (add_char_to_cmd_buf g1.at_command c).map
            (fun a => (0, { g1 with at_command := a }))
        else
          some (-1, { g1 with at_command := clean_cmd_buf g1.at_command })
      else if to_uchar c = 43 then
        if g1.at_command.buf.getD 1 0 = 84 then
          (add_char_to_cmd_buf g1.at_command c).map
            (fun a => (0, { g1 with at_command := { a with status := .incomplete } }))
        else
          some (-1, { g1 with at_command := clean_cmd_buf g1.at_command })
      else
        some (-1, { g1 with at_command := clean_cmd_buf g1.at_command })
    else
      some (-1, g1)
  | .incomplete =>
    let r := Serial1Read g.usart1
    let c := r.1
    let g1 : Board := { g with usart1 := r.2 }
    if c ≠ -1 then
      if to_uchar c ≠ 0 ∧ to_uchar c ≠ 10 then
        match add_char_to_cmd_buf g1.at_command c with
        | none => none
        | some a =>
          if to_uchar c = 59 then
            let a2 : ATcmd_buffer := { a with status := .complete }
            if g1.usart1.debug = 1 then
              let p1 := print_from_uart g1.usart1 g1.USART1 (c_str "Your Inputs:")
              let p2 := print_from_uart p1.2.1 p1.2.2 (c_string_of a2.buf ++ [10])
              some (0, { usart1 := p2.2.1, USART1 := p2.2.2, at_command := a2 })
            else
              some (0, { g1 with at_command := a2 })
          else
            some (0, { g1 with at_command := a })
      else
        some (0, g1)
    else
      some (-1, g1)
  | .complete => some (0, g)

/-- The command part of `int object_ATcmd_init(object_ATcmd *at_cmd)`: the
buffer is filled with NUL, cursor 0, status `not_start`. -/
def object_ATcmd_init : ATcmd_buffer :=
  { buf := List.replicate ATCMD_BUFFER_SIZE 0, new_position := 0, status := .not_start }

/-- The globals after the initialisation calls of `main`; the TXE interrupt of
the peripheral is off until the first `Serial1Write`. -/
def main_init : Board :=
  { usart1 := object_uart_init
    USART1 := { IT_TXE := false, sent := [] }
    at_command := object_ATcmd_init }

/-! ## Calls on the receive ring, and what it holds -/

/-- One call on the receive path of `usart1`: the interrupt handler storing a
received byte with `store_char`, or the main loop reading with `Serial1Read`. -/
inductive RxOp where
  | push (c : uchar)
  | pop
deriving DecidableEq

/-- The call `op` on `u`: its return value and the state it leaves. -/
def rx_call (u : object_uart) : RxOp → Int × object_uart
  | .push c =>
    let r := store_char c u.rx_buffer
    (r.1, { u with rx_buffer := r.2 })
  | .pop => Serial1Read u

/-- The calls `ops` in order from `u`: every return value, and the last state. -/
def rx_run (u : object_uart) : List RxOp → List Int × object_uart
  | [] => ([], u)
  | op :: ops =>
    let r := rx_call u op
    let rest := rx_run r.2 ops
    (r.1 :: rest.1, rest.2)

/-- The bytes of the pushes of `ops` that returned 0, in call order (`rets` are
the return values of `ops`). -/
def pushed_bytes : List RxOp → List Int → List uchar
  | .push c :: ops, r :: rets =>
    if r = 0 then c :: pushed_bytes ops rets else pushed_bytes ops rets
  | .pop :: ops, _ :: rets => pushed_bytes ops rets
  | _, _ => []

/-- The values returned by the pops of `ops` that did not return -1, in call
order. -/
def popped_values : List RxOp → List Int → List Int
  | .pop :: ops, r :: rets =>
    if r ≠ -1 then r :: popped_values ops rets else popped_values ops rets
  | .push _ :: ops, _ :: rets => popped_values ops rets
  | _, _ => []

/-- The value `Serial1Read` returns for a stored byte. -/
def byte_value (b : uchar) : Int := ((b.val : Nat) : Int)

/-- The ring `rb` is well formed and holds exactly the bytes `q`, oldest first:
`q` sits in the slots from `tail` on, `head` is `q.length` slots further, and
`status` tells an empty ring (head = tail) from one holding 63 bytes. -/
structure Holds (rb : ring_buffer) (q : List uchar) : Prop where
  len : rb.buffer.length = SERIAL_BUFFER_SIZE
  tail_lt : rb.tail < SERIAL_BUFFER_SIZE
  count_le : q.length ≤ SERIAL_BUFFER_SIZE - 1
  head_eq : rb.head = (rb.tail + q.length) % SERIAL_BUFFER_SIZE
  status_eq : rb.status =
    if q.length = 0 then .empty
    else if q.length = SERIAL_BUFFER_SIZE - 1 then .full else .available
  slots : ∀ i, i < q.length →
    rb.buffer.getD ((rb.tail + i) % SERIAL_BUFFER_SIZE) 0 = q.getD i 0

/-! ## Feeding a byte stream to the assembler -/

/-- A byte arrives on the line: `USART1_IRQHandler` runs with RXNE set (and TXE
clear) and stores it in the receive ring. -/
def receive_byte (g : Board) (c : uchar) : Board :=
  let r := USART1_IRQHandler (some c) false g.usart1 g.USART1
  { g with usart1 := r.1, USART1 := r.2 }

/-- One byte of the stream, then one `get_cmd` call of the main loop. -/
def feed (g : Board) (c : uchar) : Option (Int × Board) :=
  get_a_cmd (receive_byte g c)

/-- The stream fed one byte per `get_cmd` call; `none` when a call stored
outside the command buffer. -/
def feed_stream : Board → List uchar → Option Board
  | g, [] => some g
  | g, c :: cs =>
    match feed g c with
    | none => none
    | some r => feed_stream r.2 cs

/-- The bytes of `body` that are neither NUL nor newline. -/
def without_noise (body : List uchar) : List uchar :=
  body.filter (fun b => decide (b ≠ 0 ∧ b ≠ 10))

/-- The 200-byte command buffer that holds the text `w`: `w`, then NUL up to
`ATCMD_BUFFER_SIZE`. -/
def holding (w : List uchar) : List uchar :=
  w ++ List.replicate (ATCMD_BUFFER_SIZE - w.length) 0

/-- Proof device: `get_a_cmd` on a received byte `c`, read off on the status
and the text `w` held so far.  The result is the return value, the next status
and the next text; `none` when the text would outgrow the buffer. -/
def asm_next (st : ATCMD_BUFFER_STATUS) (w : List uchar) (c : uchar) :
    Option (Int × ATCMD_BUFFER_STATUS × List uchar) :=
  match st with
  | .not_start =>
    if c = 65 then
      if w.length < ATCMD_BUFFER_SIZE then some (0, .not_start, w ++ [c]) else none
    else if c = 84 then
      if w.getD 0 0 = 65 then
        if w.length < ATCMD_BUFFER_SIZE then some (0, .not_start, w ++ [c]) else none
      else some (-1, .not_start, [])
    else if c = 43 then
      if w.getD 1 0 = 84 then
        if w.length < ATCMD_BUFFER_SIZE then some (0, .incomplete, w ++ [c]) else none
      else some (-1, .not_start, [])
    else some (-1, .not_start, [])
  | .incomplete =>
    if c ≠ 0 ∧ c ≠ 10 then
      if w.length < ATCMD_BUFFER_SIZE then
        some (0, if c = 59 then .complete else .incomplete, w ++ [c])
      else none
    else some (0, .incomplete, w)
  | .complete => some (0, .complete, w)

/-- The assembler state reached over a stream: the receive ring is well formed
and, until a command is complete, empty between calls; the buffer holds a text
`w` of `new_position` bytes followed by NUL only. -/
structure AsmInv (g : Board) : Prop where
  rx : g.at_command.status ≠ .complete → Holds g.usart1.rx_buffer []
  text : ∃ w : List uchar, g.at_command.buf = holding w ∧
    g.at_command.new_position = w.length ∧ w.length ≤ ATCMD_BUFFER_SIZE

/-! ## Lookup, tokenizer and dispatch (ATcmd_object.c) -/

/-- `#define MAX_ATCMD_NUM 38` -/
def MAX_ATCMD_NUM : Nat := 38

/-- `static const unsigned char ATcmd[MAX_ATCMD_NUM][6]`: every row is its five
characters and the closing NUL. -/
def ATcmd : List (List uchar) :=
  [ "AT+SD", "AT+II",
    "AT+GX", "AT+GY", "AT+DO", "AT+DF", "AT+SC", "AT+SB", "AT+SP", "AT+WP",
    "AT+cs", "AT+fs", "AT+sf", "AT+gf", "AT+sb", "AT+gb", "AT+dp", "AT+dl",
    "AT+dr", "AT+dc", "AT+dR", "AT+fr", "AT+fc", "AT+fR", "AT+ps", "AT+pi",
    "AT+pf", "AT+sF", "AT+gF", "AT+gX", "AT+gY", "AT+dB",
    "AT+DT", "AT+ED", "AT+EW", "AT+FW",
    "AT+gt", "AT+DB" ].map (fun s => c_str s ++ [0])

/-- The C library `strncmp(s1, s2, n)` on two byte arrays: at most `n` bytes are
compared, none after a NUL; the result is the difference of the first two
bytes that differ.  A byte past the end of a list reads as NUL. -/
def strncmp : List uchar → List uchar → Nat → Int
  | _, _, 0 => 0
  | s1, s2, n + 1 =>
    let a := s1.headD 0
    let b := s2.headD 0
    if a ≠ b then byte_value a - byte_value b
    else if a = 0 then 0
    else strncmp s1.tail s2.tail n

/-- The loop of `get_cmd_index` with `remaining` rows to go from row `count`:
`for (...; count < MAX_ATCMD_NUM; count++) if (strncmp(buf, ATcmd[count], 5) == 0)
return count;` and -1 after the last row. -/
def get_cmd_index_loop (buf : List uchar) : Nat → Nat → Int
  | 0, _ => -1
  | remaining + 1, count =>
    if strncmp buf (ATcmd.getD count []) 5 = 0 then (count : Int)
    else get_cmd_index_loop buf remaining (count + 1)

/-- `static int get_cmd_index(object_ATcmd *at_cmd)`. -/
def get_cmd_index (at_cmd : ATcmd_buffer) : Int :=
  get_cmd_index_loop at_cmd.buf MAX_ATCMD_NUM 0

/-- The scan of `strtok` over leading delimiters (`strspn`): the index of the
first byte at or after `p` that is not in `delim`; `none` when the scan leaves
the array without meeting one (no closing NUL). -/
def skip_delim (mem : List uchar) (p : Nat) (delim : List uchar) : Option Nat :=
  let q := p + ((mem.drop p).takeWhile (fun b => decide (b ∈ delim))).length
  if q < mem.length then some q else none

/-- The scan of `strtok` to the end of a token (`strcspn`): the index of the
first byte at or after `p` that is NUL or in `delim`; `none` when the scan
leaves the array. -/
def find_delim (mem : List uchar) (p : Nat) (delim : List uchar) : Option Nat :=
  let e := p + ((mem.drop p).takeWhile (fun b => decide (b ≠ 0 ∧ b ∉ delim))).length
  if e < mem.length then some e else none

/-- The C library `strtok(s, delim)` on strings that live in the array `mem`.
Pointers are indices into `mem` and `none` is NULL; `saved` is the position
`strtok` keeps between calls.  With `s` NULL the scan resumes at `saved`.
Leading delimiters are skipped; at the closing NUL the result is NULL;
otherwise the token runs to the next delimiter, which is overwritten with NUL,
or to the closing NUL.  The result is the token, the array and the position
kept; `none` when a scan leaves the array. -/
def strtok (mem : List uchar) (saved : Option Nat) (s : Option Nat) (delim : List uchar) :
    Option (Option Nat × List uchar × Option Nat) :=
  match (match s with
         | some p => some p
         | none => saved) with
  | none => some (none, mem, none)
  | some p =>
    match skip_delim mem p delim with
    | none => none
    | some q =>
      if mem.getD q 0 = 0 then some (none, mem, some q)
      else
        match find_delim mem q delim with
        | none => none
        | some e =>
          if mem.getD e 0 = 0 then some (some q, mem, some e)
          else some (some q, mem.set e 0, some (e + 1))

/-- The store `*(args + i) = v` into the caller's pointer array; `none` when
`i` is not an index of the array. -/
def store_arg (args : List (Option Nat)) (i : Nat) (v : Option Nat) :
    Option (List (Option Nat)) :=
  if i < args.length then some (args.set i v) else none

/-- The loop of `get_cmd_param`:
`while (*(args+count) != NULL) { count++; *(args+count) = strtok(NULL, ","); }`.
Every pass stores one entry higher in `args`, so an array of `n` entries allows
fewer than `n` passes; `fuel` is given as the size of the array and cannot run
out before a store leaves the array. -/
def get_cmd_param_loop : Nat → List uchar → Option Nat → List (Option Nat) → Nat →
    Option (List uchar × Option Nat × List (Option Nat) × Nat)
  | fuel, mem, saved, args, count =>
    if args.getD count none = none then some (mem, saved, args, count)
    else
      match fuel with
      | 0 => none
      | fuel + 1 =>
        match strtok mem saved none [44] with
        | none => none
        | some (tok, mem2, saved2) =>
          match store_arg args (count + 1) tok with
          | none => none
          | some args2 => get_cmd_param_loop fuel mem2 saved2 args2 (count + 1)

/-- `static int get_cmd_param(object_ATcmd *at_cmd, char **args)`; `args` is the
caller's array of pointers into the command buffer.  61 is `=`, 44 is the
comma, 59 the terminator.  The result is the return value, the command (whose
buffer `strtok` has written to) and the array; `none` when a store leaves the
array `args` (also `args[-1]`, for a count of 0) or a scan leaves the buffer. -/
def get_cmd_param (at_cmd : ATcmd_buffer) (args : List (Option Nat)) :
    Option (Int × ATcmd_buffer × List (Option Nat)) :=
  if at_cmd.buf.getD 5 0 = 59 then some (0, at_cmd, args)
  else if at_cmd.buf.getD 5 0 ≠ 61 then some (-1, at_cmd, args)
  else
    match strtok at_cmd.buf none (some 6) [44] with
    | none => none
    | some (tok, mem, saved) =>
      match store_arg args 0 tok with
      | none => none
      | some args1 =>
        match get_cmd_param_loop args.length mem saved args1 0 with
        | none => none
        | some (mem2, saved2, args2, count) =>
          if count = 0 then none
          else
            match strtok mem2 saved2 (args2.getD (count - 1) none) [59] with
            | none => none
            | some (tok2, mem3, _) =>
              some ((count : Int), { at_cmd with buf := mem3 }, args2.set (count - 1) tok2)

/-- The C string at pointer `p` of the array `mem`: the bytes from `p` to the
next NUL. -/
def c_string_at (mem : List uchar) (p : Nat) : List uchar :=
  (mem.drop p).takeWhile (fun b => b ≠ 0)

/-- What a handler is handed: the first `arg_num` entries of `args`, each NULL
or the string it points to in the command buffer. -/
def argv_of (mem : List uchar) (args : List (Option Nat)) (arg_num : Int) :
    List (Option (List uchar)) :=
  (args.take arg_num.toNat).map (fun p => p.map (c_string_at mem))

/-- `func_t`, the type of the entries of `action_array`: a handler gets the
argument strings and their number.  The handlers of this program work on
`usart1`, on the peripheral and on the display state `L`; none of them names
`at_command`. -/
abbrev func_t (L : Type) : Type :=
  List (Option (List uchar)) → Int →
    object_uart × USART_TypeDef × L → object_uart × USART_TypeDef × L

/-- A call through `action_array`: the slot and the arguments handed over. -/
structure Invocation where
  slot : Int
  argv : List (Option (List uchar))
  arg_num : Int
deriving DecidableEq

/-- The outcome of `execute_a_cmd`: the return value, the globals, the display
state and the call made through `action_array`, if any. -/
structure Executed (L : Type) where
  ret : Int
  board : Board
  lcd : L
  invoked : Option Invocation

/-- `static int execute_a_cmd(object_ATcmd *at_cmd)`, with `char *args[6]` and
the table `action_array` of the object.  `none` when `get_cmd_param` has no
defined result. -/
def execute_a_cmd {L : Type} (action_array : Int → func_t L) (g : Board) (lcd : L) :
    Option (Executed L) :=
  if g.at_command.status = .complete then
    let ATcmd_index := get_cmd_index g.at_command
    if ATcmd_index = -1 then
      let p :=
        if g.usart1.debug = 1 then
          (print_from_uart g.usart1 g.USART1 (c_str "Command does not exist.\n")).2
        else (g.usart1, g.USART1)
      some { ret := -1
             board := { usart1 := p.1, USART1 := p.2,
                        at_command := clean_cmd_buf g.at_command }
             lcd := lcd
             invoked := none }
    else
      match get_cmd_param g.at_command (List.replicate 6 none) with
      | none => none
      | some (arg_num, at_cmd2, args) =>
        if arg_num = -1 then
          let p :=
            if g.usart1.debug = 1 then
              (print_from_uart g.usart1 g.USART1 (c_str "Parameters error.\n")).2
            else (g.usart1, g.USART1)
          some { ret := -1
                 board := { usart1 := p.1, USART1 := p.2,
                            at_command := clean_cmd_buf at_cmd2 }
                 lcd := lcd
                 invoked := none }
        else
          let argv := argv_of at_cmd2.buf args arg_num
          let w := action_array ATcmd_index argv arg_num (g.usart1, g.USART1, lcd)
          some { ret := 0
                 board := { usart1 := w.1, USART1 := w.2.1,
                            at_command := clean_cmd_buf at_cmd2 }
                 lcd := w.2.2
                 invoked := some { slot := ATcmd_index, argv := argv, arg_num := arg_num } }
  else
    some { ret := -1, board := g, lcd := lcd, invoked := none }

/-! ## The transmit channel as a byte stream -/

/-- The bytes a ring holds, oldest first: none when the status is empty, else
the slots from `tail` up to `head`. -/
def ring_pending (rb : ring_buffer) : List uchar :=
  match rb.status with
  | .empty => []
  | _ =>
    (List.range ((rb.head + SERIAL_BUFFER_SIZE - rb.tail) % SERIAL_BUFFER_SIZE)).map
      (fun i => rb.buffer.getD ((rb.tail + i) % SERIAL_BUFFER_SIZE) 0)

/-- Every byte written to the transmit channel so far, in order: the bytes the
interrupt handler has handed to the peripheral, then the bytes still waiting in
the transmit ring. -/
def transmitted (u : object_uart) (hw : USART_TypeDef) : List uchar :=
  hw.sent ++ ring_pending u.tx_buffer

/-! ## The handlers of ATcmd_object.c -/

/-- `static void set_debug_uart(object_uart *o_uart, unsigned char value)`; the
text printed for a flag of 1 is `debug flag is 1` and a newline. -/
def set_debug_uart (o_uart : object_uart) (hw : USART_TypeDef) (value : uchar) :
    object_uart × USART_TypeDef :=
  let u : object_uart := { o_uart with debug := value }
  if u.debug = 1 then (print_from_uart u hw (c_str "debug flag is 1\n")).2
  else (u, hw)

/-- `static void SetDebug(unsigned char **args, int arg_num)`, on `usart1` and
the peripheral.  `args` are the argument strings (NULL is `none`); 48 is the
character 0, 49 the character 1, 39 the apostrophe.  `flag = **args` reads the
first byte of the first argument, the closing NUL for an empty string; `none`
when that argument is a NULL pointer. -/
def SetDebug (args : List (Option (List uchar))) (arg_num : Int)
    (w : object_uart × USART_TypeDef) : Option (object_uart × USART_TypeDef) :=
  if arg_num ≠ 1 then
    some (if w.1.debug = 1 then (print_from_uart w.1 w.2 (c_str "Parameter error.\n")).2
          else w)
  else
    match args.head? with
    | some (some str) =>
      let flag : uchar := str.headD 0
      if flag = 48 then some (set_debug_uart w.1 w.2 0)
      else if flag = 49 then some (set_debug_uart w.1 w.2 1)
      else
        some (if w.1.debug = 1 then
                (print_from_uart w.1 w.2
                  (c_str "Parameter is not " ++ [39, 48, 39] ++ c_str " or " ++ [39, 49, 39] ++
                    c_str ".\n")).2
              else w)
    | _ => none

/-! ## lcd_object.h and the device set-up of lcd_object.c -/

/-- The functions an action pointer is bound to somewhere in the program. -/
inductive Handler where
  | SetDevice | LCD_Init_hx8347a | idle_hx8347a
  | GetDisplayXSize_uart1 | GetDisplayYSize_uart1 | DeviceOn | DeviceOff
  | ClearScreen | FillScreen | SetFrontColor | GetFrontColor_uart1
  | SetBackColor | GetBackColor_uart1 | DrawPoint | DrawLine | DrawRectangle
  | DrawCircle | DrawRoundRect | FillRectangle | FillCircle | FillRoundRect
  | PrintString | SetFont | GetFont_uart1 | GetFontXSize_uart1 | GetFontYSize_uart1
  | action_test | action_idle | SetDebug
deriving DecidableEq

/-- `struct object_LCD`, the fields in the order of the declaration; a function
pointer is `none` while it is NULL. -/
structure object_lcd where
  index : Nat
  set_device : Option Handler
  lcd_init : Option Handler
  get_lcd_Xsize : Option Handler
  get_lcd_Ysize : Option Handler
  device_on : Option Handler
  device_off : Option Handler
  set_contrast : Option Handler
  set_brightness : Option Handler
  set_display_page : Option Handler
  write_page : Option Handler
  clear_screen : Option Handler
  fill_screen : Option Handler
  set_front_color : Option Handler
  get_front_color : Option Handler
  set_back_color : Option Handler
  get_back_color : Option Handler
  draw_point : Option Handler
  draw_line : Option Handler
  draw_rectangle : Option Handler
  draw_cricle : Option Handler
  d_round_rectangle : Option Handler
  fill_rectangle : Option Handler
  fill_cricle : Option Handler
  f_round_rectangle : Option Handler
  print_string : Option Handler
  print_integer : Option Handler
  print_float : Option Handler
  set_font : Option Handler
  get_font : Option Handler
  get_font_Xsize : Option Handler
  get_font_Ysize : Option Handler
  draw_bitmap : Option Handler
deriving DecidableEq

/-- The function pointers of `struct object_LCD` in the order of the
declaration in `lcd_object.h`. -/
def object_lcd.pointers (lcd : object_lcd) : List (Option Handler) :=
  [ lcd.set_device, lcd.lcd_init,
    lcd.get_lcd_Xsize, lcd.get_lcd_Ysize, lcd.device_on, lcd.device_off,
    lcd.set_contrast, lcd.set_brightness, lcd.set_display_page, lcd.write_page,
    lcd.clear_screen, lcd.fill_screen, lcd.set_front_color, lcd.get_front_color,
    lcd.set_back_color, lcd.get_back_color, lcd.draw_point, lcd.draw_line,
    lcd.draw_rectangle, lcd.draw_cricle, lcd.d_round_rectangle, lcd.fill_rectangle,
    lcd.fill_cricle, lcd.f_round_rectangle, lcd.print_string, lcd.print_integer,
    lcd.print_float, lcd.set_font, lcd.get_font, lcd.get_font_Xsize,
    lcd.get_font_Ysize, lcd.draw_bitmap ]

/-- The global `global_lcd` before any initialisation: all zero. -/
def global_lcd_zero : object_lcd :=
  { index := 0
    set_device := none, lcd_init := none, get_lcd_Xsize := none, get_lcd_Ysize := none
    device_on := none, device_off := none, set_contrast := none, set_brightness := none
    set_display_page := none, write_page := none, clear_screen := none, fill_screen := none
    set_front_color := none, get_front_color := none, set_back_color := none
    get_back_color := none, draw_point := none, draw_line := none, draw_rectangle := none
    draw_cricle := none, d_round_rectangle := none, fill_rectangle := none
    fill_cricle := none, f_round_rectangle := none, print_string := none
    print_integer := none, print_float := none, set_font := none, get_font := none
    get_font_Xsize := none, get_font_Ysize := none, draw_bitmap := none }

/-- What the program does to the display hardware, in order: `FSMC_Init()`, the
reset pin PD2 driven low or high, `Delayms(n)`, and the 16-bit stores to the
register address (`command`) and to the data address (`data`) of the panel. -/
inductive LcdEvent where
  | FSMC_Init
  | reset_pin (high : Bool)
  | Delayms (n : Nat)
  | command (index : Nat)
  | data (val : Nat)
deriving DecidableEq

/-- The display side of the program: `global_lcd`, the file-level variables
`front_color`, `back_color`, `display_x`, `display_y` of `lcd_object.c`, and the
hardware events so far. -/
structure LcdState where
  global_lcd : object_lcd
  front_color : Nat
  back_color : Nat
  display_x : Nat
  display_y : Nat
  events : List LcdEvent
deriving DecidableEq

/-- The display side at program start: `global_lcd` zero, `front_color = 0`,
`back_color = 65535`, `display_x = display_y = 0`. -/
def lcd_start : LcdState :=
  { global_lcd := global_lcd_zero, front_color := 0, back_color := 65535
    display_x := 0, display_y := 0, events := [] }

/-- `struct _lcd_type`. -/
structure lcd_type where
  name : List uchar
  x_size : Nat
  y_size : Nat

/-- `#define MAX_LCD_INDEX_NUM 1` -/
def MAX_LCD_INDEX_NUM : Nat := 1

/-- `static const struct _lcd_type lcd_index[]`; `name` is `char[8]`, the seven
characters and the closing NUL. -/
def lcd_index : List lcd_type :=
  [ { name := c_str "HX8347A" ++ [0], x_size := 240, y_size := 320 } ]

/-- `Write_Command(index)`: a 16-bit store to the register address. -/
def Write_Command (s : LcdState) (index : Nat) : LcdState :=
  { s with events := s.events ++ [LcdEvent.command (index % 65536)] }

/-- `Write_Data(val)`: a 16-bit store to the data address. -/
def Write_Data (s : LcdState) (val : Nat) : LcdState :=
  { s with events := s.events ++ [LcdEvent.data (val % 65536)] }

/-- `Write_Command_Data(index, val)`. -/
def Write_Command_Data (s : LcdState) (index val : Nat) : LcdState :=
  Write_Data (Write_Command s index) val

/-- `SetXY(x0, y0, x1, y1)`, the arguments being `unsigned int`. -/
def SetXY (s : LcdState) (x0 y0 x1 y1 : Nat) : LcdState :=
  let s1 := Write_Command_Data s 0x0044 ((x1 * 256 + x0) % 2 ^ 32)
  let s2 := Write_Command_Data s1 0x0045 y0
  let s3 := Write_Command_Data s2 0x0046 y1
  let s4 := Write_Command_Data s3 0x004e x0
  let s5 := Write_Command_Data s4 0x004f y0
  Write_Command s5 0x0022

/-- The register values `LCD_Init_hx8347a` sends with `Write_Command_Data`, in
order. -/
def hx8347a_registers : List (Nat × Nat) :=
  [ (0x0000, 0x0001), (0x0003, 0xA8A4), (0x000C, 0x0000), (0x000D, 0x080C),
    (0x000E, 0x2B00), (0x001E, 0x00B7), (0x0001, 0x2B3F), (0x0002, 0x0600),
    (0x0010, 0x0000), (0x0011, 0x6070), (0x0005, 0x0000), (0x0006, 0x0000),
    (0x0016, 0xEF1C), (0x0017, 0x0003), (0x0007, 0x0233), (0x000B, 0x0000),
    (0x000F, 0x0000), (0x0041, 0x0000), (0x0042, 0x0000), (0x0048, 0x0000),
    (0x0049, 0x013F), (0x004A, 0x0000), (0x004B, 0x0000), (0x0044, 0xEF00),
    (0x0045, 0x0000), (0x0046, 0x013F), (0x0030, 0x0707), (0x0031, 0x0204),
    (0x0032, 0x0204), (0x0033, 0x0502), (0x0034, 0x0507), (0x0035, 0x0204),
    (0x0036, 0x0204), (0x0037, 0x0502), (0x003A, 0x0302), (0x003B, 0x0302),
    (0x0023, 0x0000), (0x0024, 0x0000), (0x0025, 0x8000), (0x004f, 0x0000),
    (0x004e, 0x0000) ]

/-- `static void LCD_Init_hx8347a(unsigned char **args, int arg_num)`.  The
load `unsigned char *p = *args` at its start is used only for the `p++` of the
branch that returns at once; it is left out (the one caller with a NULL `args`,
`object_lcd_init`, passes `arg_num = 0`). -/
def LCD_Init_hx8347a (_args : List (Option (List uchar))) (arg_num : Int)
    (w : object_uart × USART_TypeDef × LcdState) : object_uart × USART_TypeDef × LcdState :=
  if arg_num ≠ 0 then w
  else
    let s := w.2.2
    let s1 : LcdState :=
      { s with events := s.events ++
          [LcdEvent.reset_pin false, LcdEvent.Delayms 4, LcdEvent.reset_pin true,
           LcdEvent.Delayms 10] }
    let s2 := hx8347a_registers.foldl (fun t r => Write_Command_Data t r.1 r.2) s1
    let s3 := Write_Command s2 0x0022
    if w.1.debug = 1 then
      let p := print_from_uart w.1 w.2.1 (c_str "LCD is initialized.\n")
      (p.2.1, p.2.2, s3)
    else (w.1, w.2.1, s3)

/-- `static void ClearScreen(unsigned char **args, int arg_num)`: with no
argument the whole area is selected (`display_x - 1` and `display_y - 1` in
`unsigned int` arithmetic) and `display_y * display_x` times `back_color` is
sent. -/
def ClearScreen (_args : List (Option (List uchar))) (arg_num : Int)
    (w : object_uart × USART_TypeDef × LcdState) : object_uart × USART_TypeDef × LcdState :=
  if arg_num ≠ 0 then w
  else
    let s := w.2.2
    let s1 := SetXY s 0 0 ((s.display_x + 2 ^ 32 - 1) % 2 ^ 32) ((s.display_y + 2 ^ 32 - 1) % 2 ^ 32)
    let s2 : LcdState :=
      { s1 with events := s1.events ++
          List.replicate (s.display_y * s.display_x) (LcdEvent.data (s.back_color % 65536)) }
    (w.1, w.2.1, s2)

/-- `int object_lcd_init(object_lcd *lcd)` on `global_lcd`; the result is the
return value 0 and the state.  Every value of `index` takes the one branch
`case 0: default:` of the `switch`.  The two calls at the end go through the
pointers bound just before, `LCD_Init_hx8347a` and `ClearScreen`. -/
def object_lcd_init (w : object_uart × USART_TypeDef × LcdState) :
    Int × (object_uart × USART_TypeDef × LcdState) :=
  let s := w.2.2
  let s1 : LcdState := { s with events := s.events ++ [LcdEvent.FSMC_Init] }
  let x := (lcd_index.headD { name := [], x_size := 0, y_size := 0 }).x_size
  let y := (lcd_index.headD { name := [], x_size := 0, y_size := 0 }).y_size
  let lcd1 : object_lcd :=
    { s1.global_lcd with
        lcd_init := some Handler.LCD_Init_hx8347a
        set_contrast := some Handler.idle_hx8347a
        set_brightness := some Handler.idle_hx8347a
        set_display_page := some Handler.idle_hx8347a
        write_page := some Handler.idle_hx8347a }
  let lcd2 : object_lcd :=
    { lcd1 with
        set_device := some Handler.SetDevice
        get_lcd_Xsize := some Handler.GetDisplayXSize_uart1
        get_lcd_Ysize := some Handler.GetDisplayYSize_uart1
        device_on := some Handler.DeviceOn
        device_off := some Handler.DeviceOff
        clear_screen := some Handler.ClearScreen
        fill_screen := some Handler.FillScreen
        set_front_color := some Handler.SetFrontColor
        get_front_color := some Handler.GetFrontColor_uart1
        set_back_color := some Handler.SetBackColor
        get_back_color := some Handler.GetBackColor_uart1
        draw_point := some Handler.DrawPoint
        draw_line := some Handler.DrawLine
        draw_rectangle := some Handler.DrawRectangle
        draw_cricle := some Handler.DrawCircle
        d_round_rectangle := some Handler.DrawRoundRect
        fill_rectangle := some Handler.FillRectangle
        fill_cricle := some Handler.FillCircle
        f_round_rectangle := some Handler.FillRoundRect
        print_string := some Handler.PrintString
        print_integer := some Handler.PrintString
        print_float := some Handler.PrintString
        set_font := some Handler.SetFont
        get_font := some Handler.GetFont_uart1
        get_font_Xsize := some Handler.GetFontXSize_uart1
        get_font_Ysize := some Handler.GetFontYSize_uart1
        draw_bitmap := some Handler.action_test }
  let s2 : LcdState := { s1 with display_x := x, display_y := y, global_lcd := lcd2 }
  let w3 := LCD_Init_hx8347a [] 0 (w.1, w.2.1, s2)
  let w4 := ClearScreen [] 0 w3
  (0, w4)

/-- The loop of `get_lcd_index` with `remaining` rows to go from row `count`:
`strncmp(lcd_name, (const char *)&lcd_index[count], 7) == 0` returns `count`. -/
def get_lcd_index_loop (lcd_name : List uchar) : Nat → Nat → Int
  | 0, _ => -1
  | remaining + 1, count =>
    if strncmp lcd_name
        (lcd_index.getD count { name := [], x_size := 0, y_size := 0 }).name 7 = 0 then
      (count : Int)
    else get_lcd_index_loop lcd_name remaining (count + 1)

/-- `static int get_lcd_index(char *lcd_name)`; `lcd_name` is the string
pointed to, without its closing NUL. -/
def get_lcd_index (lcd_name : List uchar) : Int :=
  get_lcd_index_loop lcd_name MAX_LCD_INDEX_NUM 0

/-- `static void SetDevice(unsigned char **args, int arg_num)`.  39 is the
apostrophe of the two messages.  `none` when the one argument is a NULL
pointer, which `strncmp` would read through. -/
def SetDevice (args : List (Option (List uchar))) (arg_num : Int)
    (w : object_uart × USART_TypeDef × LcdState) :
    Option (object_uart × USART_TypeDef × LcdState) :=
  if arg_num ≠ 1 then some w
  else
    match args.head? with
    | some (some lcd_name) =>
      let index := get_lcd_index lcd_name
      if index = -1 then
        if w.1.debug = 1 then
          let p := print_from_uart w.1 w.2.1
            (c_str "The " ++ [39] ++ lcd_name ++ [39] ++ c_str " is not support\n")
          some (p.2.1, p.2.2, w.2.2)
        else some w
      else
        let p :=
          if w.1.debug = 1 then
            (print_from_uart w.1 w.2.1
              (c_str "Set lcd_index to " ++ [39] ++ lcd_name ++ [39] ++ c_str "\n")).2
          else (w.1, w.2.1)
        let s : LcdState :=
          { w.2.2 with global_lcd := { w.2.2.global_lcd with index := index.toNat } }
        some (object_lcd_init (p.1, p.2, s)).2
    | _ => none

/-- The action part of `int object_ATcmd_init(object_ATcmd *at_cmd)`: the stores
`action_array[count++] = global_lcd.<field>` in the order of the source, the
loop `while (count < MAX_ATCMD_NUM - 1) action_array[count++] = action_idle`
and the store of `SetDebug` into the last entry.  The array starts all NULL. -/
def object_ATcmd_init_actions (global_lcd : object_lcd) : List (Option Handler) :=
  let stores : List (Option Handler) :=
    [ global_lcd.set_device, global_lcd.lcd_init, global_lcd.get_lcd_Xsize,
      global_lcd.get_lcd_Ysize, global_lcd.device_on, global_lcd.device_off,
      global_lcd.set_contrast, global_lcd.set_brightness, global_lcd.set_display_page,
      global_lcd.write_page, global_lcd.clear_screen, global_lcd.fill_screen,
      global_lcd.set_front_color, global_lcd.get_front_color, global_lcd.set_back_color,
      global_lcd.get_back_color, global_lcd.draw_point, global_lcd.draw_line,
      global_lcd.draw_rectangle, global_lcd.draw_cricle, global_lcd.d_round_rectangle,
      global_lcd.fill_rectangle, global_lcd.fill_cricle, global_lcd.f_round_rectangle,
      global_lcd.print_string, global_lcd.print_integer, global_lcd.print_float,
      global_lcd.set_font, global_lcd.get_font, global_lcd.get_font_Xsize,
      global_lcd.get_font_Ysize, global_lcd.draw_bitmap ]
  let a0 : List (Option Handler) × Nat := (List.replicate MAX_ATCMD_NUM none, 0)
  let a1 := stores.foldl (fun a f => (a.1.set a.2 f, a.2 + 1)) a0
  let a2 := (List.range (MAX_ATCMD_NUM - 1 - a1.2)).foldl
    (fun a _ => (a.1.set a.2 (some Handler.action_idle), a.2 + 1)) a1
  a2.1.set (MAX_ATCMD_NUM - 1) (some Handler.SetDebug)

/-! ## The main loop and the interrupts, as a run of events -/

/-- What can happen next: the interrupt handler runs (with a received byte when
RXNE is set, and with or without TXE), or the main loop calls `get_cmd` or
`execute`. -/
inductive Event where
  | interrupt (rxne : Option uchar) (txe : Bool)
  | get_cmd
  | execute

/-- One event on the globals and the display state; `none` when the call has
no defined result. -/
def main_step {L : Type} (action_array : Int → func_t L) (s : Board × L) :
    Event → Option (Board × L)
  | .interrupt rxne txe =>
    let r := USART1_IRQHandler rxne txe s.1.usart1 s.1.USART1
    some ({ s.1 with usart1 := r.1, USART1 := r.2 }, s.2)
  | .get_cmd => (get_a_cmd s.1).map (fun r => (r.2, s.2))
  | .execute => (execute_a_cmd action_array s.1 s.2).map (fun r => (r.board, r.lcd))

/-- The events in order. -/
def main_run {L : Type} (action_array : Int → func_t L) (s : Board × L) :
    List Event → Option (Board × L)
  | [] => some s
  | e :: es =>
    match main_step action_array s e with
    | none => none
    | some s2 => main_run action_array s2 es

/-! ## Well-formed commands -/

/-- The parameter section `p1,p2,...,pk;` of a command, the terminator
included: the bytes after `=`.  44 is the comma, 59 the terminator. -/
def param_text : List (List uchar) → List uchar
  | [] => []
  | [p] => p ++ [59]
  | p :: q :: qs => p ++ 44 :: param_text (q :: qs)

/-- The text of the command `AT+<code>;` or `AT+<code>=p1,...,pk;`;
`mnemonic` is the five bytes `AT+<code>`, 61 is `=`. -/
def command_text (mnemonic : List uchar) (params : List (List uchar)) : List uchar :=
  match params with
  | [] => mnemonic ++ [59]
  | p :: ps => mnemonic ++ 61 :: param_text (p :: ps)

/-- Proof device: the parameter section after the comma loop of
`get_cmd_param`, every comma overwritten with NUL. -/
def param_cut : List (List uchar) → List uchar
  | [] => []
  | [p] => p ++ [59]
  | p :: q :: qs => p ++ 0 :: param_cut (q :: qs)

/-- Proof device: the pointers to the parameters of a section that starts at
index `off` of the buffer. -/
def param_ptrs (off : Nat) : List (List uchar) → List (Option Nat)
  | [] => []
  | p :: ps => some off :: param_ptrs (off + p.length + 1) ps

/-! ## Numbers and colours (lcd_object.c) -/

/-- `static unsigned int RGB_to_color(unsigned int r, unsigned int g, unsigned int b)`:
`color = (r & 248) <<8 | (g & 252) <<3 | (b & 248) >>3`, where the shifts bind
tighter than `|`.  The arguments are `unsigned int` values; the result is
reduced to 32 bits. -/
def RGB_to_color (r g b : Nat) : Nat :=
  ((((r &&& 248) <<< 8) ||| ((g &&& 252) <<< 3)) ||| ((b &&& 248) >>> 3)) % 2 ^ 32

/-- The loop of `str_to_uint` from the byte `p` points to, with the value of
`num` so far: it ends at the first NUL (or at the end of the list, where the
closing NUL stands); a byte above `/` (47) and below `:` (58) changes `num` to
`(num << 3) + (num << 1) + *p - '0'` in `unsigned int` arithmetic. -/
def str_to_uint_loop : List uchar → Nat → Nat
  | [], num => num
  | p :: rest, num =>
    if p = 0 then num
    else if 47 < p.val ∧ p.val < 58 then
      str_to_uint_loop rest
        ((((num <<< 3) % 2 ^ 32 + (num <<< 1) % 2 ^ 32) % 2 ^ 32 + p.val + (2 ^ 32 - 48)) % 2 ^ 32)
    else str_to_uint_loop rest num

/-- `static unsigned int str_to_uint(unsigned char *str)`. -/
def str_to_uint (str : List uchar) : Nat :=
  str_to_uint_loop str 0

/-- The claim's reading of a string as a number: the digit characters of the
string before its first NUL, in order. -/
def digit_characters (str : List uchar) : List Nat :=
  ((c_string_of str).filter (fun p => decide (48 ≤ p.val ∧ p.val ≤ 57))).map (fun p => p.val - 48)

/-- The base-10 value of a list of digits, most significant first. -/
def base10_value (digits : List Nat) : Nat :=
  digits.foldl (fun n d => 10 * n + d) 0

/-! ## The command buffer in reachable states -/

/-- Proof device: the shape of the command buffer in every state the program
reaches.  The buffer holds a text `w` of `new_position` bytes, none of them
NUL, followed by NUL only; the terminator (59) is not in `w` until the status
is `complete`, and then it is the last byte of `w` and occurs nowhere else. -/
structure CmdInv (a : ATcmd_buffer) : Prop where
  text : ∃ w : List uchar, a.buf = holding w ∧ a.new_position = w.length ∧
    w.length ≤ ATCMD_BUFFER_SIZE ∧ (∀ b ∈ w, b ≠ 0) ∧
    (a.status ≠ .complete → (59 : uchar) ∉ w) ∧
    (a.status = .complete → ∃ w0, w = w0 ++ [59] ∧ (59 : uchar) ∉ w0)

/-! ## Drawing (lcd_object.c) -/

/-- `static void _DrawPoint(unsigned int x, unsigned int y)`. -/
def _DrawPoint (s : LcdState) (x y : Nat) : LcdState :=
  let s1 := SetXY s x y x y
  Write_Data s1 s1.front_color

/-- `static void DrawPoint(unsigned char **args, int arg_num)`; `none` when an
argument read is a NULL pointer. -/
def DrawPoint (args : List (Option (List uchar))) (arg_num : Int)
    (w : object_uart × USART_TypeDef × LcdState) :
    Option (object_uart × USART_TypeDef × LcdState) :=
  if arg_num = 2 then
    match args.getD 0 none, args.getD 1 none with
    | some a0, some a1 =>
      let x := str_to_uint a0
      let y := str_to_uint a1
      if x < w.2.2.display_x ∧ y < w.2.2.display_y then
        some (w.1, w.2.1, _DrawPoint w.2.2 x y)
      else some w
    | _, _ => none
  else some w

/-- `static void _DrawLine_H(unsigned int x0, unsigned int y0, unsigned int x1,
unsigned int y1)`: the window from the smaller to the larger `x` in row `y0`,
then `l` times `Write_Data(front_color)`, `l` being the difference of the two
`x`. -/
def _DrawLine_H (s : LcdState) (x0 y0 x1 _y1 : Nat) : LcdState :=
  let s1 := if x0 > x1 then SetXY s x1 y0 x0 y0 else SetXY s x0 y0 x1 y0
  let l := if x0 > x1 then x0 - x1 else x1 - x0
  (List.range l).foldl (fun t _ => Write_Data t t.front_color) s1

/-- The loop of `_FillRectangle`: `while (y0 <= y1) { _DrawLine_H(x0, y0, x1, y0);
y0++; }` with `y0` an `unsigned int`; `none` when the fuel runs out. -/
def _FillRectangle_loop (x0 x1 y1 : Nat) : Nat → LcdState → Nat → Option LcdState
  | fuel, s, y0 =>
    if y0 ≤ y1 then
      match fuel with
      | 0 => none
      | fuel + 1 => _FillRectangle_loop x0 x1 y1 fuel (_DrawLine_H s x0 y0 x1 y0) ((y0 + 1) % 2 ^ 32)
    else some s

/-- `static void _FillRectangle(unsigned int x0, unsigned int y0, unsigned int x1,
unsigned int y1)`.  The loop makes `y1 + 1 - y0` passes unless `y1` is the
largest `unsigned int`, for which it never ends (`none`). -/
def _FillRectangle (s : LcdState) (x0 y0 x1 y1 : Nat) : Option LcdState :=
  _FillRectangle_loop x0 x1 y1 (y1 + 1 - y0) s y0

/-- `static void FillRectangle(unsigned char **args, int arg_num)`; `none` when
an argument read is a NULL pointer. -/
def FillRectangle (args : List (Option (List uchar))) (arg_num : Int)
    (w : object_uart × USART_TypeDef × LcdState) :
    Option (object_uart × USART_TypeDef × LcdState) :=
  if arg_num ≠ 4 then some w
  else
    match args.getD 0 none, args.getD 1 none, args.getD 2 none, args.getD 3 none with
    | some a0, some a1, some a2, some a3 =>
      let l0 := str_to_uint a0
      let l1 := str_to_uint a1
      let l2 := str_to_uint a2
      let l3 := str_to_uint a3
      if l0 > w.2.2.display_x ∨ l2 > w.2.2.display_x ∨
          l1 > w.2.2.display_y ∨ l3 > w.2.2.display_y then
        some w
      else
        let y0 := if l1 > l3 then l3 else l1
        let y1 := if l1 > l3 then l1 else l3
        (_FillRectangle w.2.2 l0 y0 l2 y1).map (fun s => (w.1, w.2.1, s))
    | _, _, _, _ => none

/-! ## Circles (lcd_object.c) -/

/-- The result of an operation on `int`: the value when it is representable in
32 bits, `none` for an overflow (which has no defined result in C). -/
def int_of (z : Int) : Option Int :=
  if -2 ^ 31 ≤ z ∧ z ≤ 2 ^ 31 - 1 then some z else none

/-- The conversion `(int)u` of an `unsigned int`: values from 2^31 on become
negative (two's complement, as the compiler of the target defines it). -/
def to_int (u : Nat) : Int :=
  if u % 2 ^ 32 < 2 ^ 31 then ((u % 2 ^ 32 : Nat) : Int) else ((u % 2 ^ 32 : Nat) : Int) - 2 ^ 32

/-- An `int` passed for an `unsigned int` parameter: the value modulo 2^32. -/
def to_uint (z : Int) : Nat := (z % 2 ^ 32).toNat

/-- The calls `_DrawPoint(x, y)` for a list of `int` pairs, in order. -/
def _DrawPoints (s : LcdState) (pts : List (Int × Int)) : LcdState :=
  pts.foldl (fun t p => _DrawPoint t (to_uint p.1) (to_uint p.2)) s

/-- One pass of the loop of `_Draw_Circle(x, y, radius)` on the variables `f`,
`ddF_x`, `ddF_y`, `x1`, `y1`: their new values (in this order) and the
arguments of the eight `_DrawPoint` calls.  `none` for an `int` overflow. -/
def _Draw_Circle_pass (x y : Int) (f ddF_x ddF_y x1 y1 : Int) :
    Option ((Int × Int × Int × Int × Int) × List (Int × Int)) :=
  (if f ≥ 0 then
    (int_of (y1 - 1)).bind (fun y1a =>
      (int_of (ddF_y + 2)).bind (fun ddF_ya =>
        (int_of (f + ddF_ya)).map (fun fa => (fa, ddF_ya, y1a))))
   else some (f, ddF_y, y1)).bind (fun v =>
  (int_of (x1 + 1)).bind (fun x1b =>
  (int_of (ddF_x + 2)).bind (fun ddF_xb =>
  (int_of (v.1 + ddF_xb)).bind (fun fb =>
  (int_of (x + x1b)).bind (fun xp =>
  (int_of (x - x1b)).bind (fun xm =>
  (int_of (y + v.2.2)).bind (fun yp =>
  (int_of (y - v.2.2)).bind (fun ym =>
  (int_of (x + v.2.2)).bind (fun xq =>
  (int_of (x - v.2.2)).bind (fun xn =>
  (int_of (y + x1b)).bind (fun yq =>
  (int_of (y - x1b)).map (fun yn =>
    ((fb, ddF_xb, v.2.1, x1b, v.2.2),
     [(xp, yp), (xm, yp), (xp, ym), (xm, ym),
      (xq, yq), (xn, yq), (xq, yn), (xn, yn)])))))))))))))

/-- The loop `while (x1 < y1)` of `_Draw_Circle`: the arguments of its
`_DrawPoint` calls, in order.  `none` for an `int` overflow, or when the fuel
runs out. -/
def _Draw_Circle_loop (x y : Int) : Nat → Int → Int → Int → Int → Int →
    Option (List (Int × Int))
  | fuel, f, ddF_x, ddF_y, x1, y1 =>
    if x1 < y1 then
      match fuel with
      | 0 => none
      | fuel + 1 =>
        match _Draw_Circle_pass x y f ddF_x ddF_y x1 y1 with
        | none => none
        | some (v, pts) =>
          (_Draw_Circle_loop x y fuel v.1 v.2.1 v.2.2.1 v.2.2.2.1 v.2.2.2.2).map
            (fun rest => pts ++ rest)
    else some []

/-- The `_DrawPoint` calls of `static void _Draw_Circle(int x, int y, int radius)`.
The loop runs while `x1 < y1`, where `x1` grows by one in every pass and `y1`
never grows, so `radius` passes are enough. -/
def _Draw_Circle_points (x y radius : Int) : Option (List (Int × Int)) :=
  (int_of (1 - radius)).bind (fun f =>
  (int_of (-2 * radius)).bind (fun ddF_y =>
  (int_of (y + radius)).bind (fun yp =>
  (int_of (y - radius)).bind (fun ym =>
  (int_of (x + radius)).bind (fun xp =>
  (int_of (x - radius)).bind (fun xm =>
  (_Draw_Circle_loop x y radius.toNat f 1 ddF_y 0 radius).map (fun rest =>
    [(x, yp), (x, ym), (xp, y), (xm, y)] ++ rest)))))))

/-- The loop of `_Test_DrawCircle` with `x = 120`, `y = 160` and the radius
`r`, which starts at 10 and grows by 10: the `_DrawPoint` calls made.  The
differences and sums of the loop test stay far from an overflow. -/
def _Test_DrawCircle_loop (display_x display_y : Nat) : Nat → Nat →
    Option (List (Int × Int))
  | fuel, r =>
    if (120 : Int) - r ≥ 0 ∧ (120 : Int) + r < to_int display_x ∧
        (160 : Int) - r ≥ 0 ∧ (160 : Int) + r < to_int display_y then
      match fuel with
      | 0 => none
      | fuel + 1 =>
        (_Draw_Circle_points 120 160 (to_int r)).bind (fun pts =>
          (_Test_DrawCircle_loop display_x display_y fuel (r + 10)).map (fun rest =>
            pts ++ rest))
    else some []

/-- The `_DrawPoint` calls of `static void _Test_DrawCircle(void)`; the loop
ends at the latest when `r` has passed 120. -/
def _Test_DrawCircle_points (display_x display_y : Nat) : Option (List (Int × Int)) :=
  _Test_DrawCircle_loop display_x display_y 13 10

/-- The `_DrawPoint` calls of `static void DrawCircle(unsigned char **args,
int arg_num)`, with `LCD_DEBUG` defined as in `lcd_object.h`.  The operands of
`||` are evaluated from the left until one holds.  `none` when an argument
read is a NULL pointer or an `int` operation overflows. -/
def DrawCircle_points (args : List (Option (List uchar))) (arg_num : Int)
    (display_x display_y : Nat) : Option (List (Int × Int)) :=
  if arg_num ≠ 3 then
    if arg_num = 0 then _Test_DrawCircle_points display_x display_y else some []
  else
    match args.getD 0 none, args.getD 1 none, args.getD 2 none with
    | some a0, some a1, some a2 =>
      let tmp0 := to_int (str_to_uint a0)
      let tmp1 := to_int (str_to_uint a1)
      let tmp2 := to_int (str_to_uint a2)
      if tmp0 ≥ to_int display_x then some []
      else if tmp1 ≥ to_int display_y then some []
      else
        (int_of (tmp0 + tmp2)).bind (fun a =>
          if a ≥ to_int display_x then some []
          else
            (int_of (tmp0 - tmp2)).bind (fun b =>
              if b < 0 then some []
              else
                (int_of (tmp1 + tmp2)).bind (fun c =>
                  if c ≥ to_int display_y then some []
                  else
                    (int_of (tmp1 - tmp2)).bind (fun d =>
                      if d < 0 then some []
                      else _Draw_Circle_points tmp0 tmp1 tmp2))))
    | _, _, _ => none

/-- `static void DrawCircle(unsigned char **args, int arg_num)`. -/
def DrawCircle (args : List (Option (List uchar))) (arg_num : Int)
    (w : object_uart × USART_TypeDef × LcdState) :
    Option (object_uart × USART_TypeDef × LcdState) :=
  (DrawCircle_points args arg_num w.2.2.display_x w.2.2.display_y).map
    (fun pts => (w.1, w.2.1, _DrawPoints w.2.2 pts))

/-! ## Fields of a parameter section -/

/-- Following the words of the specification: the comma-separated fields of a
text, in order.  A text with `k` commas has `k + 1` fields, and a field is
empty where two commas meet or where the text starts or ends with a comma.
44 is the comma. -/
def comma_fields : List uchar → List (List uchar)
  | [] => [[]]
  | b :: rest =>
    if b = 44 then [] :: comma_fields rest
    else
      match comma_fields rest with
      | [] => [[b]]
      | f :: fs => (b :: f) :: fs

/-- Following the words of the specification: the non-empty comma-separated
fields of a text. -/
def nonempty_fields (text : List uchar) : List (List uchar) :=
  (comma_fields text).filter (fun f => decide (f ≠ []))

/-- Proof device: a field and the byte after it once the comma loop of
`get_cmd_param` has passed: the comma after an empty field is skipped, the one
after a token is overwritten with NUL. -/
def field_cut (g : List uchar) : List uchar :=
  g ++ [if g = [] then 44 else 0]

/-- Proof device: the pointers the comma loop stores for fields that start at
index `off`, each followed by its comma. -/
def field_ptrs (off : Nat) : List (List uchar) → List (Option Nat)
  | [] => []
  | g :: gs =>
    if g = [] then field_ptrs (off + 1) gs
    else some off :: field_ptrs (off + g.length + 1) gs

/-! # Theorems -/

/-! ## The receive ring -/

theorem getD_set_eq (l : List uchar) (i : Nat) (c d : uchar) (h : i < l.length) :
    (l.set i c).getD i d = c := by
  simp [List.getD_eq_getElem?_getD, List.getElem?_set, h]

theorem getD_set_ne (l : List uchar) (i j : Nat) (c d : uchar) (h : i ≠ j) :
    (l.set i c).getD j d = l.getD j d := by
  simp [List.getD_eq_getElem?_getD, List.getElem?_set, h]

theorem Holds.init : Holds ring_buffer_isr_init [] := by
  refine ⟨?_, ?_, ?_, ?_, ?_, ?_⟩ <;> simp [ring_buffer_isr_init, SERIAL_BUFFER_SIZE]

theorem Holds.push {rb : ring_buffer} {q : List uchar} (h : Holds rb q) (c : uchar)
    (hq : q.length < SERIAL_BUFFER_SIZE - 1) :
    (store_char c rb).1 = 0 ∧ Holds (store_char c rb).2 (q ++ [c]) := by
  obtain ⟨hlen, htl, hcnt, hhd, hst, hsl⟩ := h
  simp only [SERIAL_BUFFER_SIZE] at *
  have hnf : rb.status ≠ .full := by
    rw [hst]; split_ifs <;> simp_all
  simp only [store_char, SERIAL_BUFFER_SIZE, hnf, ne_eq, not_false_eq_true, if_true]
  refine ⟨trivial, ⟨?_, ?_, ?_, ?_, ?_, ?_⟩⟩ <;> simp only [SERIAL_BUFFER_SIZE]
  · simp [hlen]
  · exact htl
  · simp; omega
  · simp [hhd]; omega
  · simp only [List.length_append, List.length_singleton, hhd]
    split_ifs <;> first | rfl | contradiction | (exfalso; omega)
  · intro i hi
    simp only [List.length_append, List.length_singleton] at hi
    by_cases hil : i = q.length
    · subst hil
      simp only [hhd]
      rw [getD_set_eq _ _ _ _ (by omega)]
      simp [List.getD_eq_getElem?_getD]
    · have hi2 : i < q.length := by omega
      have hne : rb.head ≠ (rb.tail + i) % 64 := by omega
      rw [getD_set_ne _ _ _ _ _ hne, hsl i hi2]
      simp [List.getD_eq_getElem?_getD, List.getElem?_append_left hi2]

theorem Holds.push_full {rb : ring_buffer} {q : List uchar} (h : Holds rb q) (c : uchar)
    (hq : q.length = SERIAL_BUFFER_SIZE - 1) :
    store_char c rb = (-1, rb) := by
  have hst := h.status_eq
  simp only [SERIAL_BUFFER_SIZE] at *
  have hf : rb.status = .full := by
    rw [hst]; simp [hq]
  simp [store_char, hf]

theorem Holds.pop_empty {u : object_uart} (h : Holds u.rx_buffer []) :
    Serial1Read u = (-1, u) := by
  have hst := h.status_eq
  simp at hst
  simp [Serial1Read, hst]

theorem Holds.pop {u : object_uart} {b : uchar} {q : List uchar}
    (h : Holds u.rx_buffer (b :: q)) :
    (Serial1Read u).1 = byte_value b ∧
    Holds (Serial1Read u).2.rx_buffer q ∧
    (Serial1Read u).2 = { u with rx_buffer := (Serial1Read u).2.rx_buffer } := by
  obtain ⟨hlen, htl, hcnt, hhd, hst, hsl⟩ := h
  simp only [SERIAL_BUFFER_SIZE, List.length_cons] at *
  have hne : u.rx_buffer.status ≠ .empty := by
    rw [hst]; split_ifs <;> simp_all
  have h0 := hsl 0 (by omega)
  simp only [Nat.add_zero, Nat.mod_eq_of_lt htl] at h0
  simp only [Serial1Read, SERIAL_BUFFER_SIZE, hne, ne_eq, not_false_eq_true, if_true]
  refine ⟨?_, ⟨?_, ?_, ?_, ?_, ?_, ?_⟩, trivial⟩ <;> try simp only [SERIAL_BUFFER_SIZE]
  · rw [h0]; simp [byte_value]
  · simp [hlen]
  · omega
  · omega
  · rw [hhd]; omega
  · rw [hhd]
    split_ifs <;> first | rfl | contradiction | (exfalso; omega)
  · intro i hi
    have hne2 : u.rx_buffer.tail ≠ ((u.rx_buffer.tail + 1) % 64 + i) % 64 := by omega
    rw [getD_set_ne _ _ _ _ _ hne2]
    have := hsl (i + 1) (by omega)
    have e : ((u.rx_buffer.tail + 1) % 64 + i) % 64 = (u.rx_buffer.tail + (i + 1)) % 64 := by
      omega
    rw [e, this]
    simp [List.getD_eq_getElem?_getD]

theorem byte_value_ne_neg_one (b : uchar) : byte_value b ≠ -1 := by
  unfold byte_value; omega

theorem byte_value_range (b : uchar) : 0 ≤ byte_value b ∧ byte_value b ≤ 255 := by
  unfold byte_value; omega

/-- Whatever the calls, the ring stays well formed, and the bytes held before
followed by the bytes pushed are the bytes popped followed by the bytes held
after. -/
theorem rx_run_holds (ops : List RxOp) : ∀ (u : object_uart) (q : List uchar),
    Holds u.rx_buffer q →
    ∃ q2, Holds (rx_run u ops).2.rx_buffer q2 ∧
      (q ++ pushed_bytes ops (rx_run u ops).1).map byte_value =
        popped_values ops (rx_run u ops).1 ++ q2.map byte_value := by
  induction ops with
  | nil => intro u q h; exact ⟨q, h, by simp [rx_run, pushed_bytes, popped_values]⟩
  | cons op ops ih =>
    intro u q h
    cases op with
    | push c =>
      by_cases hq : q.length < SERIAL_BUFFER_SIZE - 1
      · obtain ⟨h0, h1⟩ := h.push c hq
        obtain ⟨q2, hq2, e⟩ := ih { u with rx_buffer := (store_char c u.rx_buffer).2 } _ h1
        refine ⟨q2, hq2, ?_⟩
        simp only [rx_run, rx_call, pushed_bytes, popped_values, h0, if_true]
        simpa using e
      · have hfull : q.length = SERIAL_BUFFER_SIZE - 1 := by
          have := h.count_le; omega
        have e0 := h.push_full c hfull
        obtain ⟨q2, hq2, e⟩ := ih u q h
        refine ⟨q2, ?_, ?_⟩
        · simpa [rx_run, rx_call, e0] using hq2
        · simp only [rx_run, rx_call, pushed_bytes, popped_values, e0]
          simpa using e
    | pop =>
      cases q with
      | nil =>
        have e0 := h.pop_empty
        obtain ⟨q2, hq2, e⟩ := ih u [] h
        refine ⟨q2, ?_, ?_⟩
        · simpa [rx_run, rx_call, e0] using hq2
        · simp only [rx_run, rx_call, pushed_bytes, popped_values, e0]
          simpa using e
      | cons b q =>
        obtain ⟨h0, h1, _⟩ := h.pop
        obtain ⟨q2, hq2, e⟩ := ih (Serial1Read u).2 q h1
        refine ⟨q2, hq2, ?_⟩
        simp only [rx_run, rx_call, pushed_bytes, popped_values, h0]
        simp only [ne_eq, byte_value_ne_neg_one, not_false_eq_true, if_true]
        simpa [h0] using e

/-- C1. Ring buffer FIFO law: for every sequence of `store_char` and
`Serial1Read` calls from the initialised receive ring, the values returned by
the pops that succeed are, in order, the first of the bytes whose push
succeeded. -/
theorem ring_buffer_fifo (ops : List RxOp) :
    popped_values ops (rx_run object_uart_init ops).1 <+:
      (pushed_bytes ops (rx_run object_uart_init ops).1).map byte_value := by
  obtain ⟨q2, _, e⟩ := rx_run_holds ops object_uart_init [] Holds.init
  simp only [List.nil_append] at e
  exact ⟨q2.map byte_value, e.symm⟩

/-- The number of bytes a ring holds is the number pushed minus the number
popped. -/
theorem rx_run_count (ops : List RxOp) :
    ∃ q2, Holds (rx_run object_uart_init ops).2.rx_buffer q2 ∧
      (pushed_bytes ops (rx_run object_uart_init ops).1).length =
        (popped_values ops (rx_run object_uart_init ops).1).length + q2.length := by
  obtain ⟨q2, h, e⟩ := rx_run_holds ops object_uart_init [] Holds.init
  refine ⟨q2, h, ?_⟩
  have := congrArg List.length e
  simpa using this

/-- C2. In every state reached from the initialised ring, `store_char` returns
-1 exactly when 63 bytes are buffered and unpopped (pushed minus popped), and
it returns 0 otherwise. -/
theorem store_char_fails_iff_63_buffered (ops : List RxOp) (c : uchar) :
    ((store_char c (rx_run object_uart_init ops).2.rx_buffer).1 = -1 ↔
      (pushed_bytes ops (rx_run object_uart_init ops).1).length =
        (popped_values ops (rx_run object_uart_init ops).1).length + (SERIAL_BUFFER_SIZE - 1)) ∧
    ((store_char c (rx_run object_uart_init ops).2.rx_buffer).1 ≠ -1 →
      (store_char c (rx_run object_uart_init ops).2.rx_buffer).1 = 0) := by
  obtain ⟨q2, h, e⟩ := rx_run_count ops
  by_cases hq : q2.length < SERIAL_BUFFER_SIZE - 1
  · have h0 := (h.push c hq).1
    rw [h0, e]
    simp only [SERIAL_BUFFER_SIZE] at hq ⊢
    constructor
    · constructor
      · intro h1; omega
      · intro h1; omega
    · intro _; trivial
  · have hfull : q2.length = SERIAL_BUFFER_SIZE - 1 := by
      have := h.count_le; omega
    rw [h.push_full c hfull, e, hfull]
    simp

/-- C6. Ring buffer invariant: in every state reached from the initialised
ring, head and tail are below 64, the status is empty exactly when head = tail
and full exactly when (head + 1) mod 64 = tail, and at most 63 bytes are
buffered. -/
theorem ring_buffer_invariant (ops : List RxOp) :
    (rx_run object_uart_init ops).2.rx_buffer.head < SERIAL_BUFFER_SIZE ∧
    (rx_run object_uart_init ops).2.rx_buffer.tail < SERIAL_BUFFER_SIZE ∧
    ((rx_run object_uart_init ops).2.rx_buffer.status = .empty ↔
      (rx_run object_uart_init ops).2.rx_buffer.head =
        (rx_run object_uart_init ops).2.rx_buffer.tail) ∧
    ((rx_run object_uart_init ops).2.rx_buffer.status = .full ↔
      ((rx_run object_uart_init ops).2.rx_buffer.head + 1) % SERIAL_BUFFER_SIZE =
        (rx_run object_uart_init ops).2.rx_buffer.tail) ∧
    (pushed_bytes ops (rx_run object_uart_init ops).1).length ≤
      (popped_values ops (rx_run object_uart_init ops).1).length + (SERIAL_BUFFER_SIZE - 1) := by
  obtain ⟨q2, ⟨_, htl, hcnt, hhd, hst, _⟩, e⟩ := rx_run_count ops
  generalize (rx_run object_uart_init ops).2.rx_buffer = rb at *
  simp only [SERIAL_BUFFER_SIZE] at *
  refine ⟨by omega, htl, ?_, ?_, by omega⟩
  · rw [hst, hhd]
    split_ifs <;> simp <;> omega
  · rw [hst, hhd]
    split_ifs <;> simp <;> omega

theorem rx_run_append (a b : List RxOp) : ∀ u : object_uart,
    rx_run u (a ++ b) = ((rx_run u a).1 ++ (rx_run (rx_run u a).2 b).1,
      (rx_run (rx_run u a).2 b).2) := by
  induction a with
  | nil => intro u; simp [rx_run]
  | cons op a ih => intro u; simp [rx_run, ih]

theorem holds_nil_of_empty (rb : ring_buffer) (hlen : rb.buffer.length = SERIAL_BUFFER_SIZE)
    (hst : rb.status = .empty) (hht : rb.head = rb.tail) (ht : rb.tail < SERIAL_BUFFER_SIZE) :
    Holds rb [] := by
  refine ⟨hlen, ht, ?_, ?_, ?_, ?_⟩
  · simp
  · simp only [SERIAL_BUFFER_SIZE] at *; simp; omega
  · simpa using hst
  · intro i hi; simp at hi

/-- Pushes that fit all succeed and are held in order. -/
theorem rx_run_pushes (bs : List uchar) : ∀ (u : object_uart) (q : List uchar),
    Holds u.rx_buffer q → q.length + bs.length ≤ SERIAL_BUFFER_SIZE - 1 →
    (rx_run u (bs.map RxOp.push)).1 = List.replicate bs.length 0 ∧
    Holds (rx_run u (bs.map RxOp.push)).2.rx_buffer (q ++ bs) := by
  induction bs with
  | nil => intro u q h _; simpa [rx_run] using h
  | cons b bs ih =>
    intro u q h hfit
    simp only [List.length_cons] at hfit
    obtain ⟨h0, h1⟩ := h.push b (by omega)
    obtain ⟨e1, e2⟩ := ih { u with rx_buffer := (store_char b u.rx_buffer).2 } (q ++ [b]) h1
      (by simp; omega)
    simp only [List.map_cons, rx_run, rx_call, h0, List.length_cons, List.replicate_succ]
    exact ⟨by rw [e1], by simpa using e2⟩

/-- C3. Scenario C: 64 pushes into an empty ring return 0 sixty-three times
and then -1, leaving status full; one pop then leaves status available, after
which one more push returns 0 and the push after it returns -1. -/
theorem scenario_C_overrun (u : object_uart) (bs : List uchar) (c1 c2 : uchar)
    (hlen : u.rx_buffer.buffer.length = SERIAL_BUFFER_SIZE)
    (hst : u.rx_buffer.status = .empty)
    (hht : u.rx_buffer.head = u.rx_buffer.tail)
    (ht : u.rx_buffer.tail < SERIAL_BUFFER_SIZE)
    (hbs : bs.length = SERIAL_BUFFER_SIZE) :
    (rx_run u (bs.map RxOp.push)).1 = List.replicate 63 0 ++ [-1] ∧
    (rx_run u (bs.map RxOp.push)).2.rx_buffer.status = .full ∧
    (rx_run u (bs.map RxOp.push ++ [RxOp.pop])).2.rx_buffer.status = .available ∧
    (rx_run u (bs.map RxOp.push ++ [RxOp.pop, RxOp.push c1, RxOp.push c2])).1 =
      List.replicate 63 0 ++ [-1, byte_value (bs.headD 0), 0, -1] := by
  have h := holds_nil_of_empty _ hlen hst hht ht
  simp only [SERIAL_BUFFER_SIZE] at hbs
  obtain ⟨b, q, c, hq, rfl⟩ : ∃ b q c, q.length = 62 ∧ bs = (b :: q) ++ [c] := by
    match bs, hbs with
    | b :: rest, hr =>
      have hne : rest ≠ [] := by
        intro h0; subst h0; simp at hr
      refine ⟨b, rest.dropLast, rest.getLast hne, ?_, ?_⟩
      · simp at hr; simp; omega
      · simp [List.dropLast_append_getLast hne]
  obtain ⟨e1, h1⟩ := rx_run_pushes (b :: q) u [] h (by simp [SERIAL_BUFFER_SIZE, hq])
  simp only [List.nil_append] at h1
  have e2 := h1.push_full c (by simp [SERIAL_BUFFER_SIZE, hq])
  obtain ⟨p0, p1, _⟩ := h1.pop
  obtain ⟨s0, s1⟩ := p1.push c1 (by simp [SERIAL_BUFFER_SIZE, hq])
  have s2 := s1.push_full c2 (by simp [SERIAL_BUFFER_SIZE, hq])
  have hfull := h1.status_eq
  have hav := p1.status_eq
  simp only [SERIAL_BUFFER_SIZE, List.length_cons, hq] at hfull hav
  simp only [List.map_append, List.append_assoc, rx_run_append, e1, List.length_cons, hq]
  generalize rx_run u (List.map RxOp.push (b :: q)) = r at *
  simp only [List.map_cons, List.map_nil, rx_run, rx_call, e2, p0, s0, s2]
  refine ⟨by simp, by simpa using hfull, by simpa using hav, by simp⟩

/-- Scenario C on the initialised ring with 64 bytes `A`. -/
theorem scenario_C_overrun_witness :
    (object_uart_init.rx_buffer.buffer.length = SERIAL_BUFFER_SIZE ∧
     object_uart_init.rx_buffer.status = .empty ∧
     object_uart_init.rx_buffer.head = object_uart_init.rx_buffer.tail ∧
     object_uart_init.rx_buffer.tail < SERIAL_BUFFER_SIZE ∧
     (List.replicate 64 (65 : uchar)).length = SERIAL_BUFFER_SIZE) ∧
    (rx_run object_uart_init ((List.replicate 64 (65 : uchar)).map RxOp.push ++
        [RxOp.pop, RxOp.push 66, RxOp.push 67])).1 =
      List.replicate 63 0 ++ [-1, 65, 0, -1] :=
  ⟨by decide,
   (scenario_C_overrun object_uart_init (List.replicate 64 65) 66 67
      (by decide) (by decide) (by decide) (by decide) (by decide)).2.2.2⟩

/-- C4. A push onto a full ring returns -1 and leaves the ring unchanged; a
push onto a ring that is not full returns 0, writes the byte at index head,
leaves every other slot and the tail unchanged, advances head modulo 64 and
recomputes the status from the new head. -/
theorem store_char_effect (c : uchar) (rb : ring_buffer)
    (hh : rb.head < rb.buffer.length) :
    (rb.status = .full → store_char c rb = (-1, rb)) ∧
    (rb.status ≠ .full →
      (store_char c rb).1 = 0 ∧
      (store_char c rb).2.buffer[rb.head]? = some c ∧
      (∀ j, j ≠ rb.head → (store_char c rb).2.buffer[j]? = rb.buffer[j]?) ∧
      (store_char c rb).2.buffer.length = rb.buffer.length ∧
      (store_char c rb).2.head = (rb.head + 1) % SERIAL_BUFFER_SIZE ∧
      (store_char c rb).2.tail = rb.tail ∧
      (store_char c rb).2.status =
        if ((store_char c rb).2.head + 1) % SERIAL_BUFFER_SIZE = rb.tail
        then .full else .available) := by
  constructor
  · intro hf; simp [store_char, hf]
  · intro hnf
    simp only [store_char, hnf, ne_eq, not_false_eq_true, if_true]
    refine ⟨trivial, ?_, ?_, ?_, trivial, trivial, trivial⟩
    · simp [List.getElem?_set, hh]
    · intro j hj
      simp [List.getElem?_set, Ne.symm hj]
    · simp

/-- The first push onto the initialised ring. -/
theorem store_char_effect_witness :
    ring_buffer_isr_init.head < ring_buffer_isr_init.buffer.length ∧
    (store_char 65 ring_buffer_isr_init).2.buffer[ring_buffer_isr_init.head]? = some 65 ∧
    (store_char 65 ring_buffer_isr_init).2.head = 1 :=
  ⟨by decide,
   ((store_char_effect 65 ring_buffer_isr_init (by decide)).2 (by decide)).2.1,
   ((store_char_effect 65 ring_buffer_isr_init (by decide)).2 (by decide)).2.2.2.2.1⟩

/-- C5. `Serial1Read` returns -1 exactly when the status is empty, and then
changes nothing; otherwise it returns the byte at index tail as a value in
0..255, overwrites that slot with NUL, leaves the other slots and head
unchanged, advances tail modulo 64 and recomputes the status. -/
theorem Serial1Read_effect (u : object_uart)
    (ht : u.rx_buffer.tail < u.rx_buffer.buffer.length) :
    ((Serial1Read u).1 = -1 ↔ u.rx_buffer.status = .empty) ∧
    (u.rx_buffer.status = .empty → (Serial1Read u).2 = u) ∧
    (u.rx_buffer.status ≠ .empty →
      ∃ b : uchar, u.rx_buffer.buffer[u.rx_buffer.tail]? = some b ∧
        (Serial1Read u).1 = byte_value b ∧
        0 ≤ (Serial1Read u).1 ∧ (Serial1Read u).1 ≤ 255 ∧
        (Serial1Read u).2.rx_buffer.buffer[u.rx_buffer.tail]? = some 0 ∧
        (∀ j, j ≠ u.rx_buffer.tail →
          (Serial1Read u).2.rx_buffer.buffer[j]? = u.rx_buffer.buffer[j]?) ∧
        (Serial1Read u).2.rx_buffer.tail = (u.rx_buffer.tail + 1) % SERIAL_BUFFER_SIZE ∧
        (Serial1Read u).2.rx_buffer.head = u.rx_buffer.head ∧
        (Serial1Read u).2.rx_buffer.status =
          (if (Serial1Read u).2.rx_buffer.tail = u.rx_buffer.head
           then .empty else .available) ∧
        (Serial1Read u).2.tx_buffer = u.tx_buffer ∧
        (Serial1Read u).2.debug = u.debug ∧
        (Serial1Read u).2.channel = u.channel) := by
  have hget : u.rx_buffer.buffer.getD u.rx_buffer.tail 0 = u.rx_buffer.buffer[u.rx_buffer.tail] := by
    simp [List.getD_eq_getElem?_getD, List.getElem?_eq_getElem ht]
  refine ⟨?_, ?_, ?_⟩
  · by_cases he : u.rx_buffer.status = .empty
    · simp [Serial1Read, he]
    · have := byte_value_ne_neg_one (u.rx_buffer.buffer.getD u.rx_buffer.tail 0)
      simp only [Serial1Read, he, ne_eq, not_false_eq_true, if_true, iff_false]
      exact this
  · intro he; simp [Serial1Read, he]
  · intro he
    refine ⟨u.rx_buffer.buffer[u.rx_buffer.tail], List.getElem?_eq_getElem ht, ?_⟩
    have hr := byte_value_range (u.rx_buffer.buffer[u.rx_buffer.tail])
    simp only [Serial1Read, he, ne_eq, not_false_eq_true, if_true, hget]
    refine ⟨rfl, hr.1, hr.2, ?_, ?_, trivial, trivial, trivial, trivial, trivial, trivial⟩
    · simp [List.getElem?_set, ht]
    · intro j hj
      simp [List.getElem?_set, Ne.symm hj]

/-- A read of the byte 0xFF after one push onto the initialised ring. -/
theorem Serial1Read_effect_witness :
    (rx_call object_uart_init (RxOp.push 255)).2.rx_buffer.tail <
      (rx_call object_uart_init (RxOp.push 255)).2.rx_buffer.buffer.length ∧
    ((Serial1Read (rx_call object_uart_init (RxOp.push 255)).2).1 = -1 ↔
      (rx_call object_uart_init (RxOp.push 255)).2.rx_buffer.status = .empty) :=
  ⟨by decide, (Serial1Read_effect (rx_call object_uart_init (RxOp.push 255)).2 (by decide)).1⟩

/-! ## The command assembler -/

theorem to_uchar_byte_value (c : uchar) : to_uchar (byte_value c) = c := by
  apply Fin.ext
  simp only [to_uchar, byte_value]
  omega

theorem set_length_append (w r : List uchar) (x c : uchar) :
    (w ++ x :: r).set w.length c = w ++ c :: r := by
  induction w with
  | nil => simp
  | cons a w ih => simp [ih]

theorem holding_getD (w : List uchar) (i : Nat) : (holding w).getD i 0 = w.getD i 0 := by
  unfold holding
  simp only [List.getD_eq_getElem?_getD]
  by_cases h : i < w.length
  · rw [List.getElem?_append_left h]
  · have h2 : w.length ≤ i := by omega
    rw [List.getElem?_append_right h2, List.getElem?_eq_none h2]
    by_cases h3 : i - w.length < ATCMD_BUFFER_SIZE - w.length
    · simp [List.getElem?_replicate, h3]
    · simp [List.getElem?_replicate, h3]

theorem holding_set (w : List uchar) (c : uchar) (h : w.length < ATCMD_BUFFER_SIZE) :
    (holding w).set w.length c = holding (w ++ [c]) := by
  unfold holding
  have e : ATCMD_BUFFER_SIZE - w.length = (ATCMD_BUFFER_SIZE - (w ++ [c]).length) + 1 := by
    simp; omega
  rw [e, List.replicate_succ, set_length_append]
  simp

theorem foldl_set_zero (n : Nat) : ∀ (w r : List uchar), w.length = n →
    (List.range n).foldl (fun b count => b.set count 0) (w ++ r) =
      List.replicate n 0 ++ r := by
  induction n with
  | zero => intro w r h; simp [List.length_eq_zero.mp h]
  | succ n ih =>
    intro w r h
    obtain ⟨w2, x, rfl⟩ : ∃ w2 x, w = w2 ++ [x] := by
      have hne : w ≠ [] := by intro h0; subst h0; simp at h
      exact ⟨w.dropLast, w.getLast hne, (List.dropLast_append_getLast hne).symm⟩
    have hl : w2.length = n := by simpa using h
    rw [List.range_succ, List.foldl_append, List.append_assoc, ih w2 _ hl]
    simp only [List.foldl_cons, List.foldl_nil, List.singleton_append]
    have := set_length_append (List.replicate n 0) r x 0
    simp only [List.length_replicate] at this
    rw [this, List.replicate_succ']
    simp

theorem clean_holding (a : ATcmd_buffer) (w : List uchar) (hb : a.buf = holding w)
    (hp : a.new_position = w.length) (hw : w.length ≤ ATCMD_BUFFER_SIZE) :
    clean_cmd_buf a = { buf := holding [], new_position := 0, status := .not_start } := by
  unfold clean_cmd_buf
  rw [hb, hp]
  unfold holding
  rw [foldl_set_zero w.length w _ rfl, ← List.replicate_add]
  simp only [List.length_nil, List.nil_append, Nat.sub_zero]
  have : w.length + (ATCMD_BUFFER_SIZE - w.length) = ATCMD_BUFFER_SIZE := by omega
  rw [this]

theorem add_char_holding (a : ATcmd_buffer) (w : List uchar) (c : uchar)
    (hb : a.buf = holding w) (hp : a.new_position = w.length) :
    add_char_to_cmd_buf a (byte_value c) =
      if w.length < ATCMD_BUFFER_SIZE then
        some { buf := holding (w ++ [c]), new_position := (w ++ [c]).length, status := a.status }
      else none := by
  unfold add_char_to_cmd_buf
  rw [hp]
  by_cases h : w.length < ATCMD_BUFFER_SIZE
  · simp only [h, if_true, hb, to_uchar_byte_value, holding_set w c h]
    simp
  · simp [h]

theorem TXE_keeps_rx (u : object_uart) (hw : USART_TypeDef) :
    (USART1_IRQHandler_TXE u hw).1.rx_buffer = u.rx_buffer ∧
    (USART1_IRQHandler_TXE u hw).1.debug = u.debug := by
  simp only [USART1_IRQHandler_TXE]
  split_ifs <;> simp

theorem Serial1Write_keeps_rx (u : object_uart) (hw : USART_TypeDef) (c : uchar) :
    (Serial1Write u hw c).1.rx_buffer = u.rx_buffer ∧
    (Serial1Write u hw c).1.debug = u.debug := by
  unfold Serial1Write
  have := TXE_keeps_rx u hw
  split_ifs <;> simp [this]

theorem SerialPrint_keeps_rx (dat : List uchar) : ∀ (u : object_uart) (hw : USART_TypeDef),
    (SerialPrint u hw dat).1.rx_buffer = u.rx_buffer ∧
    (SerialPrint u hw dat).1.debug = u.debug := by
  induction dat with
  | nil => intro u hw; simp [SerialPrint]
  | cons p dat ih =>
    intro u hw
    unfold SerialPrint
    split_ifs
    · have h1 := ih (Serial1Write u hw p).1 (Serial1Write u hw p).2
      have h2 := Serial1Write_keeps_rx u hw p
      simp only [h1, h2, and_self]
    · simp

theorem print_keeps_rx (u : object_uart) (hw : USART_TypeDef) (text : List uchar) :
    (print_from_uart u hw text).2.1.rx_buffer = u.rx_buffer ∧
    (print_from_uart u hw text).2.1.debug = u.debug := by
  simp only [print_from_uart]
  split_ifs
  · exact SerialPrint_keeps_rx _ u hw
  · simp

/-- A byte stored into the empty receive ring is the next byte read, and the
ring is empty again. -/
theorem read_after_receive (g : Board) (c : uchar) (h : Holds g.usart1.rx_buffer []) :
    (Serial1Read (receive_byte g c).usart1).1 = byte_value c ∧
    Holds (Serial1Read (receive_byte g c).usart1).2.rx_buffer [] ∧
    (receive_byte g c).at_command = g.at_command := by
  obtain ⟨_, h1⟩ := h.push c (by simp [SERIAL_BUFFER_SIZE])
  simp only [List.nil_append] at h1
  have h2 : Holds (receive_byte g c).usart1.rx_buffer [c] := by
    simpa [receive_byte, USART1_IRQHandler] using h1
  obtain ⟨p0, p1, _⟩ := h2.pop
  exact ⟨p0, p1, rfl⟩

/-- `get_a_cmd` on a fed byte does to the buffer what `asm_next` does to the
text it holds. -/
theorem feed_refines (g : Board) (c : uchar) (w : List uchar)
    (hb : g.at_command.buf = holding w) (hp : g.at_command.new_position = w.length)
    (hw : w.length ≤ ATCMD_BUFFER_SIZE)
    (hrx : g.at_command.status ≠ .complete → Holds g.usart1.rx_buffer []) :
    match asm_next g.at_command.status w c with
    | none => feed g c = none
    | some (ret, st2, w2) =>
      ∃ g2, feed g c = some (ret, g2) ∧
        g2.at_command = { buf := holding w2, new_position := w2.length, status := st2 } ∧
        (st2 ≠ .complete → Holds g2.usart1.rx_buffer []) := by
  have hb0 := holding_getD w 0
  have hb1 := holding_getD w 1
  rw [← hb] at hb0 hb1
  cases hst : g.at_command.status with
  | complete =>
    refine ⟨receive_byte g c, ?_, ?_, ?_⟩
    · simp [feed, get_a_cmd, receive_byte, hst]
    · simp only [receive_byte]
      rw [← hb, ← hp, ← hst]
    · intro h; exact absurd rfl h
  | not_start =>
    obtain ⟨r0, r1, r2⟩ := read_after_receive g c (hrx (by simp [hst]))
    have hne := byte_value_ne_neg_one c
    have hadd := add_char_holding g.at_command w c hb hp
    have hcl := clean_holding g.at_command w hb hp hw
    simp only [asm_next, feed, get_a_cmd, r2, hst, r0, ne_eq, hne, not_false_eq_true, if_true,
      to_uchar_byte_value, hadd, hcl, hb0, hb1]
    split_ifs <;> simp_all
  | incomplete =>
    obtain ⟨r0, r1, r2⟩ := read_after_receive g c (hrx (by simp [hst]))
    have hne := byte_value_ne_neg_one c
    have hadd := add_char_holding g.at_command w c hb hp
    simp only [asm_next, feed, get_a_cmd, r2, hst, r0, ne_eq, hne, not_false_eq_true, if_true,
      to_uchar_byte_value, hadd]
    by_cases hn : c ≠ 0 ∧ c ≠ 10
    · by_cases hl : w.length < ATCMD_BUFFER_SIZE
      · by_cases hc : c = 59
        · subst hc
          have d1 : ¬ ((59 : uchar) = 0) := by decide
          have d2 : ¬ ((59 : uchar) = 10) := by decide
          simp only [d1, d2, hl, if_true, ne_eq, not_false_eq_true, and_self]
          split_ifs <;> simp [hst]
        · simp only [hn, hl, hc, if_true, if_false, ne_eq, not_false_eq_true, and_self]
          simp [hst, r1]
      · simp [hn, hl]
    · simp only [hn, if_false]
      refine ⟨_, rfl, ?_, fun _ => r1⟩
      simp only [r2]
      rw [← hb, ← hp, ← hst]

/-- One fed byte, for a buffer known to hold `w`. -/
theorem feed_step (g : Board) (c : uchar) (w : List uchar) (st : ATCMD_BUFFER_STATUS)
    (ha : g.at_command = { buf := holding w, new_position := w.length, status := st })
    (hw : w.length ≤ ATCMD_BUFFER_SIZE)
    (hrx : st ≠ .complete → Holds g.usart1.rx_buffer [])
    (ret : Int) (st2 : ATCMD_BUFFER_STATUS) (w2 : List uchar)
    (hn : asm_next st w c = some (ret, st2, w2)) :
    ∃ g2, feed g c = some (ret, g2) ∧
      g2.at_command = { buf := holding w2, new_position := w2.length, status := st2 } ∧
      (st2 ≠ .complete → Holds g2.usart1.rx_buffer []) := by
  have h := feed_refines g c w (by rw [ha]) (by rw [ha]) hw (by rw [ha]; exact hrx)
  rw [ha] at h
  simp only [hn] at h
  exact h

theorem asm_next_length (st : ATCMD_BUFFER_STATUS) (w : List uchar) (c : uchar)
    (ret : Int) (st2 : ATCMD_BUFFER_STATUS) (w2 : List uchar)
    (hn : asm_next st w c = some (ret, st2, w2)) (hw : w.length ≤ ATCMD_BUFFER_SIZE) :
    w2.length ≤ ATCMD_BUFFER_SIZE := by
  unfold asm_next at hn
  cases st <;> simp only at hn <;> (try split_ifs at hn) <;>
    simp only [Option.some.injEq, Prod.mk.injEq] at hn <;>
    obtain ⟨_, _, rfl⟩ := hn <;> (try simp) <;> omega

theorem AsmInv.main_init : AsmInv main_init := by
  refine ⟨fun _ => Holds.init, [], ?_, ?_, ?_⟩ <;>
    simp [SerialLCD.main_init, object_ATcmd_init, holding]

theorem AsmInv.feed {g : Board} (h : AsmInv g) (c : uchar) (r : Int × Board)
    (hf : feed g c = some r) : AsmInv r.2 := by
  obtain ⟨hrx, w, hb, hp, hw⟩ := h
  have h := feed_refines g c w hb hp hw hrx
  cases hn : asm_next g.at_command.status w c with
  | none => simp only [hn] at h; rw [h] at hf; cases hf
  | some t =>
    obtain ⟨ret, st2, w2⟩ := t
    simp only [hn] at h
    obtain ⟨g2, e, ha, hr⟩ := h
    rw [e] at hf
    cases hf
    refine ⟨?_, w2, ?_, ?_, asm_next_length _ _ _ _ _ _ hn hw⟩
    · intro hne; apply hr; simpa [ha] using hne
    · simp [ha]
    · simp [ha]

theorem AsmInv.feed_stream (s : List uchar) : ∀ {g g2 : Board}, AsmInv g →
    feed_stream g s = some g2 → AsmInv g2 := by
  induction s with
  | nil => intro g g2 h e; simp only [SerialLCD.feed_stream, Option.some.injEq] at e; exact e ▸ h
  | cons c s ih =>
    intro g g2 h e
    simp only [SerialLCD.feed_stream] at e
    cases hf : SerialLCD.feed g c with
    | none => simp [hf] at e
    | some r =>
      simp only [hf] at e
      exact ih (h.feed c r hf) e

theorem feed_stream_append (a b : List uchar) : ∀ g : Board,
    feed_stream g (a ++ b) = (feed_stream g a).bind (fun g1 => feed_stream g1 b) := by
  induction a with
  | nil => intro g; simp [feed_stream]
  | cons c a ih =>
    intro g
    simp only [List.cons_append, feed_stream]
    cases feed g c with
    | none => simp
    | some r => simp [ih]

/-- In status `incomplete` a stream without the terminator is accumulated, NUL
and newline left out. -/
theorem feed_stream_body (body : List uchar) : ∀ (g : Board) (w : List uchar),
    g.at_command = { buf := holding w, new_position := w.length, status := .incomplete } →
    Holds g.usart1.rx_buffer [] →
    (59 : uchar) ∉ body →
    w.length + (without_noise body).length ≤ ATCMD_BUFFER_SIZE →
    ∃ g2, feed_stream g body = some g2 ∧
      g2.at_command = { buf := holding (w ++ without_noise body),
                        new_position := (w ++ without_noise body).length,
                        status := .incomplete } ∧
      Holds g2.usart1.rx_buffer [] := by
  induction body with
  | nil =>
    intro g w ha hrx _ _
    exact ⟨g, rfl, by simpa [without_noise] using ha, hrx⟩
  | cons c body ih =>
    intro g w ha hrx hterm hfit
    have hc : c ≠ 59 := fun h => hterm (by simp [h])
    have hterm2 : (59 : uchar) ∉ body := fun h => hterm (by simp [h])
    by_cases hn : c ≠ 0 ∧ c ≠ 10
    · have ewn : without_noise (c :: body) = c :: without_noise body := by
        simp [without_noise, hn]
      rw [ewn] at hfit ⊢
      simp only [List.length_cons] at hfit
      have hnx : asm_next .incomplete w c = some (0, .incomplete, w ++ [c]) := by
        have hl : w.length < ATCMD_BUFFER_SIZE := by omega
        simp [asm_next, hn, hl, hc]
      obtain ⟨g1, e1, a1, r1⟩ := feed_step g c w .incomplete ha (by omega) (fun _ => hrx) _ _ _ hnx
      obtain ⟨g2, e2, a2, r2⟩ := ih g1 (w ++ [c]) a1 (r1 (by simp)) hterm2 (by simp; omega)
      refine ⟨g2, ?_, ?_, r2⟩
      · simp [feed_stream, e1, e2]
      · simpa using a2
    · have ewn : without_noise (c :: body) = without_noise body := by
        simp only [without_noise, List.filter_cons]
        simp [hn]
      rw [ewn] at hfit ⊢
      have hnx : asm_next .incomplete w c = some (0, .incomplete, w) := by
        simp [asm_next, hn]
      obtain ⟨g1, e1, a1, r1⟩ := feed_step g c w .incomplete ha (by omega) (fun _ => hrx) _ _ _ hnx
      obtain ⟨g2, e2, a2, r2⟩ := ih g1 w a1 (r1 (by simp)) hterm2 hfit
      exact ⟨g2, by simp [feed_stream, e1, e2], a2, r2⟩

/-- In status `complete` the stream leaves the command untouched. -/
theorem feed_stream_complete (post : List uchar) : ∀ (g : Board),
    g.at_command.status = .complete →
    ∃ g2, feed_stream g post = some g2 ∧ g2.at_command = g.at_command := by
  induction post with
  | nil => intro g _; exact ⟨g, rfl, rfl⟩
  | cons c post ih =>
    intro g hst
    have e1 : feed g c = some (0, receive_byte g c) := by
      simp [feed, get_a_cmd, receive_byte, hst]
    obtain ⟨g2, e2, a2⟩ := ih (receive_byte g c) (by simpa [receive_byte] using hst)
    exact ⟨g2, by simp [feed_stream, e1, e2], by rw [a2]; rfl⟩


theorem cmd_eta (a : ATcmd_buffer) (b : List uchar) (p : Nat) (st : ATCMD_BUFFER_STATUS)
    (h1 : a.buf = b) (h2 : a.new_position = p) (h3 : a.status = st) :
    a = { buf := b, new_position := p, status := st } := by
  cases a; simp_all

/-- C7, as amended. When the bytes before the marker leave the assembler in
status `not_start` with cursor 0, and the command with NUL and newline removed
fits the 200-byte buffer, feeding `pre ++ "AT+" ++ body ++ ";" ++ post` one
byte per `get_cmd` call from the initial state ends in status `complete` with
the buffer holding exactly `"AT+" ++ body ++ ";"` without the NUL and newline
bytes of `body`. -/
theorem assembles_command_from_idle (pre body post : List uchar) (g : Board)
    (hpre : feed_stream main_init pre = some g)
    (hidle : g.at_command.status = .not_start)
    (hpos : g.at_command.new_position = 0)
    (hterm : (59 : uchar) ∉ body)
    (hfit : 3 + (without_noise body).length + 1 ≤ ATCMD_BUFFER_SIZE) :
    ∃ g2, feed_stream main_init (pre ++ ([65, 84, 43] ++ body ++ [59]) ++ post) = some g2 ∧
      g2.at_command =
        { buf := holding ([65, 84, 43] ++ without_noise body ++ [59])
          new_position := 3 + (without_noise body).length + 1
          status := .complete } := by
  have hinv := AsmInv.feed_stream pre AsmInv.main_init hpre
  obtain ⟨hrx, w, hb, hp, _⟩ := hinv
  have hw0 : w = [] := by
    rw [hpos] at hp
    exact List.length_eq_zero.mp hp.symm
  subst hw0
  have ha := cmd_eta g.at_command _ _ _ hb hp hidle
  have hr0 := hrx (by rw [hidle]; simp)
  obtain ⟨g1, e1, a1, r1⟩ := feed_step g 65 [] .not_start ha (by simp) (fun _ => hr0)
    0 .not_start [65] (by simp [asm_next, ATCMD_BUFFER_SIZE])
  obtain ⟨g2, e2, a2, r2⟩ := feed_step g1 84 [65] .not_start a1 (by simp [ATCMD_BUFFER_SIZE]) r1
    0 .not_start [65, 84] (by simp [asm_next, ATCMD_BUFFER_SIZE])
  obtain ⟨g3, e3, a3, r3⟩ := feed_step g2 43 [65, 84] .not_start a2 (by simp [ATCMD_BUFFER_SIZE]) r2
    0 .incomplete [65, 84, 43] (by simp [asm_next, ATCMD_BUFFER_SIZE])
  obtain ⟨g4, e4, a4, r4⟩ := feed_stream_body body g3 [65, 84, 43] a3 (r3 (by simp)) hterm
    (by simp; omega)
  obtain ⟨g5, e5, a5, _⟩ := feed_step g4 59 ([65, 84, 43] ++ without_noise body) .incomplete a4
    (by simp; omega) (fun _ => r4) 0 .complete ([65, 84, 43] ++ without_noise body ++ [59])
    (by
      have hl : ([65, 84, 43] ++ without_noise body).length < ATCMD_BUFFER_SIZE := by
        simp; omega
      have d1 : ¬ ((59 : uchar) = 0) := by decide
      have d2 : ¬ ((59 : uchar) = 10) := by decide
      simp only [asm_next, hl, d1, d2, ne_eq, not_false_eq_true, and_self, if_true])
  obtain ⟨g6, e6, a6⟩ := feed_stream_complete post g5 (by rw [a5])
  refine ⟨g6, ?_, ?_⟩
  · simp only [feed_stream_append, hpre, Option.bind_eq_bind, Option.some_bind, feed_stream,
      List.cons_append, List.nil_append, e1, e2, e3, e4, e5, e6]
  · rw [a6, a5]
    simp
    omega


/-- The amended C7 on the stream `x`, `AT+c\ns;`, `zA`: the byte `x` is
discarded, the newline is dropped, the bytes after the terminator are not
taken. -/
theorem assembles_command_from_idle_witness :
    (feed_stream main_init [120] = some ((feed main_init 120).getD (0, main_init)).2 ∧
     ((feed main_init 120).getD (0, main_init)).2.at_command.status = .not_start ∧
     ((feed main_init 120).getD (0, main_init)).2.at_command.new_position = 0 ∧
     (59 : uchar) ∉ [99, 10, 115] ∧
     3 + (without_noise [99, 10, 115]).length + 1 ≤ ATCMD_BUFFER_SIZE) ∧
    ∃ g2, feed_stream main_init
        ([120] ++ ([65, 84, 43] ++ [99, 10, 115] ++ [59]) ++ [122, 65]) = some g2 ∧
      g2.at_command =
        { buf := holding ([65, 84, 43] ++ without_noise [99, 10, 115] ++ [59])
          new_position := 3 + (without_noise [99, 10, 115]).length + 1
          status := .complete } :=
  ⟨⟨by rfl, by rfl, by rfl, by decide, by decide⟩,
   assembles_command_from_idle [120] [99, 10, 115] [122, 65]
     ((feed main_init 120).getD (0, main_init)).2
     (by rfl) (by rfl) (by rfl) (by decide) (by decide)⟩

/-- C7 fails as stated. The stream `AAT+cs;` is the byte `A` followed by the
command `AT+cs;`, yet after each of its initial segments the status is
`not_start`: the command is never assembled.  And a command of 201 bytes makes
`get_cmd` store outside the 200-byte buffer. -/
theorem marker_after_A_is_lost :
    (c_str "AAT+cs;" = [65] ++ ([65, 84, 43] ++ [99, 115] ++ [59]) ∧
     (List.range 8).map (fun k =>
        (feed_stream main_init ((c_str "AAT+cs;").take k)).map
          (fun g => g.at_command.status)) =
       List.replicate 8 (some ATCMD_BUFFER_STATUS.not_start)) ∧
    feed_stream main_init ([65, 84, 43] ++ List.replicate 197 120 ++ [59]) = none := by
  refine ⟨⟨by rfl, by rfl⟩, by rfl⟩

/-- C8 on the code. In status `not_start` the byte `A` after `A`, and the byte
`T` after `AT`, are kept with return value 0 although `AA` and `ATT` do not
begin `AT+`; the stream `ATT+` even reaches status `incomplete`. -/
theorem idle_accepts_bytes_off_the_marker :
    ((feed_stream main_init [65]).bind (fun g => feed g 65)).map
        (fun r => (r.1, r.2.at_command.status, r.2.at_command.new_position,
          r.2.at_command.buf.take 4)) =
      some (0, ATCMD_BUFFER_STATUS.not_start, 2, [65, 65, 0, 0]) ∧
    ((feed_stream main_init [65, 84]).bind (fun g => feed g 84)).map
        (fun r => (r.1, r.2.at_command.status, r.2.at_command.new_position,
          r.2.at_command.buf.take 4)) =
      some (0, ATCMD_BUFFER_STATUS.not_start, 3, [65, 84, 84, 0]) ∧
    (feed_stream main_init [65, 84, 84, 43]).map
        (fun g => (g.at_command.status, g.at_command.new_position, g.at_command.buf.take 5)) =
      some (ATCMD_BUFFER_STATUS.incomplete, 4, [65, 84, 84, 43, 0]) := by
  refine ⟨by rfl, by rfl, by rfl⟩


/-- C9. In status `incomplete`, a received NUL or newline is taken from the
receive ring (one `Serial1Read`, tail advanced) and `get_cmd` returns 0 with
the command buffer, the cursor and the status unchanged. -/
theorem accumulating_ignores_nul_and_newline (g : Board)
    (hst : g.at_command.status = .incomplete)
    (hgot : (Serial1Read g.usart1).1 ≠ -1)
    (hc : to_uchar (Serial1Read g.usart1).1 = 0 ∨ to_uchar (Serial1Read g.usart1).1 = 10) :
    ∃ g2, get_a_cmd g = some (0, g2) ∧
      g2.at_command = g.at_command ∧
      g2.usart1 = (Serial1Read g.usart1).2 ∧
      g2.usart1.rx_buffer.tail = (g.usart1.rx_buffer.tail + 1) % SERIAL_BUFFER_SIZE ∧
      g2.USART1 = g.USART1 := by
  have hne : g.usart1.rx_buffer.status ≠ .empty := by
    intro he
    apply hgot
    simp [Serial1Read, he]
  have hcond : ¬ (to_uchar (Serial1Read g.usart1).1 ≠ 0 ∧ to_uchar (Serial1Read g.usart1).1 ≠ 10) := by
    rcases hc with h | h <;> simp [h]
  refine ⟨{ g with usart1 := (Serial1Read g.usart1).2 }, ?_, rfl, rfl, ?_, rfl⟩
  · simp only [get_a_cmd, hst, hgot, ne_eq, not_false_eq_true, if_true]
    rw [if_neg hcond]
  · simp [Serial1Read, hne]

/-- A newline received after `AT+c`. -/
theorem accumulating_ignores_nul_and_newline_witness :
    ((receive_byte ((feed_stream main_init [65, 84, 43, 99]).getD main_init) 10).at_command.status
        = .incomplete ∧
     (Serial1Read (receive_byte ((feed_stream main_init [65, 84, 43, 99]).getD main_init) 10).usart1).1
        ≠ -1) ∧
    ∃ g2, get_a_cmd (receive_byte ((feed_stream main_init [65, 84, 43, 99]).getD main_init) 10)
        = some (0, g2) ∧
      g2.at_command =
        (receive_byte ((feed_stream main_init [65, 84, 43, 99]).getD main_init) 10).at_command :=
  ⟨⟨by rfl, by decide⟩,
   (accumulating_ignores_nul_and_newline
      (receive_byte ((feed_stream main_init [65, 84, 43, 99]).getD main_init) 10)
      (by rfl) (by decide) (Or.inr (by rfl))).imp (fun _ h => ⟨h.1, h.2.1⟩)⟩

/-- C10. In status `incomplete` with room left in the buffer, a received byte
other than NUL and newline is stored at the cursor, every other byte of the
buffer is kept, the cursor advances by one, and the status becomes `complete`
exactly when the byte is the terminator, staying `incomplete` otherwise. -/
theorem accumulating_appends_byte (g : Board)
    (hst : g.at_command.status = .incomplete)
    (hgot : (Serial1Read g.usart1).1 ≠ -1)
    (hc : to_uchar (Serial1Read g.usart1).1 ≠ 0 ∧ to_uchar (Serial1Read g.usart1).1 ≠ 10)
    (hlen : g.at_command.buf.length = ATCMD_BUFFER_SIZE)
    (hpos : g.at_command.new_position < ATCMD_BUFFER_SIZE) :
    ∃ g2, get_a_cmd g = some (0, g2) ∧
      g2.at_command.buf[g.at_command.new_position]? = some (to_uchar (Serial1Read g.usart1).1) ∧
      (∀ j, j ≠ g.at_command.new_position →
        g2.at_command.buf[j]? = g.at_command.buf[j]?) ∧
      g2.at_command.buf.length = ATCMD_BUFFER_SIZE ∧
      g2.at_command.new_position = g.at_command.new_position + 1 ∧
      (g2.at_command.status = .complete ↔ to_uchar (Serial1Read g.usart1).1 = 59) ∧
      (to_uchar (Serial1Read g.usart1).1 ≠ 59 → g2.at_command.status = .incomplete) := by
  have hadd : add_char_to_cmd_buf g.at_command (Serial1Read g.usart1).1 =
      some { g.at_command with
        buf := g.at_command.buf.set g.at_command.new_position (to_uchar (Serial1Read g.usart1).1)
        new_position := g.at_command.new_position + 1 } := by
    simp [add_char_to_cmd_buf, hpos]
  have hset : (g.at_command.buf.set g.at_command.new_position
      (to_uchar (Serial1Read g.usart1).1))[g.at_command.new_position]? =
      some (to_uchar (Serial1Read g.usart1).1) := by
    simp [List.getElem?_set, hlen, hpos]
  have hframe : ∀ j, j ≠ g.at_command.new_position →
      (g.at_command.buf.set g.at_command.new_position
        (to_uchar (Serial1Read g.usart1).1))[j]? = g.at_command.buf[j]? := by
    intro j hj
    simp [List.getElem?_set, Ne.symm hj]
  simp only [get_a_cmd, hst, hgot, ne_eq, not_false_eq_true, if_true, hc, and_self, hadd]
  by_cases h59 : to_uchar (Serial1Read g.usart1).1 = 59
  · simp only [h59, if_true]
    rw [h59] at hset hframe
    split_ifs
    · exact ⟨_, rfl, hset, hframe, by simp [hlen], rfl, by simp, by simp⟩
    · exact ⟨_, rfl, hset, hframe, by simp [hlen], rfl, by simp, by simp⟩
  · simp only [h59, if_false]
    exact ⟨_, rfl, hset, hframe, by simp [hlen], rfl, by simp [hst], by simp [hst]⟩

/-- The terminator received after `AT+`. -/
theorem accumulating_appends_byte_witness :
    ((receive_byte ((feed_stream main_init [65, 84, 43]).getD main_init) 59).at_command.status
        = .incomplete ∧
     (Serial1Read (receive_byte ((feed_stream main_init [65, 84, 43]).getD main_init) 59).usart1).1
        ≠ -1 ∧
     (receive_byte ((feed_stream main_init [65, 84, 43]).getD main_init) 59).at_command.new_position
        < ATCMD_BUFFER_SIZE) ∧
    ∃ g2, get_a_cmd (receive_byte ((feed_stream main_init [65, 84, 43]).getD main_init) 59)
        = some (0, g2) ∧
      g2.at_command.new_position =
        (receive_byte ((feed_stream main_init [65, 84, 43]).getD main_init) 59).at_command.new_position
          + 1 :=
  ⟨⟨by rfl, by decide, by decide⟩,
   (accumulating_appends_byte
      (receive_byte ((feed_stream main_init [65, 84, 43]).getD main_init) 59)
      (by rfl) (by decide) (by decide) (by rfl) (by decide)).imp
      (fun _ h => ⟨h.1, h.2.2.2.2.1⟩)⟩

/-- C10 fails as stated. After `AT+` and 197 further bytes the status is
`incomplete`, the cursor is 200 and the buffer has its 200 bytes, so the cursor
is no index of the buffer.  The next byte, be it `x` or the terminator, is
received and is neither NUL nor newline, but `get_a_cmd` stores it at
`buf[200]`, outside the buffer: nothing is appended to the command and the
call has no defined result.  One byte earlier, at cursor 199, the same byte is
appended and the cursor becomes 200. -/
theorem accumulating_byte_with_full_buffer :
    (feed_stream main_init (c_str "AT+" ++ List.replicate 197 120)).map
        (fun g => (g.at_command.status, g.at_command.new_position, g.at_command.buf.length)) =
      some (ATCMD_BUFFER_STATUS.incomplete, 200, 200) ∧
    (feed_stream main_init (c_str "AT+" ++ List.replicate 197 120)).map
        (fun g => ((Serial1Read (receive_byte g 120).usart1).1,
          add_char_to_cmd_buf (receive_byte g 120).at_command 120,
          get_a_cmd (receive_byte g 120))) =
      some (120, none, none) ∧
    (feed_stream main_init (c_str "AT+" ++ List.replicate 197 120)).map
        (fun g => ((Serial1Read (receive_byte g 59).usart1).1,
          get_a_cmd (receive_byte g 59))) =
      some (59, none) ∧
    (feed_stream main_init (c_str "AT+" ++ List.replicate 196 120)).bind
        (fun g => (get_a_cmd (receive_byte g 120)).map
          (fun r => (r.1, r.2.at_command.status, r.2.at_command.new_position,
            r.2.at_command.buf.getD 199 0))) =
      some (0, ATCMD_BUFFER_STATUS.incomplete, 200, 120) := by
  refine ⟨by decide!, by decide!, by decide!, by decide!⟩

/-! ## Ready state, dispatch guard and tokenizer entry -/


theorem receive_byte_pushes (g : Board) (c : uchar) :
    (receive_byte g c).usart1 = (rx_call g.usart1 (RxOp.push c)).2 ∧
    (receive_byte g c).USART1 = g.USART1 ∧
    (receive_byte g c).at_command = g.at_command := by
  simp [receive_byte, USART1_IRQHandler, rx_call]

/-- In status `complete` a stream only fills the receive ring. -/
theorem feed_stream_ready (s : List uchar) : ∀ g : Board,
    g.at_command.status = .complete →
    feed_stream g s = some { g with usart1 := (rx_run g.usart1 (s.map RxOp.push)).2 } := by
  induction s with
  | nil => intro g _; simp [feed_stream, rx_run]
  | cons c s ih =>
    intro g hst
    obtain ⟨h1, h2, h3⟩ := receive_byte_pushes g c
    have e1 : feed g c = some (0, receive_byte g c) := by
      simp [feed, get_a_cmd, h3, hst]
    have e2 := ih (receive_byte g c) (by rw [h3]; exact hst)
    simp only [feed_stream, e1, e2, List.map_cons, rx_run, h1, h2, h3]

theorem store_char_tail (c : uchar) (rb : ring_buffer) :
    (store_char c rb).2.tail = rb.tail := by
  unfold store_char
  split_ifs <;> rfl

/-- Pushes never move the tail of the receive ring. -/
theorem rx_run_pushes_tail (s : List uchar) : ∀ u : object_uart,
    (rx_run u (s.map RxOp.push)).2.rx_buffer.tail = u.rx_buffer.tail := by
  induction s with
  | nil => intro u; rfl
  | cons c s ih =>
    intro u
    simp only [List.map_cons, rx_run, rx_call]
    rw [ih]
    exact store_char_tail c u.rx_buffer

/-- C11. In status `complete` a `get_cmd` call returns 0 and changes nothing:
no byte leaves the receive ring and the command buffer, cursor and status stay
as they are.  This goes on over any stream of further bytes: they are only
pushed onto the ring, whose tail never moves. -/
theorem ready_refuses_input (g : Board) (hst : g.at_command.status = .complete) :
    get_a_cmd g = some (0, g) ∧
    ∀ s : List uchar, ∃ g2, feed_stream g s = some g2 ∧
      g2.at_command = g.at_command ∧
      g2.usart1 = (rx_run g.usart1 (s.map RxOp.push)).2 ∧
      g2.usart1.rx_buffer.tail = g.usart1.rx_buffer.tail := by
  exact ⟨by simp [get_a_cmd, hst],
    fun s => ⟨_, feed_stream_ready s g hst, rfl, rfl, rx_run_pushes_tail s g.usart1⟩⟩

/-- A `get_cmd` call after the stream `AT+cs;`. -/
theorem ready_refuses_input_witness :
    ((feed_stream main_init (c_str "AT+cs;")).getD main_init).at_command.status = .complete ∧
    get_a_cmd ((feed_stream main_init (c_str "AT+cs;")).getD main_init) =
      some (0, (feed_stream main_init (c_str "AT+cs;")).getD main_init) :=
  ⟨by rfl, (ready_refuses_input _ (by rfl)).1⟩

/-- C20. In status `not_start` or `incomplete`, `execute` returns -1, makes no
call through `action_array` and leaves every global (command buffer, cursor,
status, receive ring) and the display state unchanged. -/
theorem execute_needs_ready {L : Type} (action_array : Int → func_t L) (g : Board) (lcd : L)
    (hst : g.at_command.status = .not_start ∨ g.at_command.status = .incomplete) :
    execute_a_cmd action_array g lcd =
      some { ret := -1, board := g, lcd := lcd, invoked := none } := by
  have h : g.at_command.status ≠ .complete := by
    rcases hst with h | h <;> rw [h] <;> simp
  simp [execute_a_cmd, h]

/-- The call of `execute` on the initial state. -/
theorem execute_needs_ready_witness :
    (main_init.at_command.status = .not_start ∨ main_init.at_command.status = .incomplete) ∧
    (execute_a_cmd (fun _ _ _ w => w) main_init ()).map (fun r => (r.ret, r.invoked)) =
      some (-1, none) :=
  ⟨Or.inl (by rfl),
   by rw [execute_needs_ready (fun _ _ _ w => w) main_init () (Or.inl (by rfl))]; rfl⟩

/-- C17. When the byte after the 5-character mnemonic is the terminator,
`get_cmd_param` returns 0 and leaves the command buffer and `args` untouched. -/
theorem no_parameter_when_terminator_follows (at_cmd : ATcmd_buffer) (args : List (Option Nat))
    (h : at_cmd.buf.getD 5 0 = 59) :
    get_cmd_param at_cmd args = some (0, at_cmd, args) := by
  unfold get_cmd_param
  rw [if_pos h]

/-- The command `AT+cs;` has 0 parameters. -/
theorem no_parameter_when_terminator_follows_witness :
    (holding (c_str "AT+cs;")).getD 5 0 = 59 ∧
    get_cmd_param
        { buf := holding (c_str "AT+cs;"), new_position := 6, status := .complete }
        (List.replicate 6 none) =
      some (0, { buf := holding (c_str "AT+cs;"), new_position := 6, status := .complete },
        List.replicate 6 none) :=
  ⟨by rfl, no_parameter_when_terminator_follows _ _ (by rfl)⟩

/-- C18. `get_cmd_param` returns -1 exactly when the byte after the
5-character mnemonic is neither the terminator nor `=`, and it then leaves the
command buffer and `args` untouched. -/
theorem parameter_error_iff_no_terminator_no_equals (at_cmd : ATcmd_buffer)
    (args : List (Option Nat)) :
    ((∃ r, get_cmd_param at_cmd args = some r ∧ r.1 = -1) ↔
      (at_cmd.buf.getD 5 0 ≠ 59 ∧ at_cmd.buf.getD 5 0 ≠ 61)) ∧
    ((at_cmd.buf.getD 5 0 ≠ 59 ∧ at_cmd.buf.getD 5 0 ≠ 61) →
      get_cmd_param at_cmd args = some (-1, at_cmd, args)) := by
  have hback : (at_cmd.buf.getD 5 0 ≠ 59 ∧ at_cmd.buf.getD 5 0 ≠ 61) →
      get_cmd_param at_cmd args = some (-1, at_cmd, args) := by
    intro h
    unfold get_cmd_param
    rw [if_neg h.1, if_pos h.2]
  refine ⟨⟨?_, fun h => ⟨_, hback h, rfl⟩⟩, hback⟩
  rintro ⟨r, hr, hret⟩
  by_contra hcon
  have hcases : at_cmd.buf.getD 5 0 = 59 ∨ at_cmd.buf.getD 5 0 = 61 := by
    by_cases h1 : at_cmd.buf.getD 5 0 = 59
    · exact Or.inl h1
    · by_cases h2 : at_cmd.buf.getD 5 0 = 61
      · exact Or.inr h2
      · exact absurd ⟨h1, h2⟩ hcon
  rcases hcases with h | h
  · unfold get_cmd_param at hr
    rw [if_pos h] at hr
    cases hr
    simp at hret
  · have h59 : at_cmd.buf.getD 5 0 ≠ 59 := by rw [h]; decide
    have h61 : ¬ (at_cmd.buf.getD 5 0 ≠ 61) := fun hn => hn h
    unfold get_cmd_param at hr
    rw [if_neg h59, if_neg h61] at hr
    split at hr
    · cases hr
    · split at hr
      · cases hr
      · split at hr
        · cases hr
        · split_ifs at hr
          split at hr
          · cases hr
          · simp only [Option.some.injEq] at hr
            rw [← hr] at hret
            simp only at hret
            omega

/-! ## The command table -/


theorem byte_value_sub_ne (a b : uchar) (h : a ≠ b) : byte_value a - byte_value b ≠ 0 := by
  intro h0
  apply h
  apply Fin.ext
  unfold byte_value at h0
  omega

/-- Against a row without NUL in its first `n` bytes, `strncmp` is 0 exactly
when the first `n` bytes are the same. -/
theorem strncmp_eq_zero_iff (n : Nat) : ∀ (s e : List uchar), n ≤ e.length →
    (∀ b ∈ e.take n, b ≠ 0) → (strncmp s e n = 0 ↔ s.take n = e.take n) := by
  induction n with
  | zero => intro s e _ _; simp [strncmp]
  | succ n ih =>
    intro s e hlen hnz
    cases e with
    | nil => simp at hlen
    | cons b e =>
      have hb : b ≠ 0 := hnz b (by simp)
      have hrest : ∀ x ∈ e.take n, x ≠ 0 := fun x hx => hnz x (by simp [hx])
      have hlen2 : n ≤ e.length := by simpa using hlen
      cases s with
      | nil =>
        have : (0 : uchar) ≠ b := fun h => hb h.symm
        simp [strncmp, this, byte_value_sub_ne 0 b this]
      | cons a s =>
        by_cases hab : a = b
        · subst hab
          simp [strncmp, hb, ih s e hlen2 hrest]
        · simp [strncmp, hab, byte_value_sub_ne a b hab]

theorem ATcmd_rows : ATcmd.length = MAX_ATCMD_NUM ∧
    ∀ e ∈ ATcmd, 5 ≤ e.length ∧ ∀ b ∈ e.take 5, b ≠ 0 := by
  decide!

theorem ATcmd_nodup : (ATcmd.map (fun e => e.take 5)).Nodup := by
  decide!

theorem ATcmd_getD_mem (i : Nat) (hi : i < MAX_ATCMD_NUM) : ATcmd.getD i [] ∈ ATcmd := by
  have hl : i < ATcmd.length := by rw [ATcmd_rows.1]; exact hi
  rw [List.getD_eq_getElem _ _ hl]
  exact List.getElem_mem hl

theorem row_match_iff (buf : List uchar) (i : Nat) (hi : i < MAX_ATCMD_NUM) :
    strncmp buf (ATcmd.getD i []) 5 = 0 ↔ buf.take 5 = (ATcmd.getD i []).take 5 := by
  have h := ATcmd_rows.2 _ (ATcmd_getD_mem i hi)
  exact strncmp_eq_zero_iff 5 buf _ h.1 h.2

theorem rows_differ (i j : Nat) (hi : i < MAX_ATCMD_NUM) (hj : j < MAX_ATCMD_NUM)
    (hne : i ≠ j) : (ATcmd.getD i []).take 5 ≠ (ATcmd.getD j []).take 5 := by
  have hli : i < ATcmd.length := by rw [ATcmd_rows.1]; exact hi
  have hlj : j < ATcmd.length := by rw [ATcmd_rows.1]; exact hj
  intro h
  apply hne
  have hn := ATcmd_nodup
  rw [List.getD_eq_getElem _ _ hli, List.getD_eq_getElem _ _ hlj] at h
  have hi2 : i < (ATcmd.map (fun e => e.take 5)).length := by simpa using hli
  have hj2 : j < (ATcmd.map (fun e => e.take 5)).length := by simpa using hlj
  have e : (ATcmd.map (fun e => e.take 5))[i] = (ATcmd.map (fun e => e.take 5))[j] := by
    simpa using h
  exact (List.Nodup.getElem_inj_iff hn).mp e

/-- The lookup loop from row `count` over `n` rows: -1 when no row matches,
else the first row that does. -/
theorem get_cmd_index_loop_spec (buf : List uchar) : ∀ (n count : Nat),
    (get_cmd_index_loop buf n count = -1 ∧
      ∀ j, count ≤ j → j < count + n → strncmp buf (ATcmd.getD j []) 5 ≠ 0) ∨
    (∃ i, count ≤ i ∧ i < count + n ∧ get_cmd_index_loop buf n count = (i : Int) ∧
      strncmp buf (ATcmd.getD i []) 5 = 0 ∧
      ∀ j, count ≤ j → j < i → strncmp buf (ATcmd.getD j []) 5 ≠ 0) := by
  intro n
  induction n with
  | zero =>
    intro count
    exact Or.inl ⟨rfl, fun j h1 h2 => by omega⟩
  | succ n ih =>
    intro count
    by_cases hm : strncmp buf (ATcmd.getD count []) 5 = 0
    · refine Or.inr ⟨count, le_refl _, by omega, ?_, hm, fun j h1 h2 => by omega⟩
      simp only [get_cmd_index_loop]
      rw [if_pos hm]
    · have e : get_cmd_index_loop buf (n + 1) count = get_cmd_index_loop buf n (count + 1) := by
        simp only [get_cmd_index_loop]
        rw [if_neg hm]
      rcases ih (count + 1) with ⟨h1, h2⟩ | ⟨i, h1, h2, h3, h4, h5⟩
      · refine Or.inl ⟨by rw [e, h1], fun j hj1 hj2 => ?_⟩
        by_cases hjc : j = count
        · rw [hjc]; exact hm
        · exact h2 j (by omega) (by omega)
      · refine Or.inr ⟨i, by omega, by omega, by rw [e, h3], h4, fun j hj1 hj2 => ?_⟩
        by_cases hjc : j = count
        · rw [hjc]; exact hm
        · exact h5 j (by omega) hj2

/-- `get_cmd_index` is -1 when no row has the first five bytes of the buffer,
else the first row that has them. -/
theorem get_cmd_index_spec (at_cmd : ATcmd_buffer) :
    (get_cmd_index at_cmd = -1 ∧
      ∀ j, j < MAX_ATCMD_NUM → at_cmd.buf.take 5 ≠ (ATcmd.getD j []).take 5) ∨
    (∃ i, i < MAX_ATCMD_NUM ∧ get_cmd_index at_cmd = (i : Int) ∧
      at_cmd.buf.take 5 = (ATcmd.getD i []).take 5 ∧
      ∀ j, j < i → at_cmd.buf.take 5 ≠ (ATcmd.getD j []).take 5) := by
  rcases get_cmd_index_loop_spec at_cmd.buf MAX_ATCMD_NUM 0 with ⟨h1, h2⟩ | ⟨i, _, h2, h3, h4, h5⟩
  · refine Or.inl ⟨h1, fun j hj => ?_⟩
    rw [Ne, ← row_match_iff _ j hj]
    exact h2 j (Nat.zero_le _) (by omega)
  · have hi : i < MAX_ATCMD_NUM := by omega
    refine Or.inr ⟨i, hi, h3, (row_match_iff _ i hi).mp h4, fun j hj => ?_⟩
    rw [Ne, ← row_match_iff _ j (by omega)]
    exact h5 j (Nat.zero_le _) hj

theorem get_cmd_index_eq_iff (at_cmd : ATcmd_buffer) (i : Nat) (hi : i < MAX_ATCMD_NUM) :
    get_cmd_index at_cmd = (i : Int) ↔
      (at_cmd.buf.take 5 = (ATcmd.getD i []).take 5 ∧
        ∀ j, j < i → at_cmd.buf.take 5 ≠ (ATcmd.getD j []).take 5) := by
  rcases get_cmd_index_spec at_cmd with ⟨h1, h2⟩ | ⟨k, hk, h3, h4, h5⟩
  · constructor
    · intro h; rw [h1] at h; omega
    · intro h; exact absurd h.1 (h2 i hi)
  · constructor
    · intro h
      rw [h3] at h
      have : k = i := by omega
      subst this
      exact ⟨h4, h5⟩
    · intro h
      rw [h3]
      have : k = i := by
        rcases Nat.lt_trichotomy k i with hlt | heq | hgt
        · exact absurd h4 (h.2 k hlt)
        · exact heq
        · exact absurd h.1 (h5 i hgt)
      rw [this]

theorem get_cmd_index_eq_neg_one_iff (at_cmd : ATcmd_buffer) :
    get_cmd_index at_cmd = -1 ↔
      ∀ i, i < MAX_ATCMD_NUM → at_cmd.buf.take 5 ≠ (ATcmd.getD i []).take 5 := by
  rcases get_cmd_index_spec at_cmd with ⟨h1, h2⟩ | ⟨k, hk, h3, h4, _⟩
  · exact ⟨fun _ => h2, fun _ => h1⟩
  · constructor
    · intro h; rw [h3] at h; omega
    · intro h; exact absurd h4 (h k hk)

theorem get_cmd_index_of_row (at_cmd : ATcmd_buffer) (i : Nat) (hi : i < MAX_ATCMD_NUM)
    (h : at_cmd.buf.take 5 = (ATcmd.getD i []).take 5) : get_cmd_index at_cmd = (i : Int) := by
  rw [get_cmd_index_eq_iff at_cmd i hi]
  refine ⟨h, fun j hj => ?_⟩
  rw [h]
  exact rows_differ i j hi (by omega) (by omega)

/-- C14. `get_cmd_index` returns the smallest table index whose row equals the
first five bytes of the command buffer byte for byte; it returns -1 exactly
when no row does; its result is -1 or an index below 38; and two buffers with
the same first five bytes give the same result, whatever follows. -/
theorem get_cmd_index_first_match (at_cmd : ATcmd_buffer) :
    (∀ i : Nat, i < MAX_ATCMD_NUM →
      (get_cmd_index at_cmd = (i : Int) ↔
        (at_cmd.buf.take 5 = (ATcmd.getD i []).take 5 ∧
          ∀ j, j < i → at_cmd.buf.take 5 ≠ (ATcmd.getD j []).take 5))) ∧
    (get_cmd_index at_cmd = -1 ↔
      ∀ i, i < MAX_ATCMD_NUM → at_cmd.buf.take 5 ≠ (ATcmd.getD i []).take 5) ∧
    (get_cmd_index at_cmd = -1 ∨
      ∃ i, i < MAX_ATCMD_NUM ∧ get_cmd_index at_cmd = (i : Int)) ∧
    (∀ other : ATcmd_buffer, other.buf.take 5 = at_cmd.buf.take 5 →
      get_cmd_index other = get_cmd_index at_cmd) := by
  refine ⟨get_cmd_index_eq_iff at_cmd, get_cmd_index_eq_neg_one_iff at_cmd, ?_, ?_⟩
  · rcases get_cmd_index_spec at_cmd with ⟨h1, _⟩ | ⟨k, hk, h3, _, _⟩
    · exact Or.inl h1
    · exact Or.inr ⟨k, hk, h3⟩
  · intro other ho
    rcases get_cmd_index_spec at_cmd with ⟨h1, h2⟩ | ⟨k, hk, h3, h4, h5⟩
    · rw [h1, get_cmd_index_eq_neg_one_iff, ho]
      exact h2
    · rw [h3, get_cmd_index_eq_iff other k hk, ho]
      exact ⟨h4, h5⟩

/-- C15. The 38 table mnemonics are pairwise distinct byte for byte, so a
command that begins with row `i` resolves to exactly `i`; the codes that
differ only in case resolve to different slots (GX 2, gX 29, GY 3, gY 30,
SB 7, sb 14, DB 37, dB 31). -/
theorem mnemonics_resolve_to_their_own_slot :
    (ATcmd.map (fun e => e.take 5)).Nodup ∧
    ATcmd.length = MAX_ATCMD_NUM ∧
    (∀ (i : Nat) (at_cmd : ATcmd_buffer), i < MAX_ATCMD_NUM →
      at_cmd.buf.take 5 = (ATcmd.getD i []).take 5 → get_cmd_index at_cmd = (i : Int)) ∧
    (∀ at_cmd : ATcmd_buffer,
      (at_cmd.buf.take 5 = c_str "AT+GX" → get_cmd_index at_cmd = 2) ∧
      (at_cmd.buf.take 5 = c_str "AT+gX" → get_cmd_index at_cmd = 29) ∧
      (at_cmd.buf.take 5 = c_str "AT+GY" → get_cmd_index at_cmd = 3) ∧
      (at_cmd.buf.take 5 = c_str "AT+gY" → get_cmd_index at_cmd = 30) ∧
      (at_cmd.buf.take 5 = c_str "AT+SB" → get_cmd_index at_cmd = 7) ∧
      (at_cmd.buf.take 5 = c_str "AT+sb" → get_cmd_index at_cmd = 14) ∧
      (at_cmd.buf.take 5 = c_str "AT+DB" → get_cmd_index at_cmd = 37) ∧
      (at_cmd.buf.take 5 = c_str "AT+dB" → get_cmd_index at_cmd = 31)) := by
  refine ⟨ATcmd_nodup, ATcmd_rows.1, fun i a hi h => get_cmd_index_of_row a i hi h, fun a => ?_⟩
  refine ⟨fun h => ?_, fun h => ?_, fun h => ?_, fun h => ?_, fun h => ?_, fun h => ?_,
    fun h => ?_, fun h => ?_⟩
  · exact get_cmd_index_of_row a 2 (by decide) (by rw [h]; rfl)
  · exact get_cmd_index_of_row a 29 (by decide) (by rw [h]; rfl)
  · exact get_cmd_index_of_row a 3 (by decide) (by rw [h]; rfl)
  · exact get_cmd_index_of_row a 30 (by decide) (by rw [h]; rfl)
  · exact get_cmd_index_of_row a 7 (by decide) (by rw [h]; rfl)
  · exact get_cmd_index_of_row a 14 (by decide) (by rw [h]; rfl)
  · exact get_cmd_index_of_row a 37 (by decide) (by rw [h]; rfl)
  · exact get_cmd_index_of_row a 31 (by decide) (by rw [h]; rfl)

/-! ## Bounds of the command buffer and of the argument array -/


theorem holding_length (w : List uchar) (h : w.length ≤ ATCMD_BUFFER_SIZE) :
    (holding w).length = ATCMD_BUFFER_SIZE := by
  unfold holding
  simp
  omega

theorem asm_next_room (st : ATCMD_BUFFER_STATUS) (w : List uchar) (c : uchar)
    (h : w.length < ATCMD_BUFFER_SIZE) :
    ∃ ret st2 w2, asm_next st w c = some (ret, st2, w2) ∧ w2.length ≤ w.length + 1 := by
  unfold asm_next
  cases st <;> simp only [h, if_true] <;> (try split_ifs) <;>
    exact ⟨_, _, _, rfl, by simp⟩

/-- With room left in the buffer a fed byte is taken without a store outside
it, and the cursor grows by at most one. -/
theorem feed_with_room {g : Board} (h : AsmInv g) (c : uchar)
    (hroom : g.at_command.new_position < ATCMD_BUFFER_SIZE) :
    ∃ r, feed g c = some r ∧ AsmInv r.2 ∧
      r.2.at_command.new_position ≤ g.at_command.new_position + 1 := by
  obtain ⟨hrx, w, hb, hp, hw⟩ := h
  have hl : w.length < ATCMD_BUFFER_SIZE := by rw [← hp]; exact hroom
  obtain ⟨ret, st2, w2, hn, hlen⟩ := asm_next_room g.at_command.status w c hl
  have href := feed_refines g c w hb hp hw hrx
  simp only [hn] at href
  obtain ⟨g2, e, ha, hr⟩ := href
  refine ⟨(ret, g2), e, AsmInv.feed ⟨hrx, w, hb, hp, hw⟩ c _ e, ?_⟩
  simp only [ha, hp]
  exact hlen

theorem feed_stream_with_room (s : List uchar) : ∀ {g : Board}, AsmInv g →
    g.at_command.new_position + s.length ≤ ATCMD_BUFFER_SIZE →
    ∃ g2, feed_stream g s = some g2 ∧ AsmInv g2 ∧
      g2.at_command.new_position ≤ g.at_command.new_position + s.length := by
  induction s with
  | nil => intro g h _; exact ⟨g, rfl, h, by simp⟩
  | cons c s ih =>
    intro g h hfit
    simp only [List.length_cons] at hfit
    obtain ⟨r, e, hinv, hpos⟩ := feed_with_room h c (by omega)
    obtain ⟨g2, e2, hinv2, hpos2⟩ := ih hinv (by omega)
    refine ⟨g2, by simp [feed_stream, e, e2], hinv2, ?_⟩
    simp only [List.length_cons]
    omega

theorem asm_inv_buf_length {g : Board} (h : AsmInv g) :
    g.at_command.buf.length = ATCMD_BUFFER_SIZE ∧
    g.at_command.new_position ≤ ATCMD_BUFFER_SIZE := by
  obtain ⟨_, w, hb, hp, hw⟩ := h
  rw [hb, hp]
  exact ⟨holding_length w hw, hw⟩

/-- C12, as amended. The assembler itself tests no bound; what holds is this.
From a state reached over any stream, as long as the cursor plus the number of
further bytes is at most 200, every `get_cmd` call stores inside the 200-byte
buffer: after each initial segment of the further bytes the call sequence has
a defined result, the buffer still has 200 bytes, and the cursor has grown by
at most one per byte and is at most 200. -/
theorem writes_stay_inside_while_input_fits (pre s : List uchar) (g : Board)
    (hpre : feed_stream main_init pre = some g)
    (hfit : g.at_command.new_position + s.length ≤ ATCMD_BUFFER_SIZE) :
    g.at_command.buf.length = ATCMD_BUFFER_SIZE ∧
    g.at_command.new_position ≤ ATCMD_BUFFER_SIZE ∧
    ∀ k, k ≤ s.length → ∃ g2, feed_stream g (s.take k) = some g2 ∧
      g2.at_command.buf.length = ATCMD_BUFFER_SIZE ∧
      g2.at_command.new_position ≤ g.at_command.new_position + k ∧
      g2.at_command.new_position ≤ ATCMD_BUFFER_SIZE := by
  have hinv := AsmInv.feed_stream pre AsmInv.main_init hpre
  refine ⟨(asm_inv_buf_length hinv).1, (asm_inv_buf_length hinv).2, fun k hk => ?_⟩
  have hlen : (s.take k).length = k := by simp [hk]
  obtain ⟨g2, e, hinv2, hpos⟩ := feed_stream_with_room (s.take k) hinv (by omega)
  exact ⟨g2, e, (asm_inv_buf_length hinv2).1, by omega, (asm_inv_buf_length hinv2).2⟩

/-- The amended C12 on the bytes `cs;` after the stream `AT+`. -/
theorem writes_stay_inside_while_input_fits_witness :
    (feed_stream main_init (c_str "AT+") =
        some ((feed_stream main_init (c_str "AT+")).getD main_init) ∧
     ((feed_stream main_init (c_str "AT+")).getD main_init).at_command.new_position +
        (c_str "cs;").length ≤ ATCMD_BUFFER_SIZE) ∧
    ∃ g2, feed_stream ((feed_stream main_init (c_str "AT+")).getD main_init)
        ((c_str "cs;").take 3) = some g2 ∧
      g2.at_command.new_position ≤ ATCMD_BUFFER_SIZE :=
  ⟨⟨by rfl, by decide⟩,
   ((writes_stay_inside_while_input_fits (c_str "AT+") (c_str "cs;")
      ((feed_stream main_init (c_str "AT+")).getD main_init) (by rfl) (by decide)).2.2
        3 (by decide)).imp (fun _ h => ⟨h.1, h.2.2.2⟩)⟩

/-- C12 fails as stated. After 200 bytes `A` the status is `not_start` and the
cursor is 200; the next `A` is stored at index 200, outside the buffer.  The
same happens in status `incomplete` after `AT+` and 197 bytes without
terminator. -/
theorem long_input_is_stored_outside_the_buffer :
    ((feed_stream main_init (List.replicate 200 65)).map
        (fun g => (g.at_command.status, g.at_command.new_position)) =
        some (ATCMD_BUFFER_STATUS.not_start, 200) ∧
     ((feed_stream main_init (List.replicate 200 65)).bind
        (fun g => add_char_to_cmd_buf g.at_command 65)) = none ∧
     feed_stream main_init (List.replicate 201 65) = none) ∧
    ((feed_stream main_init (c_str "AT+" ++ List.replicate 197 120)).map
        (fun g => (g.at_command.status, g.at_command.new_position)) =
        some (ATCMD_BUFFER_STATUS.incomplete, 200) ∧
     feed_stream main_init (c_str "AT+" ++ List.replicate 198 120) = none) := by
  refine ⟨⟨by decide!, by decide!, by decide!⟩, by decide!, by decide!⟩

/-- C16 on the code. `AT+fs=200,23,123;` gives count 3 and the strings `200`,
`23`, `123`, and five parameters give count 5; with six parameters the loop
of `get_cmd_param` stores the closing NULL at `args[6]`, outside the 6-entry
array of `execute_a_cmd`, so neither function has a defined result. -/
theorem six_parameters_overrun_args :
    (get_cmd_param
        { buf := holding (c_str "AT+fs=200,23,123;"), new_position := 17, status := .complete }
        (List.replicate 6 none)).map (fun r => (r.1, argv_of r.2.1.buf r.2.2 r.1)) =
      some (3, [some (c_str "200"), some (c_str "23"), some (c_str "123")]) ∧
    (get_cmd_param
        { buf := holding (c_str "AT+fs=1,2,3,4,5;"), new_position := 16, status := .complete }
        (List.replicate 6 none)).map (fun r => (r.1, argv_of r.2.1.buf r.2.2 r.1)) =
      some (5, [some (c_str "1"), some (c_str "2"), some (c_str "3"), some (c_str "4"),
        some (c_str "5")]) ∧
    get_cmd_param
        { buf := holding (c_str "AT+fs=1,2,3,4,5,6;"), new_position := 18, status := .complete }
        (List.replicate 6 none) = none ∧
    (execute_a_cmd (fun _ _ _ w => w)
        { main_init with at_command :=
            { buf := holding (c_str "AT+fs=1,2,3,4,5,6;"), new_position := 18,
              status := .complete } } ()).isNone = true := by
  refine ⟨by decide!, by decide!, by decide!, by decide!⟩

/-- C19 on the code. Given room, `get_cmd_param` writes entry 6 of `args` for
six parameters (the entry, preset to a non-NULL value, comes back NULL) and
returns 7 for seven parameters; with the 6-entry array of `execute_a_cmd`
seven parameters are stored outside the array. -/
theorem tokenizer_count_has_no_bound :
    (get_cmd_param
        { buf := holding (c_str "AT+fs=1,2,3,4,5,6;"), new_position := 18, status := .complete }
        (List.replicate 7 (some 0))).map (fun r => (r.1, r.2.2)) =
      some (6, [some 6, some 8, some 10, some 12, some 14, some 16, none]) ∧
    (get_cmd_param
        { buf := holding (c_str "AT+fs=1,2,3,4,5,6,7;"), new_position := 20, status := .complete }
        (List.replicate 8 (some 0))).map (fun r => (r.1, r.2.2)) =
      some (7, [some 6, some 8, some 10, some 12, some 14, some 16, some 18, none]) ∧
    get_cmd_param
        { buf := holding (c_str "AT+fs=1,2,3,4,5,6,7;"), new_position := 20, status := .complete }
        (List.replicate 6 none) = none := by
  refine ⟨by decide!, by decide!, by decide!⟩

/-! ## The tokenizer loop -/


theorem store_arg_length (args args2 : List (Option Nat)) (i : Nat) (v : Option Nat)
    (h : store_arg args i v = some args2) : args2.length = args.length ∧ i < args.length := by
  unfold store_arg at h
  split_ifs at h with hi
  cases h
  exact ⟨by simp, hi⟩

/-- The fuel handed to the loop of `get_cmd_param` never decides its result:
once it covers the entries of `args` above `count`, more fuel changes
nothing, because the store leaves the array first. -/
theorem get_cmd_param_loop_fuel (fuel : Nat) : ∀ (mem : List uchar) (saved : Option Nat)
    (args : List (Option Nat)) (count : Nat), args.length ≤ count + fuel →
    get_cmd_param_loop (fuel + 1) mem saved args count =
      get_cmd_param_loop fuel mem saved args count := by
  induction fuel with
  | zero =>
    intro mem saved args count h
    unfold get_cmd_param_loop
    split_ifs with h0
    · rfl
    · simp only
      cases hs : strtok mem saved none [44] with
      | none => rfl
      | some t =>
        obtain ⟨tok, mem2, saved2⟩ := t
        simp only
        cases ha : store_arg args (count + 1) tok with
        | none => rfl
        | some args2 =>
          have := (store_arg_length _ _ _ _ ha).2
          omega
  | succ fuel ih =>
    intro mem saved args count h
    rw [get_cmd_param_loop]
    conv_rhs => rw [get_cmd_param_loop]
    split_ifs with h0
    · rfl
    · cases hs : strtok mem saved none [44] with
      | none => rfl
      | some t =>
        obtain ⟨tok, mem2, saved2⟩ := t
        simp only
        cases ha : store_arg args (count + 1) tok with
        | none => rfl
        | some args2 =>
          simp only
          have hl := (store_arg_length _ _ _ _ ha).1
          exact ih mem2 saved2 args2 (count + 1) (by omega)

/-! ## Dispatch -/


theorem holding_nil : holding [] = List.replicate ATCMD_BUFFER_SIZE 0 := by
  simp [holding]

theorem clean_is_init (a : ATcmd_buffer) (w : List uchar) (hb : a.buf = holding w)
    (hp : a.new_position = w.length) (hw : w.length ≤ ATCMD_BUFFER_SIZE) :
    clean_cmd_buf a = object_ATcmd_init := by
  rw [clean_holding a w hb hp hw, holding_nil]
  rfl

/-- From the freshly initialised command buffer and an empty receive ring, the
stream of a command leaves exactly that command, complete, and the ring empty. -/
theorem assemble_from_clean (g : Board) (body : List uchar)
    (ha : g.at_command = object_ATcmd_init)
    (hrx : Holds g.usart1.rx_buffer [])
    (hterm : (59 : uchar) ∉ body)
    (hfit : 3 + (without_noise body).length + 1 ≤ ATCMD_BUFFER_SIZE) :
    ∃ g2, feed_stream g ([65, 84, 43] ++ body ++ [59]) = some g2 ∧
      g2.at_command =
        { buf := holding ([65, 84, 43] ++ without_noise body ++ [59])
          new_position := 3 + (without_noise body).length + 1
          status := .complete } := by
  have ha0 : g.at_command = ⟨holding [], List.length ([] : List uchar), .not_start⟩ := by
    rw [ha, holding_nil]; rfl
  obtain ⟨g1, e1, a1, r1⟩ := feed_step g 65 [] .not_start ha0 (by simp) (fun _ => hrx)
    0 .not_start [65] (by simp [asm_next, ATCMD_BUFFER_SIZE])
  obtain ⟨g2, e2, a2, r2⟩ := feed_step g1 84 [65] .not_start a1 (by simp [ATCMD_BUFFER_SIZE]) r1
    0 .not_start [65, 84] (by simp [asm_next, ATCMD_BUFFER_SIZE])
  obtain ⟨g3, e3, a3, r3⟩ := feed_step g2 43 [65, 84] .not_start a2 (by simp [ATCMD_BUFFER_SIZE]) r2
    0 .incomplete [65, 84, 43] (by simp [asm_next, ATCMD_BUFFER_SIZE])
  obtain ⟨g4, e4, a4, r4⟩ := feed_stream_body body g3 [65, 84, 43] a3 (r3 (by simp)) hterm
    (by simp; omega)
  obtain ⟨g5, e5, a5, _⟩ := feed_step g4 59 ([65, 84, 43] ++ without_noise body) .incomplete a4
    (by simp; omega) (fun _ => r4) 0 .complete ([65, 84, 43] ++ without_noise body ++ [59])
    (by
      have hl : ([65, 84, 43] ++ without_noise body).length < ATCMD_BUFFER_SIZE := by
        simp; omega
      have d1 : ¬ ((59 : uchar) = 0) := by decide
      have d2 : ¬ ((59 : uchar) = 10) := by decide
      simp only [asm_next, hl, d1, d2, ne_eq, not_false_eq_true, and_self, if_true])
  refine ⟨g5, ?_, ?_⟩
  · have hs : ([65, 84, 43] : List uchar) ++ body ++ [59] = 65 :: 84 :: 43 :: (body ++ [59]) := by
      simp
    rw [hs]
    simp only [feed_stream, e1, e2, e3]
    rw [feed_stream_append, e4]
    simp only [Option.bind_eq_bind, Option.some_bind, feed_stream, e5]
  · rw [a5]
    simp
    omega

/-- C23. `execute` on a complete command whose mnemonic resolves to the index
`i` and whose tokenization returns `arg_num` other than -1 with the pointers
`args`: the one call made is `action_array i` on the strings `args` point to
and on `arg_num`, the serial and display state that results is the one that
call returns, the value returned is 0, and whatever the action did the
assembler is back in status `not_start` with cursor 0. -/
theorem dispatch_invokes_the_slot_once {L : Type} (action_array : Int → func_t L) (g : Board)
    (lcd : L) (arg_num : Int) (at_cmd2 : ATcmd_buffer) (args : List (Option Nat))
    (hst : g.at_command.status = .complete)
    (hidx : get_cmd_index g.at_command ≠ -1)
    (hpar : get_cmd_param g.at_command (List.replicate 6 none) = some (arg_num, at_cmd2, args))
    (hok : arg_num ≠ -1) :
    ∃ r, execute_a_cmd action_array g lcd = some r ∧
      r.ret = 0 ∧
      r.invoked = some { slot := get_cmd_index g.at_command
                         argv := argv_of at_cmd2.buf args arg_num
                         arg_num := arg_num } ∧
      (r.board.usart1, r.board.USART1, r.lcd) =
        action_array (get_cmd_index g.at_command) (argv_of at_cmd2.buf args arg_num) arg_num
          (g.usart1, g.USART1, lcd) ∧
      r.board.at_command.status = .not_start ∧
      r.board.at_command.new_position = 0 := by
  refine ⟨_, by simp only [execute_a_cmd, hst, hidx, hpar, hok, if_true, if_false]; rfl,
    rfl, rfl, rfl, rfl, rfl⟩


/-- The command `AT+fs=200,23;`. -/
theorem dispatch_invokes_the_slot_once_witness :
    ((feed_stream main_init (c_str "AT+fs=200,23;")).getD main_init).at_command.status =
      .complete ∧
    ∃ r, execute_a_cmd (fun _ _ _ w => w)
        ((feed_stream main_init (c_str "AT+fs=200,23;")).getD main_init) () = some r ∧
      r.ret = 0 ∧
      r.invoked = some { slot := 11, argv := [some (c_str "200"), some (c_str "23")],
                         arg_num := 2 } ∧
      r.board.at_command.status = .not_start ∧
      r.board.at_command.new_position = 0 :=
  ⟨by decide!,
   (dispatch_invokes_the_slot_once (fun _ _ _ w => w)
      ((feed_stream main_init (c_str "AT+fs=200,23;")).getD main_init) () 2
      { buf := holding (c_str "AT+fs=200" ++ [0] ++ c_str "23" ++ [0]), new_position := 13,
        status := .complete }
      [some 6, some 10, none, none, none, none]
      (by decide!) (by decide!) (by decide!) (by decide!)).imp
    (fun _ h => ⟨h.1, h.2.1, h.2.2.1.trans (by decide!), h.2.2.2.2.1, h.2.2.2.2.2⟩)⟩

/-! ## Blanks, the action table and `SetDevice` -/


/-- C30 on the code. The assembler leaves out NUL and newline only; a blank is
stored like any other byte.  `AT+  cs;` is assembled with its two blanks, its
first five bytes match no row of the table, and `execute` returns -1 without
a call, where `AT+cs;` calls slot 10.  The second example of the format
documentation, `AT+ fs = 200 , 23,   123  ;`, is likewise an unknown command,
where `AT+fs=200,23,123;` calls slot 11 with three strings.  Blanks inside the
parameter section alone stay in the strings handed over. -/
theorem blanks_are_kept_in_the_command :
    (feed_stream main_init (c_str "AT+cs;")).bind (fun g =>
        (execute_a_cmd (fun _ _ _ w => w) g ()).map (fun r => (r.ret, r.invoked))) =
      some (0, some { slot := 10, argv := [], arg_num := 0 }) ∧
    (feed_stream main_init (c_str "AT+  cs;")).map
        (fun g => (g.at_command.status, c_string_of g.at_command.buf,
          get_cmd_index g.at_command)) =
      some (.complete, c_str "AT+  cs;", -1) ∧
    (feed_stream main_init (c_str "AT+  cs;")).bind (fun g =>
        (execute_a_cmd (fun _ _ _ w => w) g ()).map (fun r => (r.ret, r.invoked))) =
      some (-1, none) ∧
    (feed_stream main_init (c_str "AT+fs=200,23,123;")).bind (fun g =>
        (execute_a_cmd (fun _ _ _ w => w) g ()).map (fun r => (r.ret, r.invoked))) =
      some (0, some { slot := 11,
                      argv := [some (c_str "200"), some (c_str "23"), some (c_str "123")],
                      arg_num := 3 }) ∧
    (feed_stream main_init (c_str "AT+ fs = 200 , 23,   123  ;")).map
        (fun g => (g.at_command.status, c_string_of g.at_command.buf,
          get_cmd_index g.at_command)) =
      some (.complete, c_str "AT+ fs = 200 , 23,   123  ;", -1) ∧
    (feed_stream main_init (c_str "AT+ fs = 200 , 23,   123  ;")).bind (fun g =>
        (execute_a_cmd (fun _ _ _ w => w) g ()).map (fun r => (r.ret, r.invoked))) =
      some (-1, none) ∧
    (feed_stream main_init (c_str "AT+fs=200 , 23,   123  ;")).bind (fun g =>
        (execute_a_cmd (fun _ _ _ w => w) g ()).map (fun r => (r.ret, r.invoked))) =
      some (0, some { slot := 11,
                      argv := [some (c_str "200 "), some (c_str " 23"), some (c_str "   123  ")],
                      arg_num := 3 }) := by
  refine ⟨by decide!, by decide!, by decide!, by decide!, by decide!, by decide!, by decide!⟩


theorem replicate38 : (List.replicate MAX_ATCMD_NUM (none : Option Handler)) =
    [none, none, none, none, none, none, none, none, none, none,
     none, none, none, none, none, none, none, none, none, none,
     none, none, none, none, none, none, none, none, none, none,
     none, none, none, none, none, none, none, none] := by decide

/-- The stores of `object_ATcmd_init` on any `global_lcd`: the 32 pointers of
the display object in the order of their declaration, `action_idle` in the
entries 32 to 36 and `SetDebug` in entry 37. -/
theorem object_ATcmd_init_actions_eq (global_lcd : object_lcd) :
    object_ATcmd_init_actions global_lcd =
      global_lcd.pointers ++ List.replicate 5 (some Handler.action_idle) ++
        [some Handler.SetDebug] := by
  unfold object_ATcmd_init_actions object_lcd.pointers
  simp only [replicate38, List.foldl_cons, List.foldl_nil, List.set_cons_zero, List.set_cons_succ]
  simp only [MAX_ATCMD_NUM]
  have : List.range (38 - 1 - 32) = [0, 1, 2, 3, 4] := by decide
  simp only [this, List.foldl_cons, List.foldl_nil, List.set_cons_zero, List.set_cons_succ]
  rfl

/-- The pointers of `global_lcd` after `object_lcd_init`, whatever they were
before. -/
theorem object_lcd_init_pointers (w : object_uart × USART_TypeDef × LcdState) :
    (object_lcd_init w).2.2.2.global_lcd.pointers =
      [ some Handler.SetDevice, some Handler.LCD_Init_hx8347a,
        some Handler.GetDisplayXSize_uart1, some Handler.GetDisplayYSize_uart1,
        some Handler.DeviceOn, some Handler.DeviceOff,
        some Handler.idle_hx8347a, some Handler.idle_hx8347a,
        some Handler.idle_hx8347a, some Handler.idle_hx8347a,
        some Handler.ClearScreen, some Handler.FillScreen,
        some Handler.SetFrontColor, some Handler.GetFrontColor_uart1,
        some Handler.SetBackColor, some Handler.GetBackColor_uart1,
        some Handler.DrawPoint, some Handler.DrawLine,
        some Handler.DrawRectangle, some Handler.DrawCircle,
        some Handler.DrawRoundRect, some Handler.FillRectangle,
        some Handler.FillCircle, some Handler.FillRoundRect,
        some Handler.PrintString, some Handler.PrintString, some Handler.PrintString,
        some Handler.SetFont, some Handler.GetFont_uart1,
        some Handler.GetFontXSize_uart1, some Handler.GetFontYSize_uart1,
        some Handler.action_test ] := by
  simp only [object_lcd_init, LCD_Init_hx8347a, ClearScreen]
  split_ifs <;> rfl

theorem ATcmd_mnemonics :
    ATcmd.map (fun e => e.take 5) =
      [ "AT+SD", "AT+II", "AT+GX", "AT+GY", "AT+DO", "AT+DF", "AT+SC", "AT+SB", "AT+SP",
        "AT+WP", "AT+cs", "AT+fs", "AT+sf", "AT+gf", "AT+sb", "AT+gb", "AT+dp", "AT+dl",
        "AT+dr", "AT+dc", "AT+dR", "AT+fr", "AT+fc", "AT+fR", "AT+ps", "AT+pi", "AT+pf",
        "AT+sF", "AT+gF", "AT+gX", "AT+gY", "AT+dB", "AT+DT", "AT+ED", "AT+EW", "AT+FW",
        "AT+gt", "AT+DB" ].map c_str := by
  decide!

/-- C26. `object_ATcmd_init` fills all 38 entries of `action_array`, and entry
`i` belongs to row `i` of the table `ATcmd`: paired with the mnemonics in table
order, the entries are the pointers `set_device`, `lcd_init`, ... `draw_bitmap`
of `global_lcd` for the rows 0 to 31, `action_idle` for `AT+DT`, `AT+ED`,
`AT+EW`, `AT+FW`, `AT+gt` (rows 32 to 36) and `SetDebug` for `AT+DB` (row 37).
After `object_lcd_init`, which `main` runs first, these are the functions
listed and none of the 38 entries is NULL. -/
theorem action_slots_follow_the_table (global_lcd : object_lcd)
    (w : object_uart × USART_TypeDef × LcdState) :
    (object_ATcmd_init_actions global_lcd).length = MAX_ATCMD_NUM ∧
    (ATcmd.map (fun e => e.take 5)).zip (object_ATcmd_init_actions global_lcd) =
      [ (c_str "AT+SD", global_lcd.set_device), (c_str "AT+II", global_lcd.lcd_init),
        (c_str "AT+GX", global_lcd.get_lcd_Xsize), (c_str "AT+GY", global_lcd.get_lcd_Ysize),
        (c_str "AT+DO", global_lcd.device_on), (c_str "AT+DF", global_lcd.device_off),
        (c_str "AT+SC", global_lcd.set_contrast), (c_str "AT+SB", global_lcd.set_brightness),
        (c_str "AT+SP", global_lcd.set_display_page), (c_str "AT+WP", global_lcd.write_page),
        (c_str "AT+cs", global_lcd.clear_screen), (c_str "AT+fs", global_lcd.fill_screen),
        (c_str "AT+sf", global_lcd.set_front_color), (c_str "AT+gf", global_lcd.get_front_color),
        (c_str "AT+sb", global_lcd.set_back_color), (c_str "AT+gb", global_lcd.get_back_color),
        (c_str "AT+dp", global_lcd.draw_point), (c_str "AT+dl", global_lcd.draw_line),
        (c_str "AT+dr", global_lcd.draw_rectangle), (c_str "AT+dc", global_lcd.draw_cricle),
        (c_str "AT+dR", global_lcd.d_round_rectangle),
        (c_str "AT+fr", global_lcd.fill_rectangle), (c_str "AT+fc", global_lcd.fill_cricle),
        (c_str "AT+fR", global_lcd.f_round_rectangle), (c_str "AT+ps", global_lcd.print_string),
        (c_str "AT+pi", global_lcd.print_integer), (c_str "AT+pf", global_lcd.print_float),
        (c_str "AT+sF", global_lcd.set_font), (c_str "AT+gF", global_lcd.get_font),
        (c_str "AT+gX", global_lcd.get_font_Xsize), (c_str "AT+gY", global_lcd.get_font_Ysize),
        (c_str "AT+dB", global_lcd.draw_bitmap),
        (c_str "AT+DT", some Handler.action_idle), (c_str "AT+ED", some Handler.action_idle),
        (c_str "AT+EW", some Handler.action_idle), (c_str "AT+FW", some Handler.action_idle),
        (c_str "AT+gt", some Handler.action_idle), (c_str "AT+DB", some Handler.SetDebug) ] ∧
    object_ATcmd_init_actions (object_lcd_init w).2.2.2.global_lcd =
      [ some Handler.SetDevice, some Handler.LCD_Init_hx8347a,
        some Handler.GetDisplayXSize_uart1, some Handler.GetDisplayYSize_uart1,
        some Handler.DeviceOn, some Handler.DeviceOff,
        some Handler.idle_hx8347a, some Handler.idle_hx8347a,
        some Handler.idle_hx8347a, some Handler.idle_hx8347a,
        some Handler.ClearScreen, some Handler.FillScreen,
        some Handler.SetFrontColor, some Handler.GetFrontColor_uart1,
        some Handler.SetBackColor, some Handler.GetBackColor_uart1,
        some Handler.DrawPoint, some Handler.DrawLine,
        some Handler.DrawRectangle, some Handler.DrawCircle,
        some Handler.DrawRoundRect, some Handler.FillRectangle,
        some Handler.FillCircle, some Handler.FillRoundRect,
        some Handler.PrintString, some Handler.PrintString, some Handler.PrintString,
        some Handler.SetFont, some Handler.GetFont_uart1,
        some Handler.GetFontXSize_uart1, some Handler.GetFontYSize_uart1,
        some Handler.action_test,
        some Handler.action_idle, some Handler.action_idle, some Handler.action_idle,
        some Handler.action_idle, some Handler.action_idle, some Handler.SetDebug ] ∧
    (object_ATcmd_init_actions (object_lcd_init w).2.2.2.global_lcd).all
      (fun a => a.isSome) = true := by
  have e1 := object_ATcmd_init_actions_eq global_lcd
  have e2 := object_ATcmd_init_actions_eq (object_lcd_init w).2.2.2.global_lcd
  rw [object_lcd_init_pointers] at e2
  refine ⟨?_, ?_, ?_, ?_⟩
  · rw [e1]; rfl
  · rw [e1, ATcmd_mnemonics]; rfl
  · rw [e2]; rfl
  · rw [e2]; rfl


/-- `get_lcd_index` compares the first seven bytes with the one profile name. -/
theorem get_lcd_index_spec (lcd_name : List uchar) :
    (get_lcd_index lcd_name = 0 ↔ lcd_name.take 7 = c_str "HX8347A") ∧
    (get_lcd_index lcd_name = -1 ↔ lcd_name.take 7 ≠ c_str "HX8347A") ∧
    (get_lcd_index lcd_name = 0 ∨ get_lcd_index lcd_name = -1) := by
  have h := strncmp_eq_zero_iff 7 lcd_name (c_str "HX8347A" ++ [0]) (by decide!) (by decide!)
  have e : (c_str "HX8347A" ++ [0]).take 7 = c_str "HX8347A" := by decide!
  rw [e] at h
  have hd : (lcd_index.getD 0 { name := [], x_size := 0, y_size := 0 }).name =
      c_str "HX8347A" ++ [0] := rfl
  by_cases hm : lcd_name.take 7 = c_str "HX8347A"
  · have h0 : get_lcd_index lcd_name = 0 := by
      simp only [get_lcd_index, MAX_LCD_INDEX_NUM, get_lcd_index_loop, hd, h.2 hm, if_true]
      rfl
    simp [h0, hm]
  · have hne : ¬ strncmp lcd_name (c_str "HX8347A" ++ [0]) 7 = 0 := fun x => hm (h.1 x)
    have h1 : get_lcd_index lcd_name = -1 := by
      simp only [get_lcd_index, MAX_LCD_INDEX_NUM, get_lcd_index_loop, hd, hne, if_false]
    simp [h1, hm]

/-- C27. `SetDevice` with an argument count other than 1 changes nothing.
With one argument that `get_lcd_index` does not find, the display state
(`global_lcd.index`, every pointer of `global_lcd`, the hardware events) is
left as it is; only the diagnostic text may be written.  With one argument
that `get_lcd_index` finds, `index` is set and the result is that of
`object_lcd_init` on the state with the new index.  `get_lcd_index` finds a
name exactly when its first seven bytes are `HX8347A`. -/
theorem SetDevice_needs_one_known_name (args : List (Option (List uchar))) (arg_num : Int)
    (w : object_uart × USART_TypeDef × LcdState) :
    (arg_num ≠ 1 → SetDevice args arg_num w = some w) ∧
    (∀ (lcd_name : List uchar) (rest : List (Option (List uchar))),
      arg_num = 1 → args = some lcd_name :: rest →
      (get_lcd_index lcd_name = -1 →
        ∃ w2, SetDevice args arg_num w = some w2 ∧ w2.2.2 = w.2.2) ∧
      (get_lcd_index lcd_name ≠ -1 →
        ∃ u hw, SetDevice args arg_num w =
          some (object_lcd_init (u, hw,
            { w.2.2 with global_lcd :=
                { w.2.2.global_lcd with index := (get_lcd_index lcd_name).toNat } })).2) ∧
      (get_lcd_index lcd_name ≠ -1 ↔ lcd_name.take 7 = c_str "HX8347A")) := by
  refine ⟨fun h => by simp [SetDevice, h], ?_⟩
  intro lcd_name rest h1 hargs
  subst h1 hargs
  refine ⟨?_, ?_, ?_⟩
  · intro hi
    simp only [SetDevice, ne_eq, not_true_eq_false, if_false, List.head?_cons, hi, if_true]
    split_ifs
    · exact ⟨_, rfl, rfl⟩
    · exact ⟨_, rfl, rfl⟩
  · intro hi
    simp only [SetDevice, ne_eq, not_true_eq_false, if_false, List.head?_cons, hi]
    exact ⟨_, _, rfl⟩
  · have h := get_lcd_index_spec lcd_name
    constructor
    · intro hne
      by_contra hc
      exact hne (h.2.1.2 hc)
    · intro he hc
      exact (h.2.1.1 hc) he

/-- `SetDevice` with two arguments, with the unknown name `ILI9325` and with
`HX8347A`, on the state at program start. -/
theorem SetDevice_needs_one_known_name_witness :
    SetDevice [some (c_str "HX8347A"), some (c_str "1")] 2 (object_uart_init, ⟨false, []⟩, lcd_start) =
      some (object_uart_init, ⟨false, []⟩, lcd_start) ∧
    get_lcd_index (c_str "ILI9325") = -1 ∧
    (∃ w2, SetDevice [some (c_str "ILI9325")] 1 (object_uart_init, ⟨false, []⟩, lcd_start) =
        some w2 ∧ w2.2.2 = lcd_start) ∧
    get_lcd_index (c_str "HX8347A") ≠ -1 ∧
    (SetDevice [some (c_str "HX8347A")] 1 (object_uart_init, ⟨false, []⟩, lcd_start)).map
        (fun w2 => (w2.2.2.global_lcd.index, w2.2.2.global_lcd.pointers.all (fun a => a.isSome),
          w2.2.2.events.head?)) = some (0, true, some LcdEvent.FSMC_Init) :=
  ⟨(SetDevice_needs_one_known_name [some (c_str "HX8347A"), some (c_str "1")] 2
      (object_uart_init, ⟨false, []⟩, lcd_start)).1 (by decide),
   by decide!,
   ((SetDevice_needs_one_known_name [some (c_str "ILI9325")] 1
      (object_uart_init, ⟨false, []⟩, lcd_start)).2 (c_str "ILI9325") [] rfl rfl).1 (by decide!),
   by decide!, by decide!⟩

/-! ## The debug flag -/


theorem set_debug_uart_debug (u : object_uart) (hw : USART_TypeDef) (value : uchar) :
    (set_debug_uart u hw value).1.debug = value := by
  simp only [set_debug_uart]
  split_ifs
  · rw [(print_keeps_rx _ _ _).2]
  · rfl

theorem Serial1Read_keeps_debug (u : object_uart) : (Serial1Read u).2.debug = u.debug := by
  simp only [Serial1Read]
  split_ifs <;> rfl

theorem add_char_status (a a2 : ATcmd_buffer) (c : Int)
    (h : add_char_to_cmd_buf a c = some a2) : a2.status = a.status := by
  unfold add_char_to_cmd_buf at h
  split_ifs at h
  cases h
  rfl

/-- What `get_a_cmd` does to the serial side: in status `complete` nothing; else
one `Serial1Read`, and the two `printf` calls when the command becomes complete
with the debug flag 1. -/
theorem get_a_cmd_serial (g : Board) (r : Int × Board) (h : get_a_cmd g = some r) :
    (r.2.usart1, r.2.USART1) =
      if g.at_command.status = .incomplete ∧ r.2.at_command.status = .complete ∧
          g.usart1.debug = 1 then
        (print_from_uart
          (print_from_uart (Serial1Read g.usart1).2 g.USART1 (c_str "Your Inputs:")).2.1
          (print_from_uart (Serial1Read g.usart1).2 g.USART1 (c_str "Your Inputs:")).2.2
          (c_string_of r.2.at_command.buf ++ [10])).2
      else if g.at_command.status = .complete then (g.usart1, g.USART1)
      else ((Serial1Read g.usart1).2, g.USART1) := by
  have hd := Serial1Read_keeps_debug g.usart1
  cases hst : g.at_command.status with
  | complete =>
    simp only [get_a_cmd, hst, Option.some.injEq] at h
    subst h
    simp
  | not_start =>
    simp only [reduceCtorEq, false_and, if_false]
    simp only [get_a_cmd, hst] at h
    split_ifs at h <;>
      first
      | (cases h; rfl)
      | (simp only [Option.map_eq_some'] at h; obtain ⟨a, _, rfl⟩ := h; rfl)
  | incomplete =>
    simp only [get_a_cmd, hst] at h
    simp only [reduceCtorEq, true_and, if_false]
    by_cases hgot : (Serial1Read g.usart1).1 ≠ -1
    · by_cases hn : to_uchar (Serial1Read g.usart1).1 ≠ 0 ∧ to_uchar (Serial1Read g.usart1).1 ≠ 10
      · simp only [hgot, hn, ne_eq, not_false_eq_true, if_true, and_self] at h
        cases hadd : add_char_to_cmd_buf g.at_command (Serial1Read g.usart1).1 with
        | none => simp [hadd] at h
        | some a =>
          have hast : a.status = .incomplete := by
            rw [add_char_status _ _ _ hadd, hst]
          simp only [hadd] at h
          by_cases h59 : to_uchar (Serial1Read g.usart1).1 = 59
          · simp only [h59, if_true] at h
            by_cases hdbg : g.usart1.debug = 1
            · have hdbg2 : (Serial1Read g.usart1).2.debug = 1 := by rw [hd, hdbg]
              simp only [hdbg2, if_true, Option.some.injEq] at h
              subst h
              simp [hdbg]
            · have hdbg2 : ¬ (Serial1Read g.usart1).2.debug = 1 := by rw [hd]; exact hdbg
              simp only [hdbg2, if_false, Option.some.injEq] at h
              subst h
              simp [hdbg]
          · simp only [h59, if_false, Option.some.injEq] at h
            subst h
            simp [hast]
      · simp only [hgot, hn, ne_eq, not_false_eq_true, if_true, if_false, Option.some.injEq] at h
        subst h
        simp [hst]
    · simp only [hgot, if_false, Option.some.injEq] at h
      subst h
      simp [hst]


/-- What `execute_a_cmd` does to the serial and display side: either no call is
made, -1 is returned and at most one diagnostic line is printed (in status
`complete` with the debug flag 1), or one call is made, 0 is returned and the
state is the one the call returns. -/
theorem execute_serial {L : Type} (action_array : Int → func_t L) (g : Board) (lcd : L)
    (r : Executed L) (h : execute_a_cmd action_array g lcd = some r) :
    (r.invoked = none ∧ r.ret = -1 ∧ r.lcd = lcd ∧
      (r.board.usart1, r.board.USART1) =
        if g.at_command.status = .complete ∧ g.usart1.debug = 1 then
          (print_from_uart g.usart1 g.USART1
            (if get_cmd_index g.at_command = -1 then c_str "Command does not exist.\n"
             else c_str "Parameters error.\n")).2
        else (g.usart1, g.USART1)) ∨
    (∃ inv, r.invoked = some inv ∧ r.ret = 0 ∧
      (r.board.usart1, r.board.USART1, r.lcd) =
        action_array inv.slot inv.argv inv.arg_num (g.usart1, g.USART1, lcd)) := by
  by_cases hst : g.at_command.status = .complete
  · by_cases hidx : get_cmd_index g.at_command = -1
    · simp only [execute_a_cmd, hst, hidx, if_true, Option.some.injEq] at h
      subst h
      left
      refine ⟨rfl, rfl, rfl, ?_⟩
      by_cases hd : g.usart1.debug = 1 <;> simp [hd, hst, hidx]
    · cases hpar : get_cmd_param g.at_command (List.replicate 6 none) with
      | none =>
        simp only [execute_a_cmd, hst, hidx, hpar, if_true, if_false] at h
        cases h
      | some t =>
        obtain ⟨arg_num, at_cmd2, args⟩ := t
        by_cases harg : arg_num = -1
        · simp only [execute_a_cmd, hst, hidx, hpar, harg, if_true, if_false,
            Option.some.injEq] at h
          subst h
          left
          refine ⟨rfl, rfl, rfl, ?_⟩
          by_cases hd : g.usart1.debug = 1 <;> simp [hd, hst, hidx]
        · simp only [execute_a_cmd, hst, hidx, hpar, harg, if_true, if_false,
            Option.some.injEq] at h
          subst h
          right
          exact ⟨_, rfl, rfl, rfl⟩
  · simp only [execute_a_cmd, hst, if_false, Option.some.injEq] at h
    subst h
    left
    exact ⟨rfl, rfl, rfl, by simp [hst]⟩

/-- `get_a_cmd` never writes the debug flag. -/
theorem get_a_cmd_keeps_debug (g : Board) (r : Int × Board) (h : get_a_cmd g = some r) :
    r.2.usart1.debug = g.usart1.debug := by
  have e := congrArg (fun p => p.1.debug) (get_a_cmd_serial g r h)
  simp only at e
  rw [e]
  split_ifs
  · rw [(print_keeps_rx _ _ _).2, (print_keeps_rx _ _ _).2, Serial1Read_keeps_debug]
  · rfl
  · exact Serial1Read_keeps_debug _

/-- The interrupt handler never writes the debug flag. -/
theorem USART1_IRQHandler_keeps_debug (rxne : Option uchar) (txe : Bool) (u : object_uart)
    (hw : USART_TypeDef) : (USART1_IRQHandler rxne txe u hw).1.debug = u.debug := by
  unfold USART1_IRQHandler
  cases rxne <;> cases txe <;> simp [(TXE_keeps_rx _ _).2]

/-- The debug flag after `execute`: the one the action called returns, or the
one before. -/
theorem execute_debug {L : Type} (action_array : Int → func_t L) (g : Board) (lcd : L)
    (r : Executed L) (h : execute_a_cmd action_array g lcd = some r) :
    r.board.usart1.debug = g.usart1.debug ∨
    ∃ i argv n, r.board.usart1 = (action_array i argv n (g.usart1, g.USART1, lcd)).1 := by
  rcases execute_serial action_array g lcd r h with ⟨_, _, _, e⟩ | ⟨inv, _, _, e⟩
  · left
    generalize (if get_cmd_index g.at_command = -1 then c_str "Command does not exist.\n"
      else c_str "Parameters error.\n") = text at e
    have e2 := congrArg (fun p => p.1.debug) e
    simp only at e2
    rw [e2]
    by_cases hc : g.at_command.status = .complete ∧ g.usart1.debug = 1
    · rw [if_pos hc, (print_keeps_rx _ _ _).2]
    · rw [if_neg hc]
  · right
    exact ⟨inv.slot, inv.argv, inv.arg_num, congrArg (fun p => p.1) e⟩

theorem main_step_debug {L : Type} (action_array : Int → func_t L)
    (hact : ∀ i argv n w, (w.1.debug = 0 ∨ w.1.debug = 1) →
      ((action_array i argv n w).1.debug = 0 ∨ (action_array i argv n w).1.debug = 1))
    (s s2 : Board × L) (e : Event) (h : main_step action_array s e = some s2)
    (hs : s.1.usart1.debug = 0 ∨ s.1.usart1.debug = 1) :
    s2.1.usart1.debug = 0 ∨ s2.1.usart1.debug = 1 := by
  cases e with
  | interrupt rxne txe =>
    simp only [main_step, Option.some.injEq] at h
    subst h
    simp only
    rw [USART1_IRQHandler_keeps_debug]
    exact hs
  | get_cmd =>
    simp only [main_step, Option.map_eq_some'] at h
    obtain ⟨r, hr, rfl⟩ := h
    simp only
    rw [get_a_cmd_keeps_debug _ _ hr]
    exact hs
  | execute =>
    simp only [main_step, Option.map_eq_some'] at h
    obtain ⟨r, hr, rfl⟩ := h
    simp only
    rcases execute_debug action_array _ _ r hr with e | ⟨i, argv, n, e⟩
    · rw [e]; exact hs
    · rw [e]; exact hact i argv n _ hs

theorem main_run_debug {L : Type} (action_array : Int → func_t L)
    (hact : ∀ i argv n w, (w.1.debug = 0 ∨ w.1.debug = 1) →
      ((action_array i argv n w).1.debug = 0 ∨ (action_array i argv n w).1.debug = 1))
    (events : List Event) : ∀ (s s2 : Board × L), main_run action_array s events = some s2 →
    (s.1.usart1.debug = 0 ∨ s.1.usart1.debug = 1) →
    s2.1.usart1.debug = 0 ∨ s2.1.usart1.debug = 1 := by
  induction events with
  | nil =>
    intro s s2 h hs
    simp only [main_run, Option.some.injEq] at h
    subst h; exact hs
  | cons e es ih =>
    intro s s2 h hs
    simp only [main_run] at h
    cases hm : main_step action_array s e with
    | none => simp [hm] at h
    | some s1 =>
      simp only [hm] at h
      exact ih s1 s2 h (main_step_debug action_array hact s s1 e hm hs)

/-- C29. `SetDebug` with an argument count other than 1 leaves the debug flag
as it is.  With one argument string the flag becomes 1 when the first byte of
the string is the character `1`, 0 when it is the character `0`, and stays as
it is for any other first byte (the closing NUL of an empty string included).
So `SetDebug` never takes the flag out of the values 0 and 1, and as
`get_a_cmd`, the interrupt handler and `execute_a_cmd` itself do not write
the flag, it is 0 or 1 after every run of events from program start, for any
table of actions that keep it within 0 and 1. -/
theorem SetDebug_sets_the_flag (args : List (Option (List uchar))) (arg_num : Int)
    (w : object_uart × USART_TypeDef) :
    (arg_num ≠ 1 → ∃ w2, SetDebug args arg_num w = some w2 ∧ w2.1.debug = w.1.debug) ∧
    (∀ (str : List uchar) (rest : List (Option (List uchar))),
      arg_num = 1 → args = some str :: rest →
      ∃ w2, SetDebug args arg_num w = some w2 ∧
        w2.1.debug = if str.headD 0 = 49 then 1 else if str.headD 0 = 48 then 0
                     else w.1.debug) ∧
    (∀ w2, SetDebug args arg_num w = some w2 → (w.1.debug = 0 ∨ w.1.debug = 1) →
      (w2.1.debug = 0 ∨ w2.1.debug = 1)) ∧
    (∀ {L : Type} (action_array : Int → func_t L),
      (∀ i argv n v, (v.1.debug = 0 ∨ v.1.debug = 1) →
        ((action_array i argv n v).1.debug = 0 ∨ (action_array i argv n v).1.debug = 1)) →
      ∀ (lcd : L) (events : List Event) (s : Board × L),
        main_run action_array (main_init, lcd) events = some s →
        (s.1.usart1.debug = 0 ∨ s.1.usart1.debug = 1)) := by
  have h1 : arg_num ≠ 1 → ∃ w2, SetDebug args arg_num w = some w2 ∧ w2.1.debug = w.1.debug := by
    intro h
    simp only [SetDebug, h, ne_eq, not_false_eq_true, if_true]
    refine ⟨_, rfl, ?_⟩
    split_ifs
    · exact (print_keeps_rx _ _ _).2
    · rfl
  have h2 : ∀ (str : List uchar) (rest : List (Option (List uchar))),
      arg_num = 1 → args = some str :: rest →
      ∃ w2, SetDebug args arg_num w = some w2 ∧
        w2.1.debug = if str.headD 0 = 49 then 1 else if str.headD 0 = 48 then 0
                     else w.1.debug := by
    intro str rest h hargs
    subst h hargs
    simp only [SetDebug, ne_eq, not_true_eq_false, if_false, List.head?_cons]
    by_cases h48 : str.headD 0 = 48
    · have h49 : ¬ str.headD 0 = 49 := by rw [h48]; decide
      simp only [h48, h49, if_true, if_false]
      exact ⟨_, rfl, set_debug_uart_debug _ _ _⟩
    · by_cases h49 : str.headD 0 = 49
      · simp only [h48, h49, if_true, if_false]
        exact ⟨_, rfl, set_debug_uart_debug _ _ _⟩
      · simp only [h48, h49, if_false]
        refine ⟨_, rfl, ?_⟩
        split_ifs
        · exact (print_keeps_rx _ _ _).2
        · rfl
  refine ⟨h1, h2, ?_, ?_⟩
  · intro w2 hw2 hd
    by_cases h : arg_num = 1
    · cases args with
      | nil => simp [SetDebug, h] at hw2
      | cons a rest =>
        cases a with
        | none => simp [SetDebug, h] at hw2
        | some str =>
          obtain ⟨w3, e3, d3⟩ := h2 str rest h rfl
          rw [e3] at hw2
          cases hw2
          rw [d3]
          split_ifs
          · right; rfl
          · left; rfl
          · exact hd
    · obtain ⟨w3, e3, d3⟩ := h1 h
      rw [e3] at hw2
      cases hw2
      rw [d3]; exact hd
  · intro L action_array hact lcd events s hrun
    exact main_run_debug action_array hact events _ _ hrun (Or.inl rfl)


/-- `SetDebug` on the strings `1`, `0`, `on` and on two arguments, and the
events of the command `AT+DB=1;` from program start with `SetDebug` in slot 37
(a call with a NULL argument taken as no change). -/
theorem SetDebug_sets_the_flag_witness :
    (∃ w2, SetDebug [some (c_str "1")] 1 (object_uart_init, ⟨false, []⟩) = some w2 ∧
      w2.1.debug = 1) ∧
    (∃ w2, SetDebug [some (c_str "0")] 1
        ({ object_uart_init with debug := 1 }, ⟨false, []⟩) = some w2 ∧ w2.1.debug = 0) ∧
    (∃ w2, SetDebug [some (c_str "on")] 1
        ({ object_uart_init with debug := 1 }, ⟨false, []⟩) = some w2 ∧ w2.1.debug = 1) ∧
    (∃ w2, SetDebug [some (c_str "1"), some (c_str "0")] 2
        (object_uart_init, ⟨false, []⟩) = some w2 ∧ w2.1.debug = 0) ∧
    (∃ s, main_run
        (fun i argv n w =>
          if i = 37 then ((SetDebug argv n (w.1, w.2.1)).map (fun p => (p.1, p.2, w.2.2))).getD w
          else w)
        (main_init, ())
        ((c_str "AT+DB=1;").flatMap (fun c => [Event.interrupt (some c) false, Event.get_cmd]) ++
          [Event.execute]) = some s ∧
      s.1.usart1.debug = 1 ∧ (s.1.usart1.debug = 0 ∨ s.1.usart1.debug = 1)) :=
  ⟨((SetDebug_sets_the_flag [some (c_str "1")] 1 (object_uart_init, ⟨false, []⟩)).2.1
      (c_str "1") [] rfl rfl).imp (fun _ h => ⟨h.1, h.2.trans (by decide!)⟩),
   ((SetDebug_sets_the_flag [some (c_str "0")] 1
      ({ object_uart_init with debug := 1 }, ⟨false, []⟩)).2.1
      (c_str "0") [] rfl rfl).imp (fun _ h => ⟨h.1, h.2.trans (by decide!)⟩),
   ((SetDebug_sets_the_flag [some (c_str "on")] 1
      ({ object_uart_init with debug := 1 }, ⟨false, []⟩)).2.1
      (c_str "on") [] rfl rfl).imp (fun _ h => ⟨h.1, h.2.trans (by decide!)⟩),
   ((SetDebug_sets_the_flag [some (c_str "1"), some (c_str "0")] 2
      (object_uart_init, ⟨false, []⟩)).1 (by decide)).imp
      (fun _ h => ⟨h.1, h.2.trans (by decide!)⟩),
   ⟨Option.get _ (by decide! :
      (main_run
        (fun i argv n w =>
          if i = 37 then ((SetDebug argv n (w.1, w.2.1)).map (fun p => (p.1, p.2, w.2.2))).getD w
          else w)
        (main_init, ())
        ((c_str "AT+DB=1;").flatMap (fun c => [Event.interrupt (some c) false, Event.get_cmd]) ++
          [Event.execute])).isSome = true),
    (Option.some_get _).symm, by decide!,
    (SetDebug_sets_the_flag [] 0 (object_uart_init, ⟨false, []⟩)).2.2.2
      (fun i argv n w =>
          if i = 37 then ((SetDebug argv n (w.1, w.2.1)).map (fun p => (p.1, p.2, w.2.2))).getD w
          else w)
      (fun i argv n v hv => by
        by_cases hi : i = 37
        · simp only [hi, if_true]
          cases hs : SetDebug argv n (v.1, v.2.1) with
          | none => simpa using hv
          | some p =>
            simpa using (SetDebug_sets_the_flag argv n (v.1, v.2.1)).2.2.1 p hs hv
        · simpa [hi] using hv)
      ()
      ((c_str "AT+DB=1;").flatMap (fun c => [Event.interrupt (some c) false, Event.get_cmd]) ++
          [Event.execute])
      _ (Option.some_get _).symm⟩⟩

/-! ## Diagnostics on the transmit channel -/


/-- A well-formed ring holds the bytes `ring_pending` reads off. -/
theorem ring_pending_of_holds {rb : ring_buffer} {q : List uchar} (h : Holds rb q) :
    ring_pending rb = q := by
  obtain ⟨hlen, htl, hcnt, hhd, hst, hsl⟩ := h
  simp only [SERIAL_BUFFER_SIZE] at *
  by_cases h0 : q.length = 0
  · have hq : q = [] := List.length_eq_zero.mp h0
    subst hq
    simp only [List.length_nil, if_true] at hst
    simp [ring_pending, hst]
  · have hne : rb.status ≠ .empty := by
      rw [hst]; split_ifs <;> simp
    have hn : (rb.head + 64 - rb.tail) % 64 = q.length := by
      rw [hhd]; omega
    have e : ring_pending rb =
        (List.range q.length).map (fun i => rb.buffer.getD ((rb.tail + i) % 64) 0) := by
      unfold ring_pending
      cases hs : rb.status with
      | empty => exact absurd hs hne
      | available => simp only [SERIAL_BUFFER_SIZE, hn]
      | full => simp only [SERIAL_BUFFER_SIZE, hn]
    rw [e]
    apply List.ext_getElem
    · simp
    · intro i h1 h2
      simp only [List.getElem_map, List.getElem_range]
      rw [hsl i h2]
      simp [List.getD_eq_getElem?_getD, List.getElem?_eq_getElem h2]

/-- The interrupt handler with TXE set moves the oldest byte of the transmit
ring to the wire. -/
theorem Holds.drain {u : object_uart} (hw : USART_TypeDef) {b : uchar} {q : List uchar}
    (h : Holds u.tx_buffer (b :: q)) :
    Holds (USART1_IRQHandler_TXE u hw).1.tx_buffer q ∧
    (USART1_IRQHandler_TXE u hw).2.sent = hw.sent ++ [b] ∧
    (USART1_IRQHandler_TXE u hw).1.tx_buffer.head = u.tx_buffer.head := by
  obtain ⟨hlen, htl, hcnt, hhd, hst, hsl⟩ := h
  simp only [SERIAL_BUFFER_SIZE, List.length_cons] at *
  have hne : u.tx_buffer.status ≠ .empty := by
    rw [hst]; split_ifs <;> simp_all
  have h0 := hsl 0 (by omega)
  simp only [Nat.add_zero, Nat.mod_eq_of_lt htl] at h0
  simp only [USART1_IRQHandler_TXE, SERIAL_BUFFER_SIZE, hne, if_false]
  refine ⟨⟨?_, ?_, ?_, ?_, ?_, ?_⟩, ?_, trivial⟩ <;> try simp only [SERIAL_BUFFER_SIZE]
  · exact hlen
  · omega
  · omega
  · rw [hhd]; omega
  · rw [hhd]
    split_ifs <;> first | rfl | contradiction | (exfalso; omega)
  · intro i hi
    have := hsl (i + 1) (by omega)
    have e : ((u.tx_buffer.tail + 1) % 64 + i) % 64 = (u.tx_buffer.tail + (i + 1)) % 64 := by
      omega
    rw [e, this]
    simp [List.getD_eq_getElem?_getD]
  · rw [h0]; simp

/-- `Serial1Write` appends its byte to the bytes written so far: the transmit
ring stays well formed, and what was sent plus what waits grows by `c`. -/
theorem Serial1Write_stream (u : object_uart) (hw : USART_TypeDef) (c : uchar)
    (q : List uchar) (h : Holds u.tx_buffer q) :
    ∃ q2, Holds (Serial1Write u hw c).1.tx_buffer q2 ∧
      (Serial1Write u hw c).2.sent ++ q2 = hw.sent ++ q ++ [c] := by
  by_cases hf : q.length = SERIAL_BUFFER_SIZE - 1
  · have hst : u.tx_buffer.status = .full := by
      have := h.status_eq
      simp only [SERIAL_BUFFER_SIZE] at *
      rw [this]; simp [hf]
    cases q with
    | nil => simp [SERIAL_BUFFER_SIZE] at hf
    | cons b q =>
      obtain ⟨d1, d2, d3⟩ := Holds.drain hw h
      have hq : q.length < SERIAL_BUFFER_SIZE - 1 := by
        simp only [List.length_cons] at hf; omega
      obtain ⟨_, p2⟩ := d1.push c hq
      have hnf : (USART1_IRQHandler_TXE u hw).1.tx_buffer.status ≠ .full := by
        have := d1.status_eq
        simp only [SERIAL_BUFFER_SIZE] at *
        rw [this]; split_ifs <;> simp_all
      refine ⟨q ++ [c], ?_, ?_⟩
      · have e : (Serial1Write u hw c).1.tx_buffer =
            (store_char c (USART1_IRQHandler_TXE u hw).1.tx_buffer).2 := by
          simp only [Serial1Write, hst, if_true, store_char, hnf, ne_eq, not_false_eq_true, d3]
        rw [e]; exact p2
      · simp only [Serial1Write, hst, if_true, d2]
        simp
  · have hq : q.length < SERIAL_BUFFER_SIZE - 1 := by
      have := h.count_le; omega
    have hnf : u.tx_buffer.status ≠ .full := by
      have := h.status_eq
      simp only [SERIAL_BUFFER_SIZE] at *
      rw [this]; split_ifs <;> simp_all
    obtain ⟨_, p2⟩ := h.push c hq
    refine ⟨q ++ [c], ?_, ?_⟩
    · have e : (Serial1Write u hw c).1.tx_buffer = (store_char c u.tx_buffer).2 := by
        simp only [Serial1Write, hnf, if_false, store_char, ne_eq, not_false_eq_true, if_true]
      rw [e]; exact p2
    · simp only [Serial1Write, hnf, if_false]
      simp

/-- `SerialPrint` appends the bytes of `dat` before its first NUL. -/
theorem SerialPrint_stream (dat : List uchar) : ∀ (u : object_uart) (hw : USART_TypeDef)
    (q : List uchar), Holds u.tx_buffer q →
    ∃ q2, Holds (SerialPrint u hw dat).1.tx_buffer q2 ∧
      (SerialPrint u hw dat).2.sent ++ q2 = hw.sent ++ q ++ dat.takeWhile (fun b => b ≠ 0) := by
  induction dat with
  | nil => intro u hw q h; exact ⟨q, h, by simp [SerialPrint]⟩
  | cons p dat ih =>
    intro u hw q h
    by_cases hp : p ≠ 0
    · obtain ⟨q1, h1, e1⟩ := Serial1Write_stream u hw p q h
      obtain ⟨q2, h2, e2⟩ := ih (Serial1Write u hw p).1 (Serial1Write u hw p).2 q1 h1
      refine ⟨q2, ?_, ?_⟩
      · simp only [SerialPrint, hp, ne_eq, not_false_eq_true, if_true]; exact h2
      · simp only [SerialPrint, hp, ne_eq, not_false_eq_true, if_true]
        rw [e2, e1]
        simp [List.takeWhile_cons, hp]
    · refine ⟨q, ?_, ?_⟩
      · simp only [SerialPrint, hp, if_false]; exact h
      · simp only [SerialPrint, hp, if_false]
        simp only [ne_eq, not_not] at hp
        simp [List.takeWhile_cons, hp]

/-- `print_from_uart` writes the first 63 bytes of the text, up to a NUL: the
stream of bytes written grows by exactly these, and the transmit ring stays
well formed. -/
theorem print_stream (u : object_uart) (hw : USART_TypeDef) (text : List uchar)
    (q : List uchar) (h : Holds u.tx_buffer q) :
    (∃ q2, Holds (print_from_uart u hw text).2.1.tx_buffer q2) ∧
    transmitted (print_from_uart u hw text).2.1 (print_from_uart u hw text).2.2 =
      transmitted u hw ++ (text.take (SERIAL_BUFFER_SIZE - 1)).takeWhile (fun b => b ≠ 0) := by
  by_cases hr : ((text.length : Nat) : Int) > 0
  · obtain ⟨q2, h2, e2⟩ := SerialPrint_stream (text.take (SERIAL_BUFFER_SIZE - 1)) u hw q h
    have e : (print_from_uart u hw text).2 =
        SerialPrint u hw (text.take (SERIAL_BUFFER_SIZE - 1)) := by
      simp only [print_from_uart, hr, if_true]
    rw [e]
    refine ⟨⟨q2, h2⟩, ?_⟩
    simp only [transmitted, ring_pending_of_holds h2, ring_pending_of_holds h, e2]
  · have e : (print_from_uart u hw text).2 = (u, hw) := by
      simp only [print_from_uart, hr, if_false]
    have ht : text = [] := by
      cases text with
      | nil => rfl
      | cons a t => simp at hr
    rw [e]
    exact ⟨⟨q, h⟩, by simp [ht]⟩


theorem Serial1Read_keeps_tx (u : object_uart) :
    (Serial1Read u).2.tx_buffer = u.tx_buffer := by
  simp only [Serial1Read]
  split_ifs <;> rfl

theorem c_string_of_no_nul (buf : List uchar) :
    ((c_string_of buf ++ [10]).take (SERIAL_BUFFER_SIZE - 1)).takeWhile (fun b => b ≠ 0) =
      (c_string_of buf ++ [10]).take (SERIAL_BUFFER_SIZE - 1) := by
  rw [List.takeWhile_eq_self_iff]
  intro x hx
  have hx2 := List.mem_of_mem_take hx
  rw [List.mem_append] at hx2
  rcases hx2 with h | h
  · unfold c_string_of at h
    simpa using List.mem_takeWhile_imp h
  · simp only [List.mem_singleton] at h
    subst h
    decide

/-- C28. The bytes written to the transmit channel are those handed to the
peripheral followed by those waiting in the transmit ring (`transmitted`).
With a debug flag other than 1, a `get_cmd` call and an `execute` that returns
-1 leave the transmit ring and the peripheral exactly as they are.  With the
debug flag 1 and a well-formed transmit ring, `execute` on a complete command
with an unknown mnemonic appends exactly the line `Command does not exist.`,
and on one whose byte after the mnemonic is neither the terminator nor `=`
exactly the line `Parameters error.`; a `get_cmd` call appends nothing unless
it completes the command, and then it appends `Your Inputs:` followed by the
command text and a newline, of which `print_from_uart` keeps the first 63
bytes. -/
theorem diagnostics_only_in_debug_mode {L : Type} (action_array : Int → func_t L) (g : Board)
    (lcd : L) (q : List uchar) (htx : Holds g.usart1.tx_buffer q) :
    (g.usart1.debug ≠ 1 →
      (∀ r, get_a_cmd g = some r →
        r.2.usart1.tx_buffer = g.usart1.tx_buffer ∧ r.2.USART1 = g.USART1) ∧
      (∀ r, execute_a_cmd action_array g lcd = some r → r.ret = -1 →
        r.board.usart1.tx_buffer = g.usart1.tx_buffer ∧ r.board.USART1 = g.USART1)) ∧
    (g.usart1.debug = 1 →
      (g.at_command.status = .complete → get_cmd_index g.at_command = -1 →
        ∃ r, execute_a_cmd action_array g lcd = some r ∧ r.ret = -1 ∧
          transmitted r.board.usart1 r.board.USART1 =
            transmitted g.usart1 g.USART1 ++ c_str "Command does not exist.\n") ∧
      (g.at_command.status = .complete → get_cmd_index g.at_command ≠ -1 →
        g.at_command.buf.getD 5 0 ≠ 59 → g.at_command.buf.getD 5 0 ≠ 61 →
        ∃ r, execute_a_cmd action_array g lcd = some r ∧ r.ret = -1 ∧
          transmitted r.board.usart1 r.board.USART1 =
            transmitted g.usart1 g.USART1 ++ c_str "Parameters error.\n") ∧
      (∀ r, get_a_cmd g = some r →
        transmitted r.2.usart1 r.2.USART1 =
          transmitted g.usart1 g.USART1 ++
            if g.at_command.status = .incomplete ∧ r.2.at_command.status = .complete then
              c_str "Your Inputs:" ++
                (c_string_of r.2.at_command.buf ++ [10]).take (SERIAL_BUFFER_SIZE - 1)
            else [])) := by
  refine ⟨fun hd => ⟨?_, ?_⟩, fun hd => ⟨?_, ?_, ?_⟩⟩
  · intro r hr
    have e := get_a_cmd_serial g r hr
    have hc : ¬ (g.at_command.status = .incomplete ∧ r.2.at_command.status = .complete ∧
        g.usart1.debug = 1) := fun h => hd h.2.2
    rw [if_neg hc] at e
    split_ifs at e
    · exact ⟨congrArg (fun p => p.1.tx_buffer) e, congrArg (fun p => p.2) e⟩
    · exact ⟨(congrArg (fun p => p.1.tx_buffer) e).trans (Serial1Read_keeps_tx _),
        congrArg (fun p => p.2) e⟩
  · intro r hr hret
    rcases execute_serial action_array g lcd r hr with ⟨_, _, _, e⟩ | ⟨inv, _, h0, _⟩
    · have hc : ¬ (g.at_command.status = .complete ∧ g.usart1.debug = 1) := fun h => hd h.2
      rw [if_neg hc] at e
      exact ⟨congrArg (fun p => p.1.tx_buffer) e, congrArg (fun p => p.2) e⟩
    · rw [h0] at hret; exact absurd hret (by decide)
  · intro hst hidx
    have he : execute_a_cmd action_array g lcd =
        some { ret := -1
               board := { usart1 := (print_from_uart g.usart1 g.USART1
                            (c_str "Command does not exist.\n")).2.1
                          USART1 := (print_from_uart g.usart1 g.USART1
                            (c_str "Command does not exist.\n")).2.2
                          at_command := clean_cmd_buf g.at_command }
               lcd := lcd
               invoked := none } := by
      simp only [execute_a_cmd, hst, hidx, hd, if_true]
    refine ⟨_, he, rfl, ?_⟩
    simp only
    rw [(print_stream g.usart1 g.USART1 _ q htx).2]
    congr 1
  · intro hst hidx h59 h61
    have hp : get_cmd_param g.at_command (List.replicate 6 none) =
        some (-1, g.at_command, List.replicate 6 none) := by
      unfold get_cmd_param
      rw [if_neg h59, if_pos h61]
    have he : execute_a_cmd action_array g lcd =
        some { ret := -1
               board := { usart1 := (print_from_uart g.usart1 g.USART1
                            (c_str "Parameters error.\n")).2.1
                          USART1 := (print_from_uart g.usart1 g.USART1
                            (c_str "Parameters error.\n")).2.2
                          at_command := clean_cmd_buf g.at_command }
               lcd := lcd
               invoked := none } := by
      simp only [execute_a_cmd, hst, hidx, hp, hd, if_true, if_false]
    refine ⟨_, he, rfl, ?_⟩
    simp only
    rw [(print_stream g.usart1 g.USART1 _ q htx).2]
    congr 1
  · intro r hr
    have e := get_a_cmd_serial g r hr
    by_cases hc : g.at_command.status = .incomplete ∧ r.2.at_command.status = .complete
    · have hc3 : g.at_command.status = .incomplete ∧ r.2.at_command.status = .complete ∧
          g.usart1.debug = 1 := ⟨hc.1, hc.2, hd⟩
      rw [if_pos hc3] at e
      rw [if_pos hc]
      have hrd : Holds (Serial1Read g.usart1).2.tx_buffer q := by
        rw [Serial1Read_keeps_tx]; exact htx
      obtain ⟨⟨q1, h1⟩, t1⟩ := print_stream (Serial1Read g.usart1).2 g.USART1
        (c_str "Your Inputs:") q hrd
      obtain ⟨_, t2⟩ := print_stream
        (print_from_uart (Serial1Read g.usart1).2 g.USART1 (c_str "Your Inputs:")).2.1
        (print_from_uart (Serial1Read g.usart1).2 g.USART1 (c_str "Your Inputs:")).2.2
        (c_string_of r.2.at_command.buf ++ [10]) q1 h1
      have e1 := congrArg (fun p => transmitted p.1 p.2) e
      simp only at e1
      rw [e1, t2, t1, c_string_of_no_nul]
      have ey : ((c_str "Your Inputs:").take (SERIAL_BUFFER_SIZE - 1)).takeWhile
          (fun b => b ≠ 0) = c_str "Your Inputs:" := by decide!
      rw [ey]
      simp only [transmitted, Serial1Read_keeps_tx, List.append_assoc]
    · have hc3 : ¬ (g.at_command.status = .incomplete ∧ r.2.at_command.status = .complete ∧
          g.usart1.debug = 1) := fun h => hc ⟨h.1, h.2.1⟩
      rw [if_neg hc3] at e
      rw [if_neg hc, List.append_nil]
      have e1 := congrArg (fun p => transmitted p.1 p.2) e
      simp only at e1
      rw [e1]
      split_ifs
      · rfl
      · simp only [transmitted, Serial1Read_keeps_tx]


/-- The three diagnostics with the debug flag 1 (`AT+zz;`, `AT+fs200;`, the
terminator after `AT+cs`) and the silence of the same calls with the flag 0. -/
theorem diagnostics_only_in_debug_mode_witness :
    (∃ r, execute_a_cmd (fun _ _ _ w => w)
        { usart1 := { object_uart_init with debug := 1 }, USART1 := ⟨false, []⟩,
          at_command := { buf := holding (c_str "AT+zz;"), new_position := 6,
                          status := .complete } } () = some r ∧ r.ret = -1 ∧
      transmitted r.board.usart1 r.board.USART1 = c_str "Command does not exist.\n") ∧
    (∃ r, execute_a_cmd (fun _ _ _ w => w)
        { usart1 := { object_uart_init with debug := 1 }, USART1 := ⟨false, []⟩,
          at_command := { buf := holding (c_str "AT+fs200;"), new_position := 9,
                          status := .complete } } () = some r ∧ r.ret = -1 ∧
      transmitted r.board.usart1 r.board.USART1 = c_str "Parameters error.\n") ∧
    (∃ r, get_a_cmd (receive_byte
        { usart1 := { object_uart_init with debug := 1 }, USART1 := ⟨false, []⟩,
          at_command := { buf := holding (c_str "AT+cs"), new_position := 5,
                          status := .incomplete } } 59) = some r ∧
      transmitted r.2.usart1 r.2.USART1 = c_str "Your Inputs:AT+cs;\n") ∧
    (∃ r, get_a_cmd (receive_byte
        { main_init with
          at_command := { buf := holding (c_str "AT+cs"), new_position := 5,
                          status := .incomplete } } 59) = some r ∧
      r.2.at_command.status = .complete ∧
      r.2.usart1.tx_buffer = main_init.usart1.tx_buffer ∧ r.2.USART1 = main_init.USART1) ∧
    (∃ r, execute_a_cmd (fun _ _ _ w => w)
        { main_init with
          at_command := { buf := holding (c_str "AT+zz;"), new_position := 6,
                          status := .complete } } () = some r ∧ r.ret = -1 ∧
      r.board.usart1.tx_buffer = main_init.usart1.tx_buffer ∧
      r.board.USART1 = main_init.USART1) := by
  refine ⟨?_, ?_, ?_, ?_, ?_⟩
  · exact ((diagnostics_only_in_debug_mode (fun _ _ _ w => w)
        { usart1 := { object_uart_init with debug := 1 }, USART1 := ⟨false, []⟩,
          at_command := { buf := holding (c_str "AT+zz;"), new_position := 6,
                          status := .complete } } () [] Holds.init).2 rfl).1 rfl
      (by decide!) |>.imp (fun _ h => ⟨h.1, h.2.1, h.2.2.trans (by decide!)⟩)
  · exact ((diagnostics_only_in_debug_mode (fun _ _ _ w => w)
        { usart1 := { object_uart_init with debug := 1 }, USART1 := ⟨false, []⟩,
          at_command := { buf := holding (c_str "AT+fs200;"), new_position := 9,
                          status := .complete } } () [] Holds.init).2 rfl).2.1 rfl
      (by decide!) (by decide!) (by decide!)
      |>.imp (fun _ h => ⟨h.1, h.2.1, h.2.2.trans (by decide!)⟩)
  · exact ⟨Option.get _ (by decide! : (get_a_cmd (receive_byte
        { usart1 := { object_uart_init with debug := 1 }, USART1 := ⟨false, []⟩,
          at_command := { buf := holding (c_str "AT+cs"), new_position := 5,
                          status := .incomplete } } 59)).isSome = true),
      (Option.some_get _).symm,
      (((diagnostics_only_in_debug_mode (fun _ _ _ w => w) (receive_byte
        { usart1 := { object_uart_init with debug := 1 }, USART1 := ⟨false, []⟩,
          at_command := { buf := holding (c_str "AT+cs"), new_position := 5,
                          status := .incomplete } } 59) () [] Holds.init).2
        rfl).2.2 _ (Option.some_get _).symm).trans (by decide!)⟩
  · exact ⟨Option.get _ (by decide! : (get_a_cmd (receive_byte
        { main_init with
          at_command := { buf := holding (c_str "AT+cs"), new_position := 5,
                          status := .incomplete } } 59)).isSome = true),
      (Option.some_get _).symm, by decide!,
      ((diagnostics_only_in_debug_mode (fun _ _ _ w => w) (receive_byte
        { main_init with
          at_command := { buf := holding (c_str "AT+cs"), new_position := 5,
                          status := .incomplete } } 59) () [] Holds.init).1
        (by decide)).1 _ (Option.some_get _).symm⟩
  · exact ⟨Option.get _ (by decide! : (execute_a_cmd (fun _ _ _ w => w) { main_init with
          at_command := { buf := holding (c_str "AT+zz;"), new_position := 6,
                          status := .complete } } ()).isSome = true),
      (Option.some_get _).symm, by decide!,
      ((diagnostics_only_in_debug_mode (fun _ _ _ w => w) { main_init with
          at_command := { buf := holding (c_str "AT+zz;"), new_position := 6,
                          status := .complete } } () [] Holds.init).1
        (by decide)).2 _ (Option.some_get _).symm (by decide!)⟩

/-! ## Dispatching a command twice -/


theorem holding_set_inside (w : List uchar) (e : Nat) (c : uchar) (h : e < w.length) :
    (holding w).set e c = holding (w.set e c) := by
  unfold holding
  rw [List.set_append_left _ _ h]
  simp

theorem holding_getD_ne_zero (w : List uchar) (e : Nat) (h : ¬ (holding w).getD e 0 = 0) :
    e < w.length := by
  rw [holding_getD] at h
  by_contra hn
  apply h
  simp [List.getD_eq_getElem?_getD, List.getElem?_eq_none (Nat.le_of_not_lt hn)]

/-- `strtok` keeps the shape of the command buffer: a text of the same length,
then NUL. -/
theorem strtok_holding (w : List uchar) (saved s : Option Nat) (delim : List uchar)
    (tok : Option Nat) (mem : List uchar) (saved2 : Option Nat)
    (h : strtok (holding w) saved s delim = some (tok, mem, saved2)) :
    ∃ w2, mem = holding w2 ∧ w2.length = w.length := by
  unfold strtok at h
  split at h
  · cases h; exact ⟨w, rfl, rfl⟩
  · split at h
    · cases h
    · split_ifs at h with h0
      · cases h; exact ⟨w, rfl, rfl⟩
      · split at h
        · cases h
        · rename_i e he
          split_ifs at h with h1
          · cases h; exact ⟨w, rfl, rfl⟩
          · cases h
            have hlt := holding_getD_ne_zero w e h1
            exact ⟨w.set e 0, holding_set_inside w e 0 hlt, by simp⟩

theorem get_cmd_param_loop_holding (fuel : Nat) : ∀ (w : List uchar) (saved : Option Nat)
    (args : List (Option Nat)) (count : Nat) (mem2 : List uchar) (saved2 : Option Nat)
    (args2 : List (Option Nat)) (count2 : Nat),
    get_cmd_param_loop fuel (holding w) saved args count = some (mem2, saved2, args2, count2) →
    ∃ w2, mem2 = holding w2 ∧ w2.length = w.length := by
  induction fuel with
  | zero =>
    intro w saved args count mem2 saved2 args2 count2 h
    unfold get_cmd_param_loop at h
    split_ifs at h
    cases h
    exact ⟨w, rfl, rfl⟩
  | succ fuel ih =>
    intro w saved args count mem2 saved2 args2 count2 h
    rw [get_cmd_param_loop] at h
    split_ifs at h
    · cases h; exact ⟨w, rfl, rfl⟩
    · cases hs : strtok (holding w) saved none [44] with
      | none => simp [hs] at h
      | some t =>
        obtain ⟨tok, m, sv⟩ := t
        obtain ⟨w1, hm, hl⟩ := strtok_holding w saved none [44] tok m sv hs
        simp only [hs] at h
        cases ha : store_arg args (count + 1) tok with
        | none => simp [ha] at h
        | some a2 =>
          simp only [ha] at h
          rw [hm] at h
          obtain ⟨w2, e2, l2⟩ := ih w1 sv a2 (count + 1) mem2 saved2 args2 count2 h
          exact ⟨w2, e2, by rw [l2, hl]⟩

/-- `get_cmd_param` keeps the cursor and the status, and the shape of the
buffer: a text of the same length, then NUL. -/
theorem get_cmd_param_holding (at_cmd : ATcmd_buffer) (args : List (Option Nat))
    (w : List uchar) (hb : at_cmd.buf = holding w)
    (arg_num : Int) (at_cmd2 : ATcmd_buffer) (args2 : List (Option Nat))
    (h : get_cmd_param at_cmd args = some (arg_num, at_cmd2, args2)) :
    at_cmd2.new_position = at_cmd.new_position ∧ at_cmd2.status = at_cmd.status ∧
    ∃ w2, at_cmd2.buf = holding w2 ∧ w2.length = w.length := by
  unfold get_cmd_param at h
  split_ifs at h
  · cases h; exact ⟨rfl, rfl, w, hb, rfl⟩
  · cases h; exact ⟨rfl, rfl, w, hb, rfl⟩
  · rw [hb] at h
    cases hs : strtok (holding w) none (some 6) [44] with
    | none => simp [hs] at h
    | some t =>
      obtain ⟨tok, m, sv⟩ := t
      obtain ⟨w1, hm, hl⟩ := strtok_holding w none (some 6) [44] tok m sv hs
      simp only [hs] at h
      cases ha : store_arg args 0 tok with
      | none => simp [ha] at h
      | some a1 =>
        simp only [ha] at h
        cases hloop : get_cmd_param_loop args.length m sv a1 0 with
        | none => simp [hloop] at h
        | some t2 =>
          obtain ⟨m2, sv2, a2, cnt⟩ := t2
          simp only [hloop] at h
          rw [hm] at hloop
          obtain ⟨w2, hm2, hl2⟩ := get_cmd_param_loop_holding _ w1 sv a1 0 m2 sv2 a2 cnt hloop
          split_ifs at h
          split at h
          · cases h
          · rename_i tok3 m3 sv3 hs3
            rw [hm2] at hs3
            obtain ⟨w3, hm3, hl3⟩ := strtok_holding w2 sv2 _ [59] tok3 m3 sv3 hs3
            cases h
            exact ⟨rfl, rfl, w3, hm3, by rw [hl3, hl2, hl]⟩


theorem asm_next_complete (st : ATCMD_BUFFER_STATUS) (w : List uchar) (c : uchar)
    (ret : Int) (w2 : List uchar)
    (hn : asm_next st w c = some (ret, .complete, w2)) : st = .complete ∨ c = 59 := by
  unfold asm_next at hn
  cases st with
  | complete => left; rfl
  | not_start =>
    simp only at hn
    split_ifs at hn <;> simp at hn
  | incomplete =>
    simp only at hn
    by_cases h59 : c = 59
    · right; exact h59
    · split_ifs at hn <;> simp [h59] at hn

/-- While no command is complete, a fed byte is read at once: the receive ring
is empty again after the call, and only the terminator completes a command. -/
theorem feed_keeps_rx_empty (g : Board) (c : uchar) (r : Int × Board)
    (hinv : AsmInv g) (hst : g.at_command.status ≠ .complete)
    (hf : feed g c = some r) :
    Holds r.2.usart1.rx_buffer [] ∧ (r.2.at_command.status = .complete → c = 59) := by
  obtain ⟨hrx, w, hb, hp, hw⟩ := hinv
  obtain ⟨r0, r1, r2⟩ := read_after_receive g c (hrx hst)
  constructor
  · have e := congrArg (fun p => p.1.rx_buffer) (get_a_cmd_serial (receive_byte g c) r hf)
    simp only at e
    rw [e]
    have hst2 : ¬ (receive_byte g c).at_command.status = .complete := by rw [r2]; exact hst
    split_ifs
    · rw [(print_keeps_rx _ _ _).1, (print_keeps_rx _ _ _).1]; exact r1
    · exact r1
  · intro hc
    have h := feed_refines g c w hb hp hw hrx
    cases hn : asm_next g.at_command.status w c with
    | none => simp only [hn] at h; rw [h] at hf; cases hf
    | some t =>
      obtain ⟨ret, st2, w2⟩ := t
      simp only [hn] at h
      obtain ⟨g2, e, ha, _⟩ := h
      rw [e] at hf
      cases hf
      simp only [ha] at hc
      subst hc
      rcases asm_next_complete _ _ _ _ _ hn with h1 | h1
      · exact absurd h1 hst
      · exact h1

/-- Over a stream without the terminator no command becomes complete and the
receive ring is empty after every call. -/
theorem feed_stream_no_terminator (s : List uchar) : ∀ (g g2 : Board),
    AsmInv g → g.at_command.status ≠ .complete → (59 : uchar) ∉ s →
    feed_stream g s = some g2 →
    AsmInv g2 ∧ g2.at_command.status ≠ .complete := by
  induction s with
  | nil =>
    intro g g2 hinv hst _ h
    simp only [feed_stream, Option.some.injEq] at h
    subst h
    exact ⟨hinv, hst⟩
  | cons c s ih =>
    intro g g2 hinv hst hterm h
    simp only [feed_stream] at h
    cases hf : feed g c with
    | none => simp [hf] at h
    | some r =>
      simp only [hf] at h
      have hk := feed_keeps_rx_empty g c r hinv hst hf
      have hne : r.2.at_command.status ≠ .complete := fun hc =>
        hterm (by rw [← hk.2 hc]; simp)
      exact ih r.2 g2 (hinv.feed c r hf) hne (fun hm => hterm (by simp [hm])) h

/-- The command assembled over a stream depends on the command at the start
only, not on the rest of the state. -/
theorem feed_stream_same (s : List uchar) : ∀ (g g' g1 : Board),
    AsmInv g → AsmInv g' → g'.at_command = g.at_command →
    feed_stream g s = some g1 →
    ∃ g1', feed_stream g' s = some g1' ∧ g1'.at_command = g1.at_command := by
  induction s with
  | nil =>
    intro g g' g1 _ _ ha h
    simp only [feed_stream, Option.some.injEq] at h
    subst h
    exact ⟨g', rfl, ha⟩
  | cons c s ih =>
    intro g g' g1 hinv hinv' ha h
    simp only [feed_stream] at h
    cases hf : feed g c with
    | none => simp [hf] at h
    | some r =>
      simp only [hf] at h
      obtain ⟨hrx, w, hb, hp, hw⟩ := hinv
      have k := feed_refines g c w hb hp hw hrx
      have k' := feed_refines g' c w (by rw [ha]; exact hb) (by rw [ha]; exact hp) hw hinv'.rx
      rw [ha] at k'
      cases hn : asm_next g.at_command.status w c with
      | none => simp only [hn] at k; rw [k] at hf; cases hf
      | some t =>
        obtain ⟨ret, st2, w2⟩ := t
        simp only [hn] at k k'
        obtain ⟨g2, e, a2, _⟩ := k
        obtain ⟨g2', e', a2', _⟩ := k'
        rw [e] at hf
        cases hf
        have i2 : AsmInv g2 := AsmInv.feed ⟨hrx, w, hb, hp, hw⟩ c _ e
        have i2' : AsmInv g2' := AsmInv.feed hinv' c _ e'
        obtain ⟨g3, e3, a3⟩ := ih g2 g2' g1 i2 i2' (by rw [a2, a2']) h
        exact ⟨g3, by simp only [feed_stream, e', e3], a3⟩

/-- The return value of `execute_a_cmd`, the call it makes and the command it
leaves depend on the command only. -/
theorem execute_of_same_command {L : Type} (action_array : Int → func_t L) (g g' : Board)
    (lcd lcd' : L) (ha : g'.at_command = g.at_command) :
    (execute_a_cmd action_array g' lcd').map (fun r => (r.ret, r.invoked, r.board.at_command)) =
    (execute_a_cmd action_array g lcd).map (fun r => (r.ret, r.invoked, r.board.at_command)) := by
  unfold execute_a_cmd
  rw [ha]
  by_cases hst : g.at_command.status = .complete
  · by_cases hidx : get_cmd_index g.at_command = -1
    · simp only [hst, hidx, if_true, Option.map_some']
    · cases hpar : get_cmd_param g.at_command (List.replicate 6 none) with
      | none => simp only [hst, hidx, if_true, if_false, Option.map_none']
      | some t =>
        obtain ⟨arg_num, at_cmd2, args⟩ := t
        by_cases harg : arg_num = -1
        · simp only [hst, hidx, harg, if_true, if_false, Option.map_some']
        · simp only [hst, hidx, harg, if_true, if_false, Option.map_some']
  · simp only [hst, if_false, Option.map_some']
    rw [ha]

/-- After `execute_a_cmd` on a complete command the command buffer is as after
`object_ATcmd_init`, and the receive ring is the one the action called left. -/
theorem execute_resets {L : Type} (action_array : Int → func_t L) (g : Board) (lcd : L)
    (r : Executed L) (hinv : AsmInv g) (hst : g.at_command.status = .complete)
    (he : execute_a_cmd action_array g lcd = some r) :
    r.board.at_command = object_ATcmd_init := by
  obtain ⟨_, w, hb, hp, hw⟩ := hinv
  have hcl := clean_is_init g.at_command w hb hp hw
  by_cases hidx : get_cmd_index g.at_command = -1
  · simp only [execute_a_cmd, hst, hidx, if_true, Option.some.injEq] at he
    subst he
    exact hcl
  · cases hpar : get_cmd_param g.at_command (List.replicate 6 none) with
    | none =>
      simp only [execute_a_cmd, hst, hidx, hpar, if_true, if_false] at he
      cases he
    | some t =>
      obtain ⟨arg_num, at_cmd2, args⟩ := t
      obtain ⟨k1, _, w2, k3, k4⟩ := get_cmd_param_holding _ _ w hb _ _ _ hpar
      have hcl2 := clean_is_init at_cmd2 w2 k3 (by rw [k1, hp, k4]) (by rw [k4]; exact hw)
      by_cases harg : arg_num = -1
      · simp only [execute_a_cmd, hst, hidx, hpar, harg, if_true, if_false,
          Option.some.injEq] at he
        subst he
        exact hcl2
      · simp only [execute_a_cmd, hst, hidx, hpar, harg, if_true, if_false,
          Option.some.injEq] at he
        subst he
        exact hcl2


/-- C25. A command is received from the freshly initialised command buffer
with an empty receive ring, its terminator being the last byte of the stream,
and dispatched by `execute`; the actions of the table do not touch the receive
ring.  When that first dispatch has a defined result, the same stream received
again is assembled to the same command and the second `execute` returns the
same value and makes the same call: the same slot, the same argument strings
and the same count.  Nothing of the first dispatch is left: the command buffer
is again as `object_ATcmd_init` set it, although `strtok` wrote NUL bytes into
it.  (A dispatch without a defined result is one whose parameters outgrow
`args`, see C16.) -/
theorem dispatch_twice_is_the_same {L : Type} (action_array : Int → func_t L)
    (hact : ∀ i argv n w, (action_array i argv n w).1.rx_buffer = w.1.rx_buffer)
    (g0 g1 : Board) (lcd0 : L) (s0 : List uchar) (r1 : Executed L)
    (ha : g0.at_command = object_ATcmd_init)
    (hq : Holds g0.usart1.rx_buffer [])
    (hterm : (59 : uchar) ∉ s0)
    (h1 : feed_stream g0 (s0 ++ [59]) = some g1)
    (hc : g1.at_command.status = .complete)
    (he : execute_a_cmd action_array g1 lcd0 = some r1) :
    ∃ g2 r2, feed_stream r1.board (s0 ++ [59]) = some g2 ∧
      g2.at_command = g1.at_command ∧
      execute_a_cmd action_array g2 r1.lcd = some r2 ∧
      r2.ret = r1.ret ∧ r2.invoked = r1.invoked ∧
      r2.board.at_command = r1.board.at_command ∧
      r1.board.at_command = g0.at_command := by
  have hinv0 : AsmInv g0 := by
    refine ⟨fun _ => hq, [], ?_, ?_, ?_⟩
    · rw [ha, holding_nil]; rfl
    · rw [ha]; rfl
    · simp
  have hst0 : g0.at_command.status ≠ .complete := by rw [ha]; simp [object_ATcmd_init]
  -- the state before the terminator
  rw [feed_stream_append] at h1
  cases hm : feed_stream g0 s0 with
  | none => simp [hm] at h1
  | some gm =>
    simp only [hm, Option.some_bind, feed_stream] at h1
    cases hf : feed gm 59 with
    | none => simp [hf] at h1
    | some rf =>
      simp only [hf, Option.some.injEq] at h1
      subst h1
      obtain ⟨hinvm, hstm⟩ := feed_stream_no_terminator s0 g0 gm hinv0 hst0 hterm hm
      have hrx1 := (feed_keeps_rx_empty gm 59 rf hinvm hstm hf).1
      have hinv1 : AsmInv rf.2 := hinvm.feed 59 rf hf
      -- the state after the first dispatch
      have hreset := execute_resets action_array rf.2 lcd0 r1 hinv1 hc he
      have hrxr : r1.board.usart1.rx_buffer = rf.2.usart1.rx_buffer := by
        rcases execute_serial action_array rf.2 lcd0 r1 he with ⟨_, _, _, e⟩ | ⟨inv, _, _, e⟩
        · generalize (if get_cmd_index rf.2.at_command = -1 then
            c_str "Command does not exist.\n" else c_str "Parameters error.\n") = text at e
          have e2 := congrArg (fun p => p.1.rx_buffer) e
          simp only at e2
          rw [e2]
          by_cases hcd : rf.2.at_command.status = .complete ∧ rf.2.usart1.debug = 1
          · rw [if_pos hcd, (print_keeps_rx _ _ _).1]
          · rw [if_neg hcd]
        · have e2 := congrArg (fun p => p.1.rx_buffer) e
          simp only at e2
          rw [e2, hact]
      have hinvr : AsmInv r1.board := by
        refine ⟨fun _ => by rw [hrxr]; exact hrx1, [], ?_, ?_, ?_⟩
        · rw [hreset, holding_nil]; rfl
        · rw [hreset]; rfl
        · simp
      -- the second reception and dispatch
      have hfull : feed_stream g0 (s0 ++ [59]) = some rf.2 := by
        rw [feed_stream_append, hm]
        simp only [Option.some_bind, feed_stream, hf]
      obtain ⟨g2, e2, a2⟩ := feed_stream_same (s0 ++ [59]) g0 r1.board rf.2 hinv0 hinvr
        (by rw [hreset, ha]) hfull
      have hsame := execute_of_same_command action_array rf.2 g2 lcd0 r1.lcd a2
      rw [he] at hsame
      cases he2 : execute_a_cmd action_array g2 r1.lcd with
      | none => simp [he2] at hsame
      | some r2 =>
        simp only [he2, Option.map_some', Option.some.injEq, Prod.mk.injEq] at hsame
        exact ⟨g2, r2, e2, a2, he2, hsame.1, hsame.2.1, hsame.2.2, by rw [hreset, ha]⟩

/-- The command `AT+fs=200,23;` received and dispatched twice from program
start: slot 11 with the strings `200` and `23` both times. -/
theorem dispatch_twice_is_the_same_witness :
    ∃ g2 r2,
      feed_stream
        (Option.get
          (execute_a_cmd (fun _ _ _ w => w)
            ((feed_stream main_init (c_str "AT+fs=200,23;")).getD main_init) ())
          (by decide!)).board
        (c_str "AT+fs=200,23" ++ [59]) = some g2 ∧
      execute_a_cmd (fun _ _ _ w => w) g2
        (Option.get
          (execute_a_cmd (fun _ _ _ w => w)
            ((feed_stream main_init (c_str "AT+fs=200,23;")).getD main_init) ())
          (by decide!)).lcd = some r2 ∧
      r2.ret = 0 ∧
      r2.invoked = some { slot := 11, argv := [some (c_str "200"), some (c_str "23")],
                          arg_num := 2 } ∧
      (Option.get
          (execute_a_cmd (fun _ _ _ w => w)
            ((feed_stream main_init (c_str "AT+fs=200,23;")).getD main_init) ())
          (by decide!)).invoked =
        some { slot := 11, argv := [some (c_str "200"), some (c_str "23")], arg_num := 2 } :=
  (dispatch_twice_is_the_same (fun _ _ _ w => w) (fun _ _ _ _ => rfl)
    main_init ((feed_stream main_init (c_str "AT+fs=200,23;")).getD main_init) ()
    (c_str "AT+fs=200,23")
    (Option.get
          (execute_a_cmd (fun _ _ _ w => w)
            ((feed_stream main_init (c_str "AT+fs=200,23;")).getD main_init) ())
          (by decide!))
    rfl Holds.init (by decide!) (by decide!) (by decide!) (Option.some_get _).symm).imp
    (fun _ h => h.imp (fun _ k =>
      ⟨k.1, k.2.2.1, k.2.2.2.1.trans (by decide!), k.2.2.2.2.1.trans (by decide!),
        by decide!⟩))

/-! ## Well-formed commands, end to end -/


theorem drop_length_append (a r : List uchar) : (a ++ r).drop a.length = r := by
  simp

theorem getD_length_append (a b : List uchar) (d : uchar) :
    (a ++ d :: b).getD a.length 0 = d := by
  induction a with
  | nil => rfl
  | cons x a ih => simpa using ih

/-- `strtok` at the start of a token: the token is returned; a delimiter after
it is overwritten with NUL and the scan resumes behind it, a NUL after it is
where the scan resumes. -/
theorem strtok_token (a tok b : List uchar) (d : uchar) (delim : List uchar)
    (saved s : Option Nat) (hne : tok ≠ [])
    (htok : ∀ x ∈ tok, x ≠ 0 ∧ x ∉ delim) (hd : d = 0 ∨ d ∈ delim)
    (hstart : s = some a.length ∨ (s = none ∧ saved = some a.length)) :
    strtok (a ++ tok ++ d :: b) saved s delim =
      some (some a.length,
            if d = 0 then a ++ tok ++ d :: b else a ++ tok ++ 0 :: b,
            some (if d = 0 then a.length + tok.length else a.length + tok.length + 1)) := by
  obtain ⟨t0, tk, rfl⟩ := List.exists_cons_of_ne_nil hne
  have ht0 := htok t0 (by simp)
  have hskip : skip_delim (a ++ (t0 :: tk) ++ d :: b) a.length delim = some a.length := by
    unfold skip_delim
    have e : (a ++ (t0 :: tk) ++ d :: b).drop a.length = t0 :: (tk ++ d :: b) := by
      simp
    rw [e]
    have : List.takeWhile (fun b => decide (b ∈ delim)) (t0 :: (tk ++ d :: b)) = [] := by
      simp [List.takeWhile_cons, ht0.2]
    simp only [this, List.length_nil, Nat.add_zero]
    simp
  have hget : (a ++ (t0 :: tk) ++ d :: b).getD a.length 0 = t0 := by
    have := getD_length_append a (tk ++ d :: b) t0
    simpa [List.append_assoc] using this
  have hfind : find_delim (a ++ (t0 :: tk) ++ d :: b) a.length delim =
      some (a.length + (t0 :: tk).length) := by
    unfold find_delim
    have e : (a ++ (t0 :: tk) ++ d :: b).drop a.length = (t0 :: tk) ++ d :: b := by
      simp
    rw [e]
    have h1 : ∀ x ∈ (t0 :: tk), (fun b => decide (b ≠ 0 ∧ b ∉ delim)) x = true := by
      intro x hx
      have := htok x hx
      simp [this.1, this.2]
    have h2 : (fun b => decide (b ≠ 0 ∧ b ∉ delim)) d = false := by
      rcases hd with h | h <;> simp [h]
    have : List.takeWhile (fun b => decide (b ≠ 0 ∧ b ∉ delim)) ((t0 :: tk) ++ d :: b) =
        t0 :: tk := by
      rw [List.takeWhile_append_of_pos h1]
      simp only [List.takeWhile_cons, h2]
      simp
    rw [this]
    simp
  have hgetd : (a ++ (t0 :: tk) ++ d :: b).getD (a.length + (t0 :: tk).length) 0 = d := by
    have := getD_length_append (a ++ (t0 :: tk)) b d
    simpa [List.append_assoc] using this
  have hset : (a ++ (t0 :: tk) ++ d :: b).set (a.length + (t0 :: tk).length) 0 =
      a ++ (t0 :: tk) ++ 0 :: b := by
    have : a.length + (t0 :: tk).length = (a ++ (t0 :: tk)).length := by simp
    rw [this, List.set_append_right _ _ (Nat.le_refl _)]
    simp
  have hres : ∀ p : Option Nat, p = some a.length →
      (match p with
       | none => some (none, a ++ (t0 :: tk) ++ d :: b, none)
       | some p =>
         match skip_delim (a ++ (t0 :: tk) ++ d :: b) p delim with
         | none => none
         | some q =>
           if (a ++ (t0 :: tk) ++ d :: b).getD q 0 = 0 then
             some (none, a ++ (t0 :: tk) ++ d :: b, some q)
           else
             match find_delim (a ++ (t0 :: tk) ++ d :: b) q delim with
             | none => none
             | some e =>
               if (a ++ (t0 :: tk) ++ d :: b).getD e 0 = 0 then
                 some (some q, a ++ (t0 :: tk) ++ d :: b, some e)
               else some (some q, (a ++ (t0 :: tk) ++ d :: b).set e 0, some (e + 1))) =
      some (some a.length,
            if d = 0 then a ++ (t0 :: tk) ++ d :: b else a ++ (t0 :: tk) ++ 0 :: b,
            some (if d = 0 then a.length + (t0 :: tk).length
                  else a.length + (t0 :: tk).length + 1)) := by
    intro p hp
    subst hp
    simp only [hskip, hget, hfind, hgetd, hset, ht0.1, if_false]
    by_cases h0 : d = 0
    · simp only [h0, if_true]
    · simp only [h0, if_false]
  unfold strtok
  rcases hstart with h | ⟨h1, h2⟩
  · subst h; exact hres _ rfl
  · subst h1; exact hres _ h2

/-- `strtok` at the closing NUL: no token. -/
theorem strtok_end (a b : List uchar) (delim : List uchar) (saved s : Option Nat)
    (h0 : (0 : uchar) ∉ delim)
    (hstart : s = some a.length ∨ (s = none ∧ saved = some a.length)) :
    strtok (a ++ 0 :: b) saved s delim = some (none, a ++ 0 :: b, some a.length) := by
  have hskip : skip_delim (a ++ 0 :: b) a.length delim = some a.length := by
    unfold skip_delim
    rw [drop_length_append]
    have : List.takeWhile (fun b => decide (b ∈ delim)) (0 :: b) = [] := by
      simp [List.takeWhile_cons, h0]
    simp only [this, List.length_nil, Nat.add_zero]
    simp
  unfold strtok
  rcases hstart with h | ⟨h1, h2⟩
  · subst h
    simp only [hskip, getD_length_append, if_true]
  · subst h1 h2
    simp only [hskip, getD_length_append, if_true]


theorem getD_args_at (A B : List (Option Nat)) (v : Option Nat) :
    (A ++ v :: B).getD A.length none = v := by
  induction A with
  | nil => rfl
  | cons x A ih => simpa using ih

theorem store_arg_at (A B : List (Option Nat)) (old v : Option Nat) :
    store_arg (A ++ old :: B) A.length v = some (A ++ v :: B) := by
  unfold store_arg
  have hl : A.length < (A ++ old :: B).length := by simp
  rw [if_pos hl, List.set_append_right _ _ (Nat.le_refl _)]
  simp

theorem get_cmd_param_loop_stop (fuel : Nat) (mem : List uchar) (saved : Option Nat)
    (args : List (Option Nat)) (count : Nat) (h : args.getD count none = none) :
    get_cmd_param_loop fuel mem saved args count = some (mem, saved, args, count) := by
  unfold get_cmd_param_loop
  rw [if_pos h]

theorem get_cmd_param_loop_step (fuel : Nat) (mem mem2 : List uchar) (saved saved2 : Option Nat)
    (args args2 : List (Option Nat)) (count : Nat) (tok : Option Nat)
    (h : ¬ args.getD count none = none)
    (hs : strtok mem saved none [44] = some (tok, mem2, saved2))
    (ha : store_arg args (count + 1) tok = some args2) :
    get_cmd_param_loop (fuel + 1) mem saved args count =
      get_cmd_param_loop fuel mem2 saved2 args2 (count + 1) := by
  rw [get_cmd_param_loop]
  rw [if_neg h]
  simp only [hs, ha]

/-- The byte that ends a parameter for the comma loop: the NUL written over
the comma, or the terminator after the last parameter. -/
theorem param_cut_cons (p : List uchar) (ps : List (List uchar)) :
    param_cut (p :: ps) = p ++ (if ps = [] then 59 else 0) :: param_cut ps := by
  cases ps with
  | nil => simp [param_cut]
  | cons q qs => simp [param_cut]

/-- `strtok` with the comma as delimiter at the start of a parameter. -/
theorem strtok_param (done : List uchar) (p : List uchar) (ps : List (List uchar))
    (Z : List uchar) (saved s : Option Nat)
    (hp : p ≠ [] ∧ ∀ x ∈ p, x ≠ 0 ∧ x ≠ 44 ∧ x ≠ 59)
    (hstart : s = some done.length ∨ (s = none ∧ saved = some done.length)) :
    strtok (done ++ param_text (p :: ps) ++ 0 :: Z) saved s [44] =
      some (some done.length,
            (done ++ p ++ [if ps = [] then 59 else 0]) ++ param_text ps ++ 0 :: Z,
            some (done ++ p ++ [if ps = [] then 59 else 0]).length) := by
  cases ps with
  | nil =>
    have h := strtok_token done (p ++ [59]) Z 0 [44] saved s (by simp)
      (by
        intro x hx
        rw [List.mem_append] at hx
        rcases hx with hx | hx
        · have := hp.2 x hx
          simp [this.1, this.2.1]
        · simp only [List.mem_singleton] at hx
          subst hx
          decide)
      (Or.inl rfl) hstart
    simp only [if_true] at h
    simp only [param_text, if_true, List.append_nil]
    rw [h]
    simp [List.append_assoc, Nat.add_assoc]
  | cons q qs =>
    have h := strtok_token done p (param_text (q :: qs) ++ 0 :: Z) 44 [44] saved s hp.1
      (by
        intro x hx
        have := hp.2 x hx
        simp [this.1, this.2.1])
      (Or.inr (by simp)) hstart
    have d : ¬ ((44 : uchar) = 0) := by decide
    simp only [d, if_false] at h
    have e : done ++ param_text (p :: q :: qs) ++ 0 :: Z =
        done ++ p ++ 44 :: (param_text (q :: qs) ++ 0 :: Z) := by
      simp [param_text, List.append_assoc]
    rw [e, h]
    simp [List.append_assoc, Nat.add_assoc]

/-- The comma loop of `get_cmd_param` over the parameters `ps` that follow
the one just stored in entry `A.length` of `args`. -/
theorem get_cmd_param_loop_tokens : ∀ (ps : List (List uchar)) (done : List uchar)
    (A : List (Option Nat)) (c : Nat) (B : List (Option Nat)) (Z : List uchar) (fuel : Nat),
    (∀ p ∈ ps, p ≠ [] ∧ ∀ x ∈ p, x ≠ 0 ∧ x ≠ 44 ∧ x ≠ 59) →
    ps.length < B.length → ps.length < fuel →
    get_cmd_param_loop fuel (done ++ param_text ps ++ 0 :: Z) (some done.length)
        (A ++ some c :: B) A.length =
      some (done ++ param_cut ps ++ 0 :: Z, some (done ++ param_cut ps).length,
            A ++ some c :: (param_ptrs done.length ps ++ none :: B.drop (ps.length + 1)),
            A.length + ps.length + 1) := by
  intro ps
  induction ps with
  | nil =>
    intro done A c B Z fuel _ hB hfuel
    obtain ⟨b0, B', rfl⟩ := List.exists_cons_of_ne_nil (List.ne_nil_of_length_pos hB)
    obtain ⟨f, rfl⟩ : ∃ f, fuel = f + 1 := ⟨fuel - 1, by simp at hfuel; omega⟩
    have hcur : ¬ (A ++ some c :: b0 :: B').getD A.length none = none := by
      rw [getD_args_at]; simp
    have hst := strtok_end done Z [44] (some done.length) none (by decide) (Or.inr ⟨rfl, rfl⟩)
    have hstore : store_arg (A ++ some c :: b0 :: B') (A.length + 1) none =
        some ((A ++ [some c]) ++ none :: B') := by
      have := store_arg_at (A ++ [some c]) B' b0 none
      simpa using this
    have hnext : ((A ++ [some c]) ++ none :: B').getD (A.length + 1) none = none := by
      have := getD_args_at (A ++ [some c]) B' none
      simpa using this
    have hmem : done ++ param_text [] ++ 0 :: Z = done ++ 0 :: Z := by simp [param_text]
    rw [hmem, get_cmd_param_loop_step f _ _ _ _ _ _ _ _ hcur hst hstore,
      get_cmd_param_loop_stop _ _ _ _ _ hnext]
    simp [param_cut, param_ptrs]
  | cons p ps ih =>
    intro done A c B Z fuel hps hB hfuel
    obtain ⟨b0, B', rfl⟩ := List.exists_cons_of_ne_nil
      (List.ne_nil_of_length_pos (Nat.lt_of_le_of_lt (Nat.zero_le _) hB))
    obtain ⟨f, rfl⟩ : ∃ f, fuel = f + 1 := ⟨fuel - 1, by omega⟩
    have hcur : ¬ (A ++ some c :: b0 :: B').getD A.length none = none := by
      rw [getD_args_at]; simp
    have hp := hps p (by simp)
    have hst := strtok_param done p ps Z (some done.length) none hp (Or.inr ⟨rfl, rfl⟩)
    have hstore : store_arg (A ++ some c :: b0 :: B') (A.length + 1) (some done.length) =
        some ((A ++ [some c]) ++ some done.length :: B') := by
      have := store_arg_at (A ++ [some c]) B' b0 (some done.length)
      simpa using this
    have hrec := ih (done ++ p ++ [if ps = [] then 59 else 0]) (A ++ [some c]) done.length B' Z f
      (fun q hq => hps q (by simp [hq]))
      (by simp only [List.length_cons] at hB; omega)
      (by simp only [List.length_cons] at hfuel; omega)
    have hl : A.length + 1 = (A ++ [some c]).length := by simp
    rw [get_cmd_param_loop_step f _ _ _ _ _ _ _ _ hcur hst hstore, hl, hrec]
    simp [param_cut_cons, param_ptrs, List.append_assoc, Nat.add_assoc, Nat.add_comm 1]


theorem param_ptrs_length (ps : List (List uchar)) : ∀ off, (param_ptrs off ps).length = ps.length := by
  induction ps with
  | nil => intro off; rfl
  | cons p ps ih => intro off; simp [param_ptrs, ih]

/-- The last parameter of a section after the comma loop: it ends with the
terminator, and the last pointer points to it. -/
theorem param_last (p : List uchar) (ps : List (List uchar)) : ∀ (off : Nat),
    ∃ init lastp, lastp ∈ p :: ps ∧
      param_cut (p :: ps) = init ++ lastp ++ [59] ∧
      (param_ptrs off (p :: ps)).getD ps.length none = some (off + init.length) ∧
      init ++ lastp ++ [0] = (p :: ps).flatMap (fun q => q ++ [0]) := by
  induction ps generalizing p with
  | nil =>
    intro off
    exact ⟨[], p, by simp, by simp [param_cut], by simp [param_ptrs], by simp⟩
  | cons q qs ih =>
    intro off
    obtain ⟨init, lastp, h1, h2, h3, h4⟩ := ih q (off + p.length + 1)
    refine ⟨p ++ 0 :: init, lastp, ?_, ?_, ?_, ?_⟩
    · simp only [List.mem_cons] at h1 ⊢
      right; exact h1
    · rw [param_cut, h2]; simp [List.append_assoc]
    · simp only [param_ptrs, List.length_cons, List.getD_cons_succ] at h3 ⊢
      rw [h3]
      simp; omega
    · have e : (p :: q :: qs).flatMap (fun q => q ++ [0]) =
          p ++ 0 :: (q :: qs).flatMap (fun q => q ++ [0]) := by
        simp [List.flatMap_cons]
      rw [e, ← h4]
      simp [List.append_assoc]

theorem set_same (l : List (Option Nat)) (i : Nat) (v : Option Nat)
    (h : l.getD i none = v) (hi : i < l.length) : l.set i v = l := by
  induction l generalizing i with
  | nil => simp at hi
  | cons x l ih =>
    cases i with
    | zero => simp at h; simp [h]
    | succ i =>
      simp only [List.getD_cons_succ] at h
      simp only [List.length_cons] at hi
      simp [ih i h (by omega)]

theorem c_string_at_param (a p rest : List uchar) (hp : ∀ x ∈ p, x ≠ 0) :
    c_string_at (a ++ p ++ 0 :: rest) a.length = p := by
  unfold c_string_at
  have e : (a ++ p ++ 0 :: rest).drop a.length = p ++ 0 :: rest := by simp
  rw [e, List.takeWhile_append_of_pos (by intro x hx; simp [hp x hx])]
  simp

/-- The strings the pointers of a tokenized section point to are its
parameters. -/
theorem argv_of_param_ptrs (ps : List (List uchar)) : ∀ (a Z : List uchar),
    (∀ q ∈ ps, ∀ x ∈ q, x ≠ 0) →
    (param_ptrs a.length ps).map
        (fun o => o.map (c_string_at (a ++ ps.flatMap (fun q => q ++ [0]) ++ Z))) =
      ps.map some := by
  induction ps with
  | nil => intro a Z _; rfl
  | cons p ps ih =>
    intro a Z h
    have hrec := ih (a ++ p ++ [0]) Z (fun q hq => h q (by simp [hq]))
    have e : a ++ (p :: ps).flatMap (fun q => q ++ [0]) ++ Z =
        a ++ p ++ 0 :: (ps.flatMap (fun q => q ++ [0]) ++ Z) := by
      simp [List.flatMap_cons, List.append_assoc]
    have e2 : a ++ p ++ [0] ++ ps.flatMap (fun q => q ++ [0]) ++ Z =
        a ++ p ++ 0 :: (ps.flatMap (fun q => q ++ [0]) ++ Z) := by
      simp [List.append_assoc]
    have e3 : (a ++ p ++ [0]).length = a.length + p.length + 1 := by simp; omega
    rw [e2, e3] at hrec
    simp only [param_ptrs, List.map_cons, Option.map_some', e, hrec]
    rw [c_string_at_param a p _ (h p (by simp))]

/-- The tokenizer on a well-formed parameter section of at most five
parameters: the count is their number, the pointers point to them in order,
and every comma and the terminator have been overwritten with NUL. -/
theorem get_cmd_param_tokens (at_cmd : ATcmd_buffer) (m p : List uchar) (ps : List (List uchar))
    (hm : m.length = 5)
    (hb : at_cmd.buf = holding (m ++ 61 :: param_text (p :: ps)))
    (hfit : (m ++ 61 :: param_text (p :: ps)).length < ATCMD_BUFFER_SIZE)
    (hps : ∀ q ∈ p :: ps, q ≠ [] ∧ ∀ x ∈ q, x ≠ 0 ∧ x ≠ 44 ∧ x ≠ 59)
    (hk : (p :: ps).length ≤ 5) :
    ∃ Z tail, get_cmd_param at_cmd (List.replicate 6 none) =
      some (((p :: ps).length : Int),
            { at_cmd with buf := (m ++ [61]) ++ (p :: ps).flatMap (fun q => q ++ [0]) ++ 0 :: Z },
            param_ptrs 6 (p :: ps) ++ tail) := by
  obtain ⟨Z, hZ⟩ : ∃ Z, holding (m ++ 61 :: param_text (p :: ps)) =
      (m ++ [61]) ++ param_text (p :: ps) ++ 0 :: Z := by
    refine ⟨List.replicate (ATCMD_BUFFER_SIZE - (m ++ 61 :: param_text (p :: ps)).length - 1) 0, ?_⟩
    unfold holding
    have : ATCMD_BUFFER_SIZE - (m ++ 61 :: param_text (p :: ps)).length =
        (ATCMD_BUFFER_SIZE - (m ++ 61 :: param_text (p :: ps)).length - 1) + 1 := by omega
    rw [this, List.replicate_succ]
    simp [List.append_assoc]
  rw [hZ] at hb
  have hlen6 : (m ++ [61]).length = 6 := by simp [hm]
  have h5 : at_cmd.buf.getD 5 0 = 61 := by
    rw [hb]
    have := getD_length_append m (param_text (p :: ps) ++ 0 :: Z) 61
    rw [hm] at this
    simpa [List.append_assoc] using this
  have hs1 := strtok_param (m ++ [61]) p ps Z none (some 6) (hps p (by simp))
    (Or.inl (by rw [hlen6]))
  rw [hlen6] at hs1
  have hst1 : store_arg (List.replicate 6 none) 0 (some 6) =
      some ([] ++ some 6 :: List.replicate 5 none) := by decide
  have hloop := get_cmd_param_loop_tokens ps (m ++ [61] ++ p ++ [if ps = [] then 59 else 0])
    [] 6 (List.replicate 5 none) Z (List.replicate 6 (none : Option Nat)).length
    (fun q hq => hps q (by simp [hq]))
    (by simp only [List.length_cons, List.length_replicate] at hk ⊢; omega)
    (by simp only [List.length_cons, List.length_replicate] at hk ⊢; omega)
  simp only [List.length_nil, Nat.zero_add] at hloop
  obtain ⟨init, lastp, l1, l2, l3, l4⟩ := param_last p ps 6
  have hcut : m ++ [61] ++ p ++ [if ps = [] then 59 else 0] ++ param_cut ps ++ 0 :: Z =
      (m ++ [61] ++ init) ++ lastp ++ 59 :: (0 :: Z) := by
    have := param_cut_cons p ps
    rw [l2] at this
    have e : m ++ [61] ++ p ++ [if ps = [] then 59 else 0] ++ param_cut ps ++ 0 :: Z =
        m ++ [61] ++ (p ++ (if ps = [] then 59 else 0) :: param_cut ps) ++ 0 :: Z := by
      simp [List.append_assoc]
    rw [e, ← this]
    simp [List.append_assoc]
  have hargs : [] ++ some 6 :: (param_ptrs
      (m ++ [61] ++ p ++ [if ps = [] then 59 else 0]).length ps ++
        none :: (List.replicate 5 none).drop (ps.length + 1)) =
      param_ptrs 6 (p :: ps) ++ none :: (List.replicate 5 none).drop (ps.length + 1) := by
    have : (m ++ [61] ++ p ++ [if ps = [] then 59 else 0]).length = 6 + p.length + 1 := by
      simp [hm]; omega
    rw [this]
    simp [param_ptrs]
  have hlast : (param_ptrs 6 (p :: ps) ++
      none :: (List.replicate 5 none).drop (ps.length + 1)).getD ps.length none =
      some (m ++ [61] ++ init).length := by
    have hl : ps.length < (param_ptrs 6 (p :: ps)).length := by
      rw [param_ptrs_length]; simp
    rw [List.getD_append _ _ _ _ hl, l3]
    simp [hm]; omega
  have hs3 := strtok_token (m ++ [61] ++ init) lastp (0 :: Z) 59 [59]
    (some (m ++ [61] ++ p ++ [if ps = [] then 59 else 0] ++ param_cut ps).length)
    (some (m ++ [61] ++ init).length)
    (hps lastp l1).1
    (by
      intro x hx
      have := (hps lastp l1).2 x hx
      simp [this.1, this.2.2])
    (Or.inr (by simp)) (Or.inl rfl)
  have d59 : ¬ ((59 : uchar) = 0) := by decide
  simp only [d59, if_false] at hs3
  have hset : (param_ptrs 6 (p :: ps) ++
      none :: (List.replicate 5 none).drop (ps.length + 1)).set ps.length
        (some (m ++ [61] ++ init).length) =
      param_ptrs 6 (p :: ps) ++ none :: (List.replicate 5 none).drop (ps.length + 1) := by
    apply set_same _ _ _ hlast
    simp [param_ptrs_length]; omega
  refine ⟨Z, none :: (List.replicate 5 none).drop (ps.length + 1), ?_⟩
  have d1 : ¬ ((61 : uchar) = 59) := by decide
  unfold get_cmd_param
  rw [h5, if_neg d1, if_neg (by simp), hb]
  simp only [hs1, hst1, hloop, hargs, hcut]
  have hc : ¬ (ps.length + 1 = 0) := by omega
  have hc1 : ps.length + 1 - 1 = ps.length := by simp
  rw [if_neg hc, hc1, hlast]
  simp only [hs3, hset]
  have hbuf : m ++ [61] ++ init ++ lastp ++ 0 :: 0 :: Z =
      m ++ [61] ++ (p :: ps).flatMap (fun q => q ++ [0]) ++ 0 :: Z := by
    rw [← l4]; simp [List.append_assoc]
  rw [hbuf]
  simp


theorem ATcmd_mnemonic_bytes : ∀ e ∈ ATcmd,
    e.take 5 = [65, 84, 43, e.getD 3 0, e.getD 4 0] ∧
    (e.getD 3 0 ≠ 0 ∧ e.getD 3 0 ≠ 10 ∧ e.getD 3 0 ≠ 59) ∧
    (e.getD 4 0 ≠ 0 ∧ e.getD 4 0 ≠ 10 ∧ e.getD 4 0 ≠ 59) := by
  decide!

theorem param_text_body (p : List uchar) (ps : List (List uchar))
    (hps : ∀ q ∈ p :: ps, ∀ x ∈ q, x ≠ 0 ∧ x ≠ 10 ∧ x ≠ 59) :
    ∃ body, param_text (p :: ps) = body ++ [59] ∧ (59 : uchar) ∉ body ∧
      ∀ b ∈ body, b ≠ 0 ∧ b ≠ 10 := by
  induction ps generalizing p with
  | nil =>
    refine ⟨p, by simp [param_text], ?_, ?_⟩
    · intro h; exact (hps p (by simp) 59 h).2.2 rfl
    · intro b hb; exact ⟨(hps p (by simp) b hb).1, (hps p (by simp) b hb).2.1⟩
  | cons q qs ih =>
    obtain ⟨body, e, h1, h2⟩ := ih q (fun r hr => hps r (by simp [hr]))
    refine ⟨p ++ 44 :: body, by simp [param_text, e], ?_, ?_⟩
    · intro h
      rw [List.mem_append, List.mem_cons] at h
      rcases h with h | h | h
      · exact (hps p (by simp) 59 h).2.2 rfl
      · exact absurd h (by decide)
      · exact h1 h
    · intro b hb
      rw [List.mem_append, List.mem_cons] at hb
      rcases hb with hb | hb | hb
      · exact ⟨(hps p (by simp) b hb).1, (hps p (by simp) b hb).2.1⟩
      · subst hb; decide
      · exact h2 b hb

theorem without_noise_clean (body : List uchar) (h : ∀ b ∈ body, b ≠ 0 ∧ b ≠ 10) :
    without_noise body = body := by
  unfold without_noise
  rw [List.filter_eq_self]
  intro b hb
  simpa using h b hb

/-- A well-formed command received from the freshly initialised state is
assembled as it is. -/
theorem assemble_command (g0 : Board) (i : Nat) (ps : List (List uchar))
    (hi : i < MAX_ATCMD_NUM)
    (ha : g0.at_command = object_ATcmd_init) (hq : Holds g0.usart1.rx_buffer [])
    (hps : ∀ p ∈ ps, ∀ x ∈ p, x ≠ 0 ∧ x ≠ 10 ∧ x ≠ 59)
    (hfit : (command_text ((ATcmd.getD i []).take 5) ps).length ≤ ATCMD_BUFFER_SIZE) :
    ∃ g1, feed_stream g0 (command_text ((ATcmd.getD i []).take 5) ps) = some g1 ∧
      g1.at_command =
        { buf := holding (command_text ((ATcmd.getD i []).take 5) ps)
          new_position := (command_text ((ATcmd.getD i []).take 5) ps).length
          status := .complete } := by
  obtain ⟨hm, hx, hy⟩ := ATcmd_mnemonic_bytes _ (ATcmd_getD_mem i hi)
  generalize (ATcmd.getD i []).getD 3 0 = x at hm hx hy
  generalize (ATcmd.getD i []).getD 4 0 = y at hm hx hy
  rw [hm] at hfit ⊢
  obtain ⟨body, hbody, hterm, hclean⟩ : ∃ body,
      command_text [65, 84, 43, x, y] ps = [65, 84, 43] ++ body ++ [59] ∧
      (59 : uchar) ∉ body ∧ ∀ b ∈ body, b ≠ 0 ∧ b ≠ 10 := by
    cases ps with
    | nil =>
      refine ⟨[x, y], by simp [command_text], ?_, ?_⟩
      · intro h
        simp only [List.mem_cons, List.mem_singleton, List.not_mem_nil, or_false] at h
        rcases h with h | h
        · exact hx.2.2 h.symm
        · exact hy.2.2 h.symm
      · intro b hb
        simp only [List.mem_cons, List.mem_singleton, List.not_mem_nil, or_false] at hb
        rcases hb with hb | hb
        · subst hb; exact ⟨hx.1, hx.2.1⟩
        · subst hb; exact ⟨hy.1, hy.2.1⟩
    | cons p ps =>
      obtain ⟨pb, e, h1, h2⟩ := param_text_body p ps hps
      refine ⟨[x, y] ++ 61 :: pb, by simp [command_text, e], ?_, ?_⟩
      · intro h
        simp only [List.cons_append, List.nil_append, List.mem_cons] at h
        rcases h with h | h | h | h
        · exact hx.2.2 h.symm
        · exact hy.2.2 h.symm
        · exact absurd h (by decide)
        · exact h1 h
      · intro b hb
        simp only [List.cons_append, List.nil_append, List.mem_cons] at hb
        rcases hb with hb | hb | hb | hb
        · subst hb; exact ⟨hx.1, hx.2.1⟩
        · subst hb; exact ⟨hy.1, hy.2.1⟩
        · subst hb; decide
        · exact h2 b hb
  have hwn := without_noise_clean body hclean
  rw [hbody] at hfit ⊢
  have hfit2 : 3 + (without_noise body).length + 1 ≤ ATCMD_BUFFER_SIZE := by
    rw [hwn]; simp at hfit; omega
  obtain ⟨g1, e1, a1⟩ := assemble_from_clean g0 body ha hq hterm hfit2
  refine ⟨g1, e1, ?_⟩
  rw [a1, hwn]
  simp
  omega


theorem holding_command_take (m : List uchar) (ps : List (List uchar)) (hm : m.length = 5) :
    (holding (command_text m ps)).take 5 = m := by
  obtain ⟨rest, e⟩ : ∃ rest, holding (command_text m ps) = m ++ rest := by
    cases ps with
    | nil => exact ⟨_, by simp only [holding, command_text, List.append_assoc]; rfl⟩
    | cons p ps => exact ⟨_, by simp only [holding, command_text, List.append_assoc]; rfl⟩
  rw [e]
  exact List.take_left' hm

/-- The tokenizer on an assembled well-formed command: the count is the number
of parameters and the strings handed over are the parameters. -/
theorem get_cmd_param_of_command (at_cmd : ATcmd_buffer) (m : List uchar)
    (ps : List (List uchar)) (hm : m.length = 5)
    (hb : at_cmd.buf = holding (command_text m ps))
    (hfit : (command_text m ps).length < ATCMD_BUFFER_SIZE)
    (hps : ∀ q ∈ ps, q ≠ [] ∧ ∀ x ∈ q, x ≠ 0 ∧ x ≠ 44 ∧ x ≠ 59)
    (hk : ps.length ≤ 5) :
    ∃ at_cmd2 args, get_cmd_param at_cmd (List.replicate 6 none) =
        some ((ps.length : Int), at_cmd2, args) ∧
      argv_of at_cmd2.buf args (ps.length : Int) = ps.map some := by
  cases ps with
  | nil =>
    have h5 : at_cmd.buf.getD 5 0 = 59 := by
      rw [hb, holding_getD]
      have := getD_length_append m [] 59
      rw [hm] at this
      simpa [command_text] using this
    refine ⟨at_cmd, List.replicate 6 none, ?_, ?_⟩
    · unfold get_cmd_param
      rw [if_pos h5]
      rfl
    · rfl
  | cons p ps =>
    obtain ⟨Z, tail, e⟩ := get_cmd_param_tokens at_cmd m p ps hm hb hfit hps hk
    refine ⟨_, _, e, ?_⟩
    unfold argv_of
    have ht : (param_ptrs 6 (p :: ps) ++ tail).take ((p :: ps).length : Int).toNat =
        param_ptrs 6 (p :: ps) := by
      have : ((p :: ps).length : Int).toNat = (param_ptrs 6 (p :: ps)).length := by
        rw [param_ptrs_length]; simp
      rw [this, List.take_left']
      rfl
    rw [ht]
    have h6 : (m ++ [61]).length = 6 := by simp [hm]
    have := argv_of_param_ptrs (p :: ps) (m ++ [61]) (0 :: Z)
      (fun q hq x hx => ((hps q hq).2 x hx).1)
    rw [h6] at this
    exact this

/-- C24, as amended. For every row `i` of the table and at most five
parameters, each non-empty and free of NUL, newline, comma and terminator,
whose command `AT+<code>;` or `AT+<code>=p1,...,pk;` is shorter than the
200-byte buffer: fed one byte per `get_cmd` call from the freshly initialised
command buffer with an empty receive ring, the command is complete after its
terminator, and the following `execute` returns 0 and makes exactly the call
`action_array i` on the strings `p1` ... `pk` and the count `k`; the serial
and display state is the one that call returns and the command buffer is
again as `object_ATcmd_init` set it. -/
theorem well_formed_command_is_dispatched {L : Type} (action_array : Int → func_t L)
    (g0 : Board) (lcd : L) (i : Nat) (ps : List (List uchar))
    (hi : i < MAX_ATCMD_NUM)
    (ha : g0.at_command = object_ATcmd_init) (hq : Holds g0.usart1.rx_buffer [])
    (hk : ps.length ≤ 5)
    (hps : ∀ p ∈ ps, p ≠ [] ∧ ∀ x ∈ p, x ≠ 0 ∧ x ≠ 10 ∧ x ≠ 44 ∧ x ≠ 59)
    (hfit : (command_text ((ATcmd.getD i []).take 5) ps).length < ATCMD_BUFFER_SIZE) :
    ∃ g1 r, feed_stream g0 (command_text ((ATcmd.getD i []).take 5) ps) = some g1 ∧
      g1.at_command.status = .complete ∧
      execute_a_cmd action_array g1 lcd = some r ∧
      r.ret = 0 ∧
      r.invoked = some { slot := (i : Int), argv := ps.map some, arg_num := (ps.length : Int) } ∧
      (r.board.usart1, r.board.USART1, r.lcd) =
        action_array (i : Int) (ps.map some) (ps.length : Int) (g1.usart1, g1.USART1, lcd) ∧
      r.board.at_command = object_ATcmd_init := by
  obtain ⟨g1, e1, a1⟩ := assemble_command g0 i ps hi ha hq
    (fun p hp x hx => ⟨((hps p hp).2 x hx).1, ((hps p hp).2 x hx).2.1, ((hps p hp).2 x hx).2.2.2⟩)
    (Nat.le_of_lt hfit)
  have hrow := ATcmd_rows.2 _ (ATcmd_getD_mem i hi)
  have hm : ((ATcmd.getD i []).take 5).length = 5 := by
    rw [List.length_take]; omega
  have hst : g1.at_command.status = .complete := by rw [a1]
  have hb : g1.at_command.buf = holding (command_text ((ATcmd.getD i []).take 5) ps) := by
    rw [a1]
  have htake : g1.at_command.buf.take 5 = (ATcmd.getD i []).take 5 := by
    rw [hb]
    exact holding_command_take _ ps hm
  have hidx : get_cmd_index g1.at_command = (i : Int) := get_cmd_index_of_row _ i hi htake
  have hidx2 : ¬ ((i : Int) = -1) := by omega
  obtain ⟨at_cmd2, args, hpar, hargv⟩ := get_cmd_param_of_command g1.at_command _ ps hm hb hfit
    (fun p hp => ⟨(hps p hp).1, fun x hx =>
      ⟨((hps p hp).2 x hx).1, ((hps p hp).2 x hx).2.2.1, ((hps p hp).2 x hx).2.2.2⟩⟩) hk
  have harg : ¬ ((ps.length : Int) = -1) := by omega
  have he : execute_a_cmd action_array g1 lcd =
      some { ret := 0
             board := { usart1 := (action_array (i : Int) (ps.map some) (ps.length : Int)
                          (g1.usart1, g1.USART1, lcd)).1
                        USART1 := (action_array (i : Int) (ps.map some) (ps.length : Int)
                          (g1.usart1, g1.USART1, lcd)).2.1
                        at_command := clean_cmd_buf at_cmd2 }
             lcd := (action_array (i : Int) (ps.map some) (ps.length : Int)
                          (g1.usart1, g1.USART1, lcd)).2.2
             invoked := some { slot := (i : Int), argv := ps.map some,
                               arg_num := (ps.length : Int) } } := by
    simp only [execute_a_cmd, hst, hidx, hidx2, hpar, harg, hargv, if_true, if_false]
  have hinv : AsmInv g1 := by
    refine ⟨fun h => absurd hst h, _, hb, ?_, Nat.le_of_lt hfit⟩
    rw [a1]
  have hreset := execute_resets action_array g1 lcd _ hinv hst he
  exact ⟨g1, _, e1, hst, he, rfl, rfl, rfl, hreset⟩


/-- The amended C24 on `AT+cs;` (row 10, no parameter) and on `AT+fs=200,23;`
(row 11, the strings `200` and `23`). -/
theorem well_formed_command_is_dispatched_witness :
    command_text ((ATcmd.getD 10 []).take 5) [] = c_str "AT+cs;" ∧
    (∃ g1 r, feed_stream main_init (command_text ((ATcmd.getD 10 []).take 5) []) = some g1 ∧
      g1.at_command.status = .complete ∧
      execute_a_cmd (fun _ _ _ w => w) g1 () = some r ∧ r.ret = 0 ∧
      r.invoked = some { slot := 10, argv := [], arg_num := 0 } ∧
      r.board.at_command.status = .not_start) ∧
    command_text ((ATcmd.getD 11 []).take 5) [c_str "200", c_str "23"] =
      c_str "AT+fs=200,23;" ∧
    (∃ g1 r, feed_stream main_init
        (command_text ((ATcmd.getD 11 []).take 5) [c_str "200", c_str "23"]) = some g1 ∧
      g1.at_command.status = .complete ∧
      execute_a_cmd (fun _ _ _ w => w) g1 () = some r ∧ r.ret = 0 ∧
      r.invoked = some { slot := 11, argv := [some (c_str "200"), some (c_str "23")],
                         arg_num := 2 } ∧
      r.board.at_command.status = .not_start) :=
  ⟨by decide!,
   (well_formed_command_is_dispatched (fun _ _ _ w => w) main_init () 10 []
      (by decide) rfl Holds.init (by decide) (by decide!) (by decide!)).imp
    (fun _ h => h.imp (fun _ k =>
      ⟨k.1, k.2.1, k.2.2.1, k.2.2.2.1, k.2.2.2.2.1, by rw [k.2.2.2.2.2.2]; rfl⟩)),
   by decide!,
   (well_formed_command_is_dispatched (fun _ _ _ w => w) main_init () 11
      [c_str "200", c_str "23"]
      (by decide) rfl Holds.init (by decide) (by decide!) (by decide!)).imp
    (fun _ h => h.imp (fun _ k =>
      ⟨k.1, k.2.1, k.2.2.1, k.2.2.2.1, k.2.2.2.2.1, by rw [k.2.2.2.2.2.2]; rfl⟩))⟩

/-- C24 fails as stated. With six parameters, which the claim allows, the
command `AT+fs=1,2,3,4,5,6;` is assembled and its mnemonic found, but
`execute` has no defined result: the tokenizer stores outside `char *args[6]`.
A parameter may hold a newline and still be non-empty and free of comma and
terminator: `AT+fs=2`, newline, `3;` calls slot 11 with the string `23`.  And
a parameter of 200 bytes makes a `get_cmd` call store outside the buffer. -/
theorem well_formed_commands_outside_the_limits :
    ((feed_stream main_init (c_str "AT+fs=1,2,3,4,5,6;")).map
        (fun g => (g.at_command.status, get_cmd_index g.at_command)) =
      some (.complete, 11) ∧
     (feed_stream main_init (c_str "AT+fs=1,2,3,4,5,6;")).bind (fun g =>
        (execute_a_cmd (fun _ _ _ w => w) g ()).map (fun r => (r.ret, r.invoked))) = none) ∧
    (feed_stream main_init (c_str "AT+fs=2\n3;")).bind (fun g =>
        (execute_a_cmd (fun _ _ _ w => w) g ()).map (fun r => (r.ret, r.invoked))) =
      some (0, some { slot := 11, argv := [some (c_str "23")], arg_num := 1 }) ∧
    feed_stream main_init (c_str "AT+fs=" ++ List.replicate 200 49 ++ [59]) = none := by
  refine ⟨⟨by decide!, by decide!⟩, by decide!, by decide!⟩

/-! ## Numbers and colours -/

theorem c_string_of_cons (p : uchar) (rest : List uchar) :
    c_string_of (p :: rest) = if p = 0 then [] else p :: c_string_of rest := by
  unfold c_string_of
  by_cases h : p = 0 <;> simp [List.takeWhile_cons, h]

theorem digit_characters_cons (p : uchar) (rest : List uchar) :
    digit_characters (p :: rest) =
      if p = 0 then []
      else if 47 < p.val ∧ p.val < 58 then (p.val - 48) :: digit_characters rest
      else digit_characters rest := by
  unfold digit_characters
  rw [c_string_of_cons]
  by_cases h : p = 0
  · simp [h]
  · by_cases hd : 47 < p.val ∧ p.val < 58
    · have hd2 : 48 ≤ p.val ∧ p.val ≤ 57 := by omega
      simp [h, hd, hd2, List.filter_cons]
    · have hd2 : ¬ (48 ≤ p.val ∧ p.val ≤ 57) := by omega
      simp [h, hd, hd2, List.filter_cons]

theorem str_to_uint_loop_spec (s : List uchar) : ∀ (num acc : Nat), num = acc % 2 ^ 32 →
    str_to_uint_loop s num =
      (digit_characters s).foldl (fun n d => 10 * n + d) acc % 2 ^ 32 := by
  induction s with
  | nil => intro num acc h; simpa [str_to_uint_loop, digit_characters, c_string_of] using h
  | cons p rest ih =>
    intro num acc h
    rw [digit_characters_cons, str_to_uint_loop]
    by_cases h0 : p = 0
    · simp [h0, h]
    · by_cases hd : 47 < p.val ∧ p.val < 58
      · simp only [h0, hd, if_false, if_true, and_self, List.foldl_cons]
        apply ih
        simp only [Nat.shiftLeft_eq]
        norm_num
        omega
      · simp only [h0, hd, if_false]
        exact ih num acc h

/-- C32. For every string, `str_to_uint` returns the base-10 value of the
digit characters that stand before the first NUL, taken in order and with every
other byte skipped, modulo 2^32.  So ` 1 2 3` gives 123, a string of digits its
decimal value modulo 2^32 (4294967296 gives 0), and a string without digits
gives 0; nothing after a NUL counts. -/
theorem str_to_uint_is_decimal_value (str : List uchar) :
    str_to_uint str = base10_value (digit_characters str) % 2 ^ 32 ∧
    str_to_uint (c_str " 1 2 3") = 123 ∧
    str_to_uint (c_str "0123 456789") = 123456789 ∧
    str_to_uint (c_str "4294967295") = 4294967295 ∧
    str_to_uint (c_str "4294967296") = 0 ∧
    str_to_uint (c_str "99999999999") = 99999999999 % 2 ^ 32 ∧
    str_to_uint (c_str "12" ++ [0] ++ c_str "34") = 12 ∧
    str_to_uint (c_str "x,-y") = 0 ∧
    str_to_uint [] = 0 := by
  refine ⟨str_to_uint_loop_spec str 0 0 (by norm_num), by decide!, by decide!, by decide!,
    by decide!, by decide!, by decide!, by decide!, by decide!⟩


theorem and_mask_low (r m : Nat) (hm : m &&& 255 = m) : r &&& m = (r % 256) &&& m := by
  have h := Nat.and_pow_two_sub_one_eq_mod r 8
  norm_num at h
  rw [← h, Nat.and_assoc]
  have : 255 &&& m = m := by rw [Nat.and_comm]; exact hm
  rw [this]

theorem red_field : ∀ r, r < 256 → (r &&& 248) <<< 8 = 2 ^ 11 * (r / 8) := by decide!

theorem green_field : ∀ g, g < 256 → (g &&& 252) <<< 3 = 2 ^ 5 * (g / 4) := by decide!

theorem blue_field : ∀ b, b < 256 → (b &&& 248) >>> 3 = b / 8 := by decide!

/-- The expression of `RGB_to_color` in arithmetic: only the low eight bits of
each argument count; the top five bits of red, the top six of green and the
top five of blue are laid side by side. -/
theorem RGB_expression_eq (r g b : Nat) :
    (((r &&& 248) <<< 8) ||| ((g &&& 252) <<< 3)) ||| ((b &&& 248) >>> 3) =
      (r % 256 / 8) * 2048 + (g % 256 / 4) * 32 + b % 256 / 8 := by
  have hr := red_field (r % 256) (Nat.mod_lt _ (by norm_num))
  have hg := green_field (g % 256) (Nat.mod_lt _ (by norm_num))
  have hb := blue_field (b % 256) (Nat.mod_lt _ (by norm_num))
  have hb5 : b % 256 / 8 < 2 ^ 5 := by norm_num; omega
  have hg11 : 2 ^ 5 * (g % 256 / 4) + b % 256 / 8 < 2 ^ 11 := by norm_num; omega
  rw [and_mask_low r 248 (by decide), and_mask_low g 252 (by decide),
    and_mask_low b 248 (by decide), hr, hg, hb, Nat.or_assoc,
    ← Nat.mul_add_lt_is_or hb5, ← Nat.mul_add_lt_is_or hg11]
  norm_num
  omega

theorem RGB_to_color_eq (r g b : Nat) :
    RGB_to_color r g b = (r % 256 / 8) * 2048 + (g % 256 / 4) * 32 + b % 256 / 8 := by
  unfold RGB_to_color
  rw [RGB_expression_eq]
  norm_num
  omega

/-- C33. For all arguments `RGB_to_color` is below 65536 and equals
`((r & 0xF8) << 8) | ((g & 0xFC) << 3) | ((b & 0xF8) >> 3)` (the reduction to
32 bits changes nothing).  In arithmetic it is the top five bits of the low
byte of `r` times 2048, plus the top six bits of the low byte of `g` times 32,
plus the top five bits of the low byte of `b`; the three fields do not
overlap: each is read back by division and remainder.  For arguments in
0..255 this is `(r>>3)*2048 + (g>>2)*32 + (b>>3)`. -/
theorem RGB_to_color_packs_565 (r g b : Nat) :
    RGB_to_color r g b < 65536 ∧
    RGB_to_color r g b =
      (((r &&& 0xF8) <<< 8) ||| ((g &&& 0xFC) <<< 3)) ||| ((b &&& 0xF8) >>> 3) ∧
    RGB_to_color r g b = (r % 256 / 8) * 2048 + (g % 256 / 4) * 32 + b % 256 / 8 ∧
    RGB_to_color r g b / 2048 = r % 256 / 8 ∧
    RGB_to_color r g b / 32 % 64 = g % 256 / 4 ∧
    RGB_to_color r g b % 32 = b % 256 / 8 ∧
    RGB_to_color (r % 256) (g % 256) (b % 256) =
      ((r % 256) >>> 3) * 2048 + ((g % 256) >>> 2) * 32 + ((b % 256) >>> 3) ∧
    RGB_to_color 255 255 255 = 65535 ∧ RGB_to_color 255 0 0 = 63488 ∧
    RGB_to_color 0 255 0 = 2016 ∧ RGB_to_color 0 0 255 = 31 ∧
    RGB_to_color 7 3 7 = 0 := by
  have e := RGB_to_color_eq r g b
  have e2 := RGB_to_color_eq (r % 256) (g % 256) (b % 256)
  refine ⟨?_, ?_, e, ?_, ?_, ?_, ?_, by decide!, by decide!, by decide!, by decide!,
    by decide!⟩
  · rw [e]; omega
  · rw [e]; exact (RGB_expression_eq r g b).symm
  · rw [e]; omega
  · rw [e]; omega
  · rw [e]; omega
  · rw [e2]
    simp only [Nat.shiftRight_eq_div_pow, Nat.mod_mod]

/-! ## The return value and the reads of `get_a_cmd` -/


/-- C31 on the code. From the initial state the call that reads `A` returns 0
and the status is still `not_start`; so does the call that reads `T` after
`A`.  The calls that read `+` after `AT`, `c` after `AT+`, and a newline after
`AT+c` return 0 with status `incomplete`: no complete command is held.  Only a
call that finds the receive ring empty returns -1 in status `incomplete`, and
the call that reads the terminator returns 0 with status `complete`. -/
theorem get_cmd_returns_zero_without_a_command :
    (feed main_init 65).map (fun r => (r.1, r.2.at_command.status)) =
      some (0, .not_start) ∧
    ((feed_stream main_init (c_str "A")).bind (fun g => feed g 84)).map
        (fun r => (r.1, r.2.at_command.status)) = some (0, .not_start) ∧
    ((feed_stream main_init (c_str "AT")).bind (fun g => feed g 43)).map
        (fun r => (r.1, r.2.at_command.status)) = some (0, .incomplete) ∧
    ((feed_stream main_init (c_str "AT+")).bind (fun g => feed g 99)).map
        (fun r => (r.1, r.2.at_command.status)) = some (0, .incomplete) ∧
    ((feed_stream main_init (c_str "AT+c")).bind (fun g => feed g 10)).map
        (fun r => (r.1, r.2.at_command.status)) = some (0, .incomplete) ∧
    ((feed_stream main_init (c_str "AT+c")).bind (fun g => get_a_cmd g)).map
        (fun r => (r.1, r.2.at_command.status)) = some (-1, .incomplete) ∧
    ((feed_stream main_init (c_str "AT+cs")).bind (fun g => feed g 59)).map
        (fun r => (r.1, r.2.at_command.status)) = some (0, .complete) := by
  refine ⟨by decide!, by decide!, by decide!, by decide!, by decide!, by decide!, by decide!⟩


theorem Serial1Read_rx (u : object_uart) (q : List uchar) (h : Holds u.rx_buffer q) :
    Holds (Serial1Read u).2.rx_buffer q.tail ∧ ((Serial1Read u).1 = -1 ↔ q = []) := by
  cases q with
  | nil =>
    rw [Holds.pop_empty h]
    exact ⟨h, by simp⟩
  | cons b q =>
    obtain ⟨p0, p1, _⟩ := Holds.pop h
    refine ⟨p1, ?_⟩
    rw [p0]
    simp [byte_value_ne_neg_one]

/-- A `get_cmd` call has a defined result while the cursor is inside the
buffer. -/
theorem get_a_cmd_defined (g : Board) (h : g.at_command.new_position < ATCMD_BUFFER_SIZE) :
    ∃ r, get_a_cmd g = some r := by
  have hadd : ∀ c, ∃ a, add_char_to_cmd_buf g.at_command c = some a := by
    intro c
    unfold add_char_to_cmd_buf
    rw [if_pos h]
    exact ⟨_, rfl⟩
  cases hst : g.at_command.status with
  | complete => exact ⟨(0, g), by simp [get_a_cmd, hst]⟩
  | not_start =>
    obtain ⟨a, ha⟩ := hadd (Serial1Read g.usart1).1
    simp only [get_a_cmd, hst, ha, Option.map_some']
    split_ifs <;> exact ⟨_, rfl⟩
  | incomplete =>
    obtain ⟨a, ha⟩ := hadd (Serial1Read g.usart1).1
    simp only [get_a_cmd, hst, ha]
    split_ifs <;> exact ⟨_, rfl⟩

/-- C39. With the receive ring holding the bytes `q`, a `get_cmd` call that
returns leaves it holding `q` in status `complete` and `q` without its first
byte otherwise: at most one byte is removed.  With the ring empty and a status
other than `complete` it returns -1 and changes nothing at all.  The call is a
total function of the state: it has a result whenever the cursor is inside the
buffer, whatever the ring holds. -/
theorem get_cmd_reads_at_most_one_byte (g : Board) (q : List uchar)
    (hq : Holds g.usart1.rx_buffer q) :
    (∀ r, get_a_cmd g = some r →
      Holds r.2.usart1.rx_buffer (if g.at_command.status = .complete then q else q.tail)) ∧
    (q = [] → g.at_command.status ≠ .complete → get_a_cmd g = some (-1, g)) ∧
    (g.at_command.new_position < ATCMD_BUFFER_SIZE → ∃ r, get_a_cmd g = some r) := by
  refine ⟨?_, ?_, get_a_cmd_defined g⟩
  · intro r hr
    have e := congrArg (fun p => p.1.rx_buffer) (get_a_cmd_serial g r hr)
    simp only at e
    rw [e]
    have hrd := (Serial1Read_rx g.usart1 q hq).1
    by_cases hc : g.at_command.status = .complete
    · have h1 : ¬ (g.at_command.status = .incomplete ∧ r.2.at_command.status = .complete ∧
          g.usart1.debug = 1) := by rw [hc]; simp
      rw [if_neg h1, if_pos hc, if_pos hc]
      exact hq
    · rw [if_neg hc]
      split_ifs
      · rw [(print_keeps_rx _ _ _).1, (print_keeps_rx _ _ _).1]; exact hrd
      · exact hrd
  · intro hq0 hst
    subst hq0
    have hrd := Holds.pop_empty hq
    cases hs : g.at_command.status with
    | complete => exact absurd hs hst
    | not_start => simp [get_a_cmd, hs, hrd]
    | incomplete => simp [get_a_cmd, hs, hrd]

/-- A `get_cmd` call on the initial state, after the stream `AT+c`, and with
the two bytes `AT` waiting in the ring. -/
theorem get_cmd_reads_at_most_one_byte_witness :
    get_a_cmd main_init = some (-1, main_init) ∧
    get_a_cmd ((feed_stream main_init (c_str "AT+c")).getD main_init) =
      some (-1, (feed_stream main_init (c_str "AT+c")).getD main_init) ∧
    (∃ r, get_a_cmd (receive_byte (receive_byte main_init 65) 84) = some r ∧
      Holds r.2.usart1.rx_buffer [84]) :=
  ⟨(get_cmd_reads_at_most_one_byte main_init [] Holds.init).2.1 rfl (by decide),
   (get_cmd_reads_at_most_one_byte _ []
      (holds_nil_of_empty _ (by decide!) (by decide!) (by decide!) (by decide!))).2.1 rfl
      (by decide!),
   ⟨Option.get _ (by decide! :
      (get_a_cmd (receive_byte (receive_byte main_init 65) 84)).isSome = true),
    (Option.some_get _).symm,
    (get_cmd_reads_at_most_one_byte (receive_byte (receive_byte main_init 65) 84) [65, 84]
      ⟨by decide!, by decide!, by decide!, by decide!, by decide!, by decide!⟩).1 _
      (Option.some_get _).symm⟩⟩

/-! ## Invariants of the command buffer -/


theorem Serial1Read_value (u : object_uart) :
    (Serial1Read u).1 = -1 ∨ ∃ b : uchar, (Serial1Read u).1 = byte_value b := by
  by_cases h : u.rx_buffer.status ≠ .empty
  · right
    exact ⟨u.rx_buffer.buffer.getD u.rx_buffer.tail 0, by simp [Serial1Read, h, byte_value]⟩
  · left
    simp [Serial1Read, h]

/-- `get_a_cmd` on any state that reads the byte `b`: it does to the buffer
what `asm_next` does to the text it holds. -/
theorem get_a_cmd_refines (g : Board) (b : uchar) (w : List uchar)
    (hb : g.at_command.buf = holding w) (hp : g.at_command.new_position = w.length)
    (hw : w.length ≤ ATCMD_BUFFER_SIZE)
    (hread : (Serial1Read g.usart1).1 = byte_value b) :
    match asm_next g.at_command.status w b with
    | none => get_a_cmd g = none
    | some (ret, st2, w2) =>
      ∃ g2, get_a_cmd g = some (ret, g2) ∧
        g2.at_command = { buf := holding w2, new_position := w2.length, status := st2 } := by
  have hb0 := holding_getD w 0
  have hb1 := holding_getD w 1
  rw [← hb] at hb0 hb1
  have hne := byte_value_ne_neg_one b
  have hadd := add_char_holding g.at_command w b hb hp
  cases hst : g.at_command.status with
  | complete =>
    refine ⟨g, ?_, ?_⟩
    · simp [get_a_cmd, hst]
    · rw [← hb, ← hp, ← hst]
  | not_start =>
    have hcl := clean_holding g.at_command w hb hp hw
    simp only [asm_next, get_a_cmd, hst, hread, ne_eq, hne, not_false_eq_true, if_true,
      to_uchar_byte_value, hadd, hcl, hb0, hb1]
    split_ifs <;> simp_all
  | incomplete =>
    simp only [asm_next, get_a_cmd, hst, hread, ne_eq, hne, not_false_eq_true, if_true,
      to_uchar_byte_value, hadd]
    by_cases hn : b ≠ 0 ∧ b ≠ 10
    · by_cases hl : w.length < ATCMD_BUFFER_SIZE
      · by_cases hc : b = 59
        · subst hc
          have d1 : ¬ ((59 : uchar) = 0) := by decide
          have d2 : ¬ ((59 : uchar) = 10) := by decide
          simp only [d1, d2, hl, if_true, ne_eq, not_false_eq_true, and_self]
          split_ifs <;> simp [hst]
        · simp only [hn, hl, hc, if_true, if_false, ne_eq, not_false_eq_true, and_self]
          simp [hst]
      · simp [hn, hl]
    · simp only [hn, if_false]
      refine ⟨_, rfl, ?_⟩
      rw [← hb, ← hp, ← hst]

/-- `get_a_cmd` on a state whose receive ring gives no byte leaves the command
as it is. -/
theorem get_a_cmd_no_byte (g : Board) (r : Int × Board)
    (hread : (Serial1Read g.usart1).1 = -1) (hr : get_a_cmd g = some r) :
    r.2.at_command = g.at_command := by
  cases hst : g.at_command.status with
  | complete =>
    simp only [get_a_cmd, hst, Option.some.injEq] at hr
    subst hr; rfl
  | not_start =>
    simp only [get_a_cmd, hst, hread, ne_eq, not_true_eq_false, if_false,
      Option.some.injEq] at hr
    subst hr; rfl
  | incomplete =>
    simp only [get_a_cmd, hst, hread, ne_eq, not_true_eq_false, if_false,
      Option.some.injEq] at hr
    subst hr; rfl

/-- One step of the assembler keeps the shape of the text. -/
theorem asm_next_shape (st st2 : ATCMD_BUFFER_STATUS) (w w2 : List uchar) (b : uchar)
    (ret : Int) (hn : asm_next st w b = some (ret, st2, w2))
    (hnz : ∀ x ∈ w, x ≠ 0)
    (h1 : st ≠ .complete → (59 : uchar) ∉ w)
    (h2 : st = .complete → ∃ w0, w = w0 ++ [59] ∧ (59 : uchar) ∉ w0) :
    (∀ x ∈ w2, x ≠ 0) ∧ (st2 ≠ .complete → (59 : uchar) ∉ w2) ∧
    (st2 = .complete → ∃ w0, w2 = w0 ++ [59] ∧ (59 : uchar) ∉ w0) := by
  unfold asm_next at hn
  cases st with
  | complete =>
    simp only [Option.some.injEq, Prod.mk.injEq] at hn
    obtain ⟨_, rfl, rfl⟩ := hn
    exact ⟨hnz, h1, h2⟩
  | not_start =>
    have h59 := h1 (by simp)
    simp only at hn
    have hcase : st2 ≠ .complete ∧
        (w2 = [] ∨ (w2 = w ++ [b] ∧ (b = 65 ∨ b = 84 ∨ b = 43))) := by
      split_ifs at hn with c1 c2 c3 c4 c5 c6 c7 <;>
        simp only [Option.some.injEq, Prod.mk.injEq, reduceCtorEq] at hn <;>
        obtain ⟨_, rfl, rfl⟩ := hn <;> simp_all
    obtain ⟨hs2, hw2⟩ := hcase
    refine ⟨?_, ?_, fun hc => absurd hc hs2⟩
    · rcases hw2 with rfl | ⟨rfl, hb⟩
      · intro x hx; simp at hx
      · intro x hx
        simp only [List.mem_append, List.mem_singleton] at hx
        rcases hx with hx | hx
        · exact hnz x hx
        · subst hx
          rcases hb with rfl | rfl | rfl <;> decide
    · intro _
      rcases hw2 with rfl | ⟨rfl, hb⟩
      · simp
      · intro hm
        simp only [List.mem_append, List.mem_singleton] at hm
        rcases hm with hm | hm
        · exact h59 hm
        · subst hm
          rcases hb with hb | hb | hb <;> exact absurd hb (by decide)
  | incomplete =>
    have h59 := h1 (by simp)
    simp only at hn
    by_cases hnn : b ≠ 0 ∧ b ≠ 10
    · by_cases hl : w.length < ATCMD_BUFFER_SIZE
      · simp only [hnn, hl, if_true, ne_eq, not_false_eq_true, and_self, Option.some.injEq,
          Prod.mk.injEq] at hn
        obtain ⟨_, rfl, rfl⟩ := hn
        refine ⟨?_, ?_, ?_⟩
        · intro x hx
          simp only [List.mem_append, List.mem_singleton] at hx
          rcases hx with hx | hx
          · exact hnz x hx
          · subst hx; exact hnn.1
        · intro hc hm
          by_cases hb : b = 59
          · simp [hb] at hc
          · simp only [List.mem_append, List.mem_singleton] at hm
            rcases hm with hm | hm
            · exact h59 hm
            · exact hb hm.symm
        · intro hc
          by_cases hb : b = 59
          · exact ⟨w, by rw [hb], h59⟩
          · simp [hb] at hc
      · simp [hnn, hl] at hn
    · simp only [hnn, if_false, Option.some.injEq, Prod.mk.injEq] at hn
      obtain ⟨_, rfl, rfl⟩ := hn
      exact ⟨hnz, fun _ => h59, fun hc => absurd hc (by simp)⟩


theorem CmdInv.at_start : CmdInv object_ATcmd_init := by
  refine ⟨[], ?_, rfl, by simp, by simp, by simp, ?_⟩
  · rw [holding_nil]; rfl
  · intro h; exact absurd h (by simp [object_ATcmd_init])

theorem CmdInv.get_a_cmd {g : Board} (h : CmdInv g.at_command) (r : Int × Board)
    (hr : get_a_cmd g = some r) : CmdInv r.2.at_command := by
  rcases Serial1Read_value g.usart1 with hread | ⟨b, hread⟩
  · rw [get_a_cmd_no_byte g r hread hr]; exact h
  · obtain ⟨w, hb, hp, hw, hnz, h1, h2⟩ := h
    have k := get_a_cmd_refines g b w hb hp hw hread
    cases hn : asm_next g.at_command.status w b with
    | none => simp only [hn] at k; rw [k] at hr; cases hr
    | some t =>
      obtain ⟨ret, st2, w2⟩ := t
      simp only [hn] at k
      obtain ⟨g2, e, ha⟩ := k
      rw [e] at hr
      cases hr
      obtain ⟨s1, s2, s3⟩ := asm_next_shape _ _ _ _ _ _ hn hnz h1 h2
      refine ⟨w2, ?_, ?_, asm_next_length _ _ _ _ _ _ hn hw, s1, ?_, ?_⟩
      · simp only [ha]
      · simp only [ha]
      · simp only [ha]; exact s2
      · simp only [ha]; exact s3

theorem CmdInv.execute {L : Type} (action_array : Int → func_t L) {g : Board} (lcd : L)
    (h : CmdInv g.at_command) (r : Executed L)
    (he : execute_a_cmd action_array g lcd = some r) :
    CmdInv r.board.at_command ∧
    (g.at_command.status = .complete → r.board.at_command = object_ATcmd_init) := by
  by_cases hst : g.at_command.status = .complete
  · obtain ⟨w, hb, hp, hw, _⟩ := h
    have hinv : AsmInv g := ⟨fun hne => absurd hst hne, w, hb, hp, hw⟩
    have e := execute_resets action_array g lcd r hinv hst he
    exact ⟨by rw [e]; exact CmdInv.at_start, fun _ => e⟩
  · simp only [execute_a_cmd, hst, if_false, Option.some.injEq] at he
    subst he
    exact ⟨h, fun hc => absurd hc hst⟩

theorem CmdInv.main_step {L : Type} (action_array : Int → func_t L) (s s2 : Board × L)
    (e : Event) (h : CmdInv s.1.at_command) (hs : main_step action_array s e = some s2) :
    CmdInv s2.1.at_command := by
  cases e with
  | interrupt rxne txe =>
    simp only [SerialLCD.main_step, Option.some.injEq] at hs
    subst hs
    exact h
  | get_cmd =>
    simp only [SerialLCD.main_step, Option.map_eq_some'] at hs
    obtain ⟨r, hr, rfl⟩ := hs
    exact h.get_a_cmd r hr
  | execute =>
    simp only [SerialLCD.main_step, Option.map_eq_some'] at hs
    obtain ⟨r, hr, rfl⟩ := hs
    exact (h.execute action_array s.2 r hr).1

theorem CmdInv.main_run {L : Type} (action_array : Int → func_t L) (events : List Event) :
    ∀ (s s2 : Board × L), CmdInv s.1.at_command →
    main_run action_array s events = some s2 → CmdInv s2.1.at_command := by
  induction events with
  | nil =>
    intro s s2 h hr
    simp only [SerialLCD.main_run, Option.some.injEq] at hr
    subst hr; exact h
  | cons e es ih =>
    intro s s2 h hr
    simp only [SerialLCD.main_run] at hr
    cases hm : SerialLCD.main_step action_array s e with
    | none => simp [hm] at hr
    | some s1 =>
      simp only [hm] at hr
      exact ih s1 s2 (CmdInv.main_step action_array s s1 e h hm) hr

theorem holding_getD_beyond (w : List uchar) (i : Nat) (h : w.length ≤ i) :
    (holding w).getD i 0 = 0 := by
  rw [holding_getD]
  exact List.getD_eq_default _ _ h

/-- C36. In every state reached from program start by interrupts, `get_cmd`
calls and `execute` calls (as long as each call has a defined result, so no
store left the buffer), the buffer has its 200 bytes, the cursor is at most
200 and every byte at an index from the cursor on is NUL.  Hence
`clean_cmd_buf`, which only overwrites the bytes below the cursor, leaves the
command exactly as `object_ATcmd_init` set it (all 200 bytes NUL, cursor 0,
status `not_start`), and so does every `execute` on a complete command. -/
theorem buffer_is_clean_beyond_the_cursor {L : Type} (action_array : Int → func_t L)
    (lcd : L) (events : List Event) (s : Board × L)
    (hrun : main_run action_array (main_init, lcd) events = some s) :
    s.1.at_command.buf.length = ATCMD_BUFFER_SIZE ∧
    s.1.at_command.new_position ≤ ATCMD_BUFFER_SIZE ∧
    (∀ i, s.1.at_command.new_position ≤ i → s.1.at_command.buf.getD i 0 = 0) ∧
    clean_cmd_buf s.1.at_command = object_ATcmd_init ∧
    (s.1.at_command.status = .complete →
      ∀ r, execute_a_cmd action_array s.1 s.2 = some r →
        r.board.at_command = object_ATcmd_init) := by
  have hinv := CmdInv.main_run action_array events (main_init, lcd) s CmdInv.at_start hrun
  obtain ⟨w, hb, hp, hw, _⟩ := hinv.text
  refine ⟨?_, ?_, ?_, clean_is_init _ w hb hp hw, ?_⟩
  · rw [hb]; exact holding_length w hw
  · rw [hp]; exact hw
  · intro i hi
    rw [hb]
    exact holding_getD_beyond w i (by rw [← hp]; exact hi)
  · intro hst r hr
    exact (hinv.execute action_array s.2 r hr).2 hst


/-- The state after the bytes of `AT+cs;`, each followed by a `get_cmd` call. -/
theorem buffer_is_clean_beyond_the_cursor_witness :
    ∃ s, main_run (fun _ _ _ w => w) (main_init, ())
        ((c_str "AT+cs;").flatMap (fun c => [Event.interrupt (some c) false, Event.get_cmd])) =
        some s ∧
      s.1.at_command.status = .complete ∧ s.1.at_command.new_position = 6 ∧
      s.1.at_command.buf.length = ATCMD_BUFFER_SIZE ∧
      s.1.at_command.buf.getD 6 0 = 0 ∧
      clean_cmd_buf s.1.at_command = object_ATcmd_init :=
  ⟨Option.get _ (by decide! :
      (main_run (fun _ _ _ w => w) (main_init, ())
        ((c_str "AT+cs;").flatMap
          (fun c => [Event.interrupt (some c) false, Event.get_cmd]))).isSome = true),
    (Option.some_get _).symm, by decide!, by decide!,
    (buffer_is_clean_beyond_the_cursor (fun _ _ _ w => w) ()
      ((c_str "AT+cs;").flatMap (fun c => [Event.interrupt (some c) false, Event.get_cmd]))
      _ (Option.some_get _).symm).1,
    (buffer_is_clean_beyond_the_cursor (fun _ _ _ w => w) ()
      ((c_str "AT+cs;").flatMap (fun c => [Event.interrupt (some c) false, Event.get_cmd]))
      _ (Option.some_get _).symm).2.2.1 6 (by decide!),
    (buffer_is_clean_beyond_the_cursor (fun _ _ _ w => w) ()
      ((c_str "AT+cs;").flatMap (fun c => [Event.interrupt (some c) false, Event.get_cmd]))
      _ (Option.some_get _).symm).2.2.2.1⟩

theorem holding_getD_inside (w : List uchar) (i : Nat) (h : i < w.length) :
    (holding w).getD i 0 = w[i] := by
  rw [holding_getD]
  exact List.getD_eq_getElem _ _ h

/-- C40. In every state reached from program start (each call having a
defined result) in which the status is `complete` and `get_cmd_index` finds
the mnemonic: the cursor is at least 6 and at most 200, the buffer starts with
`AT+`, the byte before the cursor is the terminator and no other byte of the
buffer is, so the command holds exactly one terminator; no byte below the
cursor is NUL.  So index 5, which `get_cmd_param` inspects, is inside the
command, and when the byte there is not the terminator the command reaches
index 6 as well. -/
theorem complete_command_shape {L : Type} (action_array : Int → func_t L)
    (lcd : L) (events : List Event) (s : Board × L)
    (hrun : main_run action_array (main_init, lcd) events = some s)
    (hst : s.1.at_command.status = .complete)
    (hidx : get_cmd_index s.1.at_command ≠ -1) :
    6 ≤ s.1.at_command.new_position ∧
    s.1.at_command.new_position ≤ ATCMD_BUFFER_SIZE ∧
    s.1.at_command.buf.take 3 = [65, 84, 43] ∧
    s.1.at_command.buf.getD (s.1.at_command.new_position - 1) 0 = 59 ∧
    (∀ i, s.1.at_command.buf.getD i 0 = 59 → i = s.1.at_command.new_position - 1) ∧
    (∀ i, i < s.1.at_command.new_position → s.1.at_command.buf.getD i 0 ≠ 0) ∧
    (s.1.at_command.buf.take s.1.at_command.new_position).count 59 = 1 ∧
    (s.1.at_command.buf.getD 5 0 ≠ 59 → 7 ≤ s.1.at_command.new_position) := by
  have hinv := CmdInv.main_run action_array events (main_init, lcd) s CmdInv.at_start hrun
  obtain ⟨w, hb, hp, hw, hnz, _, h2⟩ := hinv.text
  obtain ⟨w0, rfl, h59⟩ := h2 hst
  -- the mnemonic found
  rcases get_cmd_index_spec s.1.at_command with ⟨h, _⟩ | ⟨i, hi, _, hrow, _⟩
  · exact absurd h hidx
  obtain ⟨hm, hx, hy⟩ := ATcmd_mnemonic_bytes _ (ATcmd_getD_mem i hi)
  rw [hm, hb] at hrow
  generalize (ATcmd.getD i []).getD 3 0 = x at hrow hx
  generalize (ATcmd.getD i []).getD 4 0 = y at hrow hy
  -- the text is longer than the mnemonic
  have hlen : 5 ≤ w0.length := by
    by_contra hlt
    have hl : w0.length < 5 := by omega
    have e := congrArg (fun l => l.getD w0.length 0) hrow
    simp only at e
    have e1 : ((holding (w0 ++ [59])).take 5).getD w0.length 0 = 59 := by
      rw [List.getD_eq_getElem?_getD, List.getElem?_take_of_lt hl,
        ← List.getD_eq_getElem?_getD, holding_getD]
      simp [List.getD_eq_getElem?_getD]
    rw [e1] at e
    have hcases : w0.length = 0 ∨ w0.length = 1 ∨ w0.length = 2 ∨ w0.length = 3 ∨
        w0.length = 4 := by omega
    rcases hcases with h | h | h | h | h <;> rw [h] at e <;> simp at e
    · exact hx.2.2 e.symm
    · exact hy.2.2 e.symm
  have hlen2 : (w0 ++ [59]).length = w0.length + 1 := by simp
  have hget : ∀ i, (holding (w0 ++ [59])).getD i 0 = (w0 ++ [59]).getD i 0 :=
    fun i => holding_getD _ i
  have htake3 : (holding (w0 ++ [59])).take 3 = [65, 84, 43] := by
    have := congrArg (fun l => l.take 3) hrow
    simpa [List.take_take] using this
  have hlast : s.1.at_command.buf.getD (s.1.at_command.new_position - 1) 0 = 59 := by
    rw [hb, hp, hlen2, hget]
    simp [List.getD_eq_getElem?_getD]
  refine ⟨?_, ?_, ?_, hlast, ?_, ?_, ?_, ?_⟩
  · rw [hp, hlen2]; omega
  · rw [hp]; exact hw
  · rw [hb]; exact htake3
  · intro i hi59
    rw [hb, hget] at hi59
    rw [hp, hlen2]
    by_cases hlt : i < w0.length
    · exfalso
      apply h59
      have : (w0 ++ [59]).getD i 0 = w0[i] := by
        rw [List.getD_append _ _ _ _ hlt, List.getD_eq_getElem _ _ hlt]
      rw [this] at hi59
      rw [← hi59]
      exact List.getElem_mem hlt
    · by_cases heq : i = w0.length
      · omega
      · exfalso
        have : (w0 ++ [59]).getD i 0 = 0 := by
          apply List.getD_eq_default
          rw [hlen2]; omega
        rw [this] at hi59
        exact absurd hi59 (by decide)
  · intro i hi
    rw [hp] at hi
    rw [hb, holding_getD_inside _ i hi]
    exact hnz _ (List.getElem_mem hi)
  · rw [hb, hp]
    have : (holding (w0 ++ [59])).take (w0 ++ [59]).length = w0 ++ [59] := by
      unfold holding
      exact List.take_left' rfl
    rw [this, List.count_append, List.count_eq_zero_of_not_mem h59]
    rfl
  · intro h5
    by_contra hlt
    have h6 : s.1.at_command.new_position = 6 := by
      rw [hp, hlen2] at hlt ⊢; omega
    rw [h6] at hlast
    exact h5 hlast


/-- The state after the bytes of `AT+fs=200,23;`, each followed by a `get_cmd`
call. -/
theorem complete_command_shape_witness :
    ∃ s, main_run (fun _ _ _ w => w) (main_init, ())
        ((c_str "AT+fs=200,23;").flatMap
          (fun c => [Event.interrupt (some c) false, Event.get_cmd])) = some s ∧
      s.1.at_command.status = .complete ∧ get_cmd_index s.1.at_command = 11 ∧
      s.1.at_command.new_position = 13 ∧
      6 ≤ s.1.at_command.new_position ∧
      s.1.at_command.buf.take 3 = [65, 84, 43] ∧
      s.1.at_command.buf.getD (s.1.at_command.new_position - 1) 0 = 59 ∧
      (s.1.at_command.buf.take s.1.at_command.new_position).count 59 = 1 :=
  ⟨Option.get _ (by decide! :
      (main_run (fun _ _ _ w => w) (main_init, ())
        ((c_str "AT+fs=200,23;").flatMap
          (fun c => [Event.interrupt (some c) false, Event.get_cmd]))).isSome = true),
    (Option.some_get _).symm, by decide!, by decide!, by decide!,
    (complete_command_shape (fun _ _ _ w => w) ()
      ((c_str "AT+fs=200,23;").flatMap
        (fun c => [Event.interrupt (some c) false, Event.get_cmd]))
      _ (Option.some_get _).symm (by decide!) (by decide!)).1,
    (complete_command_shape (fun _ _ _ w => w) ()
      ((c_str "AT+fs=200,23;").flatMap
        (fun c => [Event.interrupt (some c) false, Event.get_cmd]))
      _ (Option.some_get _).symm (by decide!) (by decide!)).2.2.1,
    (complete_command_shape (fun _ _ _ w => w) ()
      ((c_str "AT+fs=200,23;").flatMap
        (fun c => [Event.interrupt (some c) false, Event.get_cmd]))
      _ (Option.some_get _).symm (by decide!) (by decide!)).2.2.2.1,
    (complete_command_shape (fun _ _ _ w => w) ()
      ((c_str "AT+fs=200,23;").flatMap
        (fun c => [Event.interrupt (some c) false, Event.get_cmd]))
      _ (Option.some_get _).symm (by decide!) (by decide!)).2.2.2.2.2.2.1⟩

/-! ## Drawing in range -/

/-- The fuel of `_FillRectangle` is enough unless `y1` is the largest
`unsigned int`. -/
theorem _FillRectangle_loop_defined (x0 x1 y1 : Nat) (hy : y1 + 1 < 2 ^ 32) (fuel : Nat) :
    ∀ (s : LcdState) (y0 : Nat), y1 + 1 - y0 ≤ fuel → y0 ≤ y1 + 1 →
    ∃ s2, _FillRectangle_loop x0 x1 y1 fuel s y0 = some s2 := by
  induction fuel with
  | zero =>
    intro s y0 h1 h2
    unfold _FillRectangle_loop
    have : ¬ y0 ≤ y1 := by omega
    rw [if_neg this]
    exact ⟨s, rfl⟩
  | succ fuel ih =>
    intro s y0 h1 h2
    unfold _FillRectangle_loop
    by_cases h : y0 ≤ y1
    · rw [if_pos h]
      have e : (y0 + 1) % 2 ^ 32 = y0 + 1 := Nat.mod_eq_of_lt (by omega)
      simp only [e]
      exact ih _ (y0 + 1) (by omega) (by omega)
    · rw [if_neg h]
      exact ⟨s, rfl⟩

/-- `_FillRectangle` returns for every rectangle whose last row is not the
largest `unsigned int`. -/
theorem _FillRectangle_defined (s : LcdState) (x0 y0 x1 y1 : Nat) (hy : y1 + 1 < 2 ^ 32)
    (h : y0 ≤ y1) : ∃ s2, _FillRectangle s x0 y0 x1 y1 = some s2 :=
  _FillRectangle_loop_defined x0 x1 y1 hy _ s y0 (Nat.le_refl _) (by omega)


/-- An `int` result that is defined is the mathematical result. -/
theorem int_of_eq_some (z v : Int) (h : int_of z = some v) : v = z := by
  unfold int_of at h
  split_ifs at h
  cases h
  rfl

/-- One pass of the circle loop moves `x1` up by one and `y1` down by at most
one. -/
theorem _Draw_Circle_pass_vars (x y f ddF_x ddF_y x1 y1 : Int)
    (v : Int × Int × Int × Int × Int) (pts : List (Int × Int))
    (h : _Draw_Circle_pass x y f ddF_x ddF_y x1 y1 = some (v, pts)) :
    v.2.2.2.1 = x1 + 1 ∧ (v.2.2.2.2 = y1 ∨ v.2.2.2.2 = y1 - 1) := by
  unfold _Draw_Circle_pass at h
  simp only [Option.bind_eq_some, Option.map_eq_some', Prod.mk.injEq] at h
  obtain ⟨u, hu, x1b, hx1b, ddF_xb, _, fb, _, xp, _, xm, _, yp, _, ym, _, xq, _, xn, _,
    yq, _, yn, _, hv⟩ := h
  obtain ⟨hv, _⟩ := hv
  subst hv
  refine ⟨int_of_eq_some _ _ hx1b, ?_⟩
  simp only
  by_cases hf : f ≥ 0
  · rw [if_pos hf] at hu
    simp only [Option.bind_eq_some, Option.map_eq_some'] at hu
    obtain ⟨y1a, hy1a, _, _, _, _, rfl⟩ := hu
    right
    exact int_of_eq_some _ _ hy1a
  · rw [if_neg hf] at hu
    cases hu
    left; rfl

/-- The fuel handed to the circle loop never decides its result: once it
covers the distance from `x1` to `y1`, more fuel changes nothing. -/
theorem _Draw_Circle_loop_fuel (x y : Int) (fuel : Nat) :
    ∀ (f ddF_x ddF_y x1 y1 : Int), (y1 - x1).toNat ≤ fuel →
    _Draw_Circle_loop x y (fuel + 1) f ddF_x ddF_y x1 y1 =
      _Draw_Circle_loop x y fuel f ddF_x ddF_y x1 y1 := by
  induction fuel with
  | zero =>
    intro f ddF_x ddF_y x1 y1 h
    have hn : ¬ x1 < y1 := by omega
    unfold _Draw_Circle_loop
    rw [if_neg hn, if_neg hn]
  | succ fuel ih =>
    intro f ddF_x ddF_y x1 y1 h
    rw [_Draw_Circle_loop]
    conv_rhs => rw [_Draw_Circle_loop]
    by_cases hlt : x1 < y1
    · rw [if_pos hlt, if_pos hlt]
      cases hp : _Draw_Circle_pass x y f ddF_x ddF_y x1 y1 with
      | none => rfl
      | some t =>
        obtain ⟨v, pts⟩ := t
        obtain ⟨e1, e2⟩ := _Draw_Circle_pass_vars _ _ _ _ _ _ _ v pts hp
        simp only
        rw [ih]
        omega
    · rw [if_neg hlt, if_neg hlt]


/-- The points of one pass of the circle loop. -/
theorem _Draw_Circle_pass_points (x y f ddF_x ddF_y x1 y1 : Int)
    (v : Int × Int × Int × Int × Int) (pts : List (Int × Int))
    (h : _Draw_Circle_pass x y f ddF_x ddF_y x1 y1 = some (v, pts)) :
    pts = [(x + (x1 + 1), y + v.2.2.2.2), (x - (x1 + 1), y + v.2.2.2.2),
           (x + (x1 + 1), y - v.2.2.2.2), (x - (x1 + 1), y - v.2.2.2.2),
           (x + v.2.2.2.2, y + (x1 + 1)), (x - v.2.2.2.2, y + (x1 + 1)),
           (x + v.2.2.2.2, y - (x1 + 1)), (x - v.2.2.2.2, y - (x1 + 1))] := by
  unfold _Draw_Circle_pass at h
  simp only [Option.bind_eq_some, Option.map_eq_some', Prod.mk.injEq] at h
  obtain ⟨u, hu, x1b, hx1b, ddF_xb, _, fb, _, xp, hxp, xm, hxm, yp, hyp, ym, hym, xq, hxq,
    xn, hxn, yq, hyq, yn, hyn, hv⟩ := h
  obtain ⟨hv, hpts⟩ := hv
  subst hv hpts
  have e1 := int_of_eq_some _ _ hx1b
  subst e1
  rw [int_of_eq_some _ _ hxp, int_of_eq_some _ _ hxm, int_of_eq_some _ _ hyp,
    int_of_eq_some _ _ hym, int_of_eq_some _ _ hxq, int_of_eq_some _ _ hxn,
    int_of_eq_some _ _ hyq, int_of_eq_some _ _ hyn]

/-- Every point of the circle loop lies in the square of side `2 * radius`
around the centre, as long as `x1` is not negative and `y1` is at most the
radius. -/
theorem _Draw_Circle_loop_box (x y r : Int) (fuel : Nat) :
    ∀ (f ddF_x ddF_y x1 y1 : Int) (pts : List (Int × Int)), 0 ≤ x1 → y1 ≤ r →
    _Draw_Circle_loop x y fuel f ddF_x ddF_y x1 y1 = some pts →
    ∀ p ∈ pts, x - r ≤ p.1 ∧ p.1 ≤ x + r ∧ y - r ≤ p.2 ∧ p.2 ≤ y + r := by
  induction fuel with
  | zero =>
    intro f ddF_x ddF_y x1 y1 pts _ _ h
    unfold _Draw_Circle_loop at h
    split_ifs at h
    cases h
    intro p hp; simp at hp
  | succ fuel ih =>
    intro f ddF_x ddF_y x1 y1 pts h0 hr h
    rw [_Draw_Circle_loop] at h
    by_cases hlt : x1 < y1
    · rw [if_pos hlt] at h
      cases hp : _Draw_Circle_pass x y f ddF_x ddF_y x1 y1 with
      | none => simp [hp] at h
      | some t =>
        obtain ⟨v, pts1⟩ := t
        obtain ⟨e1, e2⟩ := _Draw_Circle_pass_vars _ _ _ _ _ _ _ v pts1 hp
        have e3 := _Draw_Circle_pass_points _ _ _ _ _ _ _ v pts1 hp
        simp only [hp, Option.map_eq_some'] at h
        obtain ⟨rest, hrest, rfl⟩ := h
        have hy1 : 0 ≤ v.2.2.2.2 ∧ v.2.2.2.2 ≤ r := by
          rcases e2 with e | e <;> rw [e] <;> omega
        have hrec := ih _ _ _ _ _ rest (by rw [e1]; omega) hy1.2 hrest
        intro p hp
        rw [List.mem_append] at hp
        rcases hp with hp | hp
        · rw [e3] at hp
          simp only [List.mem_cons, List.mem_singleton, List.not_mem_nil, or_false] at hp
          rcases hp with rfl | rfl | rfl | rfl | rfl | rfl | rfl | rfl <;>
            simp only <;> omega
        · exact hrec p hp
    · rw [if_neg hlt] at h
      cases h
      intro p hp; simp at hp

/-- A circle of radius 0 or more: every point `_Draw_Circle` plots lies in the
square of side `2 * radius` around the centre. -/
theorem _Draw_Circle_points_box (x y r : Int) (pts : List (Int × Int)) (hr : 0 ≤ r)
    (h : _Draw_Circle_points x y r = some pts) :
    ∀ p ∈ pts, x - r ≤ p.1 ∧ p.1 ≤ x + r ∧ y - r ≤ p.2 ∧ p.2 ≤ y + r := by
  unfold _Draw_Circle_points at h
  simp only [Option.bind_eq_some, Option.map_eq_some'] at h
  obtain ⟨f, _, ddF_y, _, yp, hyp, ym, hym, xp, hxp, xm, hxm, rest, hrest, rfl⟩ := h
  have hbox := _Draw_Circle_loop_box x y r _ _ _ _ _ _ rest (Int.le_refl 0) (Int.le_refl r) hrest
  rw [int_of_eq_some _ _ hyp, int_of_eq_some _ _ hym, int_of_eq_some _ _ hxp,
    int_of_eq_some _ _ hxm]
  intro p hp
  rw [List.mem_append] at hp
  rcases hp with hp | hp
  · simp only [List.mem_cons, List.mem_singleton, List.not_mem_nil, or_false] at hp
    rcases hp with rfl | rfl | rfl | rfl <;> simp only <;> omega
  · exact hbox p hp

/-- What `DrawCircle` does get right: with three arguments of which the radius,
read as an `int`, is not negative, every point plotted is on the screen. -/
theorem DrawCircle_points_on_screen (a0 a1 a2 : List uchar) (display_x display_y : Nat)
    (pts : List (Int × Int)) (hr : 0 ≤ to_int (str_to_uint a2))
    (h : DrawCircle_points [some a0, some a1, some a2] 3 display_x display_y = some pts) :
    ∀ p ∈ pts, 0 ≤ p.1 ∧ p.1 < to_int display_x ∧ 0 ≤ p.2 ∧ p.2 < to_int display_y := by
  unfold DrawCircle_points at h
  simp only [ne_eq, not_true_eq_false, if_false, List.getD_cons_zero, List.getD_cons_succ] at h
  split_ifs at h with c0 c1
  · cases h; intro p hp; simp at hp
  · cases h; intro p hp; simp at hp
  · simp only [Option.bind_eq_some] at h
    obtain ⟨a, ha, h⟩ := h
    have ea := int_of_eq_some _ _ ha
    split_ifs at h with c2
    · cases h; intro p hp; simp at hp
    · simp only [Option.bind_eq_some] at h
      obtain ⟨b, hb, h⟩ := h
      have eb := int_of_eq_some _ _ hb
      split_ifs at h with c3
      · cases h; intro p hp; simp at hp
      · simp only [Option.bind_eq_some] at h
        obtain ⟨c, hc, h⟩ := h
        have ec := int_of_eq_some _ _ hc
        split_ifs at h with c4
        · cases h; intro p hp; simp at hp
        · simp only [Option.bind_eq_some] at h
          obtain ⟨d, hd, h⟩ := h
          have ed := int_of_eq_some _ _ hd
          split_ifs at h with c5
          · cases h; intro p hp; simp at hp
          · have hbox := _Draw_Circle_points_box _ _ _ pts hr h
            intro p hp
            have := hbox p hp
            omega


/-- C34, evaluated on a 240 x 320 panel: `FillRectangle` tests its coordinates
with `>` where `DrawLine` and `DrawRectangle` test with `>=`, so the
coordinates `display_x` and `display_y` themselves pass.  `AT+fr=0,320,10,320;`
draws ten pixels in row 320, one row below the last row 319 of the screen,
and `AT+fr=240,0,240,5;` opens six windows in column 240; only from 321 on is
the rectangle refused.  `DrawPoint`, by contrast, refuses both (0, 320) and
(240, 0) and draws (239, 319). -/
theorem FillRectangle_accepts_the_row_below_the_screen :
    (FillRectangle [some (c_str "0"), some (c_str "320"), some (c_str "10"), some (c_str "320")] 4
        (object_uart_init, ⟨false, []⟩,
          { lcd_start with display_x := 240, display_y := 320 })).map (fun w => w.2.2.events) =
      some ([LcdEvent.command 0x44, LcdEvent.data 2560, LcdEvent.command 0x45,
        LcdEvent.data 320, LcdEvent.command 0x46, LcdEvent.data 320, LcdEvent.command 0x4e,
        LcdEvent.data 0, LcdEvent.command 0x4f, LcdEvent.data 320, LcdEvent.command 0x22] ++
        List.replicate 10 (LcdEvent.data 0)) ∧
    (FillRectangle [some (c_str "240"), some (c_str "0"), some (c_str "240"), some (c_str "5")] 4
        (object_uart_init, ⟨false, []⟩,
          { lcd_start with display_x := 240, display_y := 320 })).map
        (fun w => w.2.2.events.length) = some 66 ∧
    (FillRectangle [some (c_str "0"), some (c_str "321"), some (c_str "10"), some (c_str "321")] 4
        (object_uart_init, ⟨false, []⟩,
          { lcd_start with display_x := 240, display_y := 320 })).map (fun w => w.2.2.events) =
      some [] ∧
    (DrawPoint [some (c_str "0"), some (c_str "320")] 2
        (object_uart_init, ⟨false, []⟩,
          { lcd_start with display_x := 240, display_y := 320 })).map (fun w => w.2.2.events) =
      some [] ∧
    (DrawPoint [some (c_str "240"), some (c_str "0")] 2
        (object_uart_init, ⟨false, []⟩,
          { lcd_start with display_x := 240, display_y := 320 })).map (fun w => w.2.2.events) =
      some [] ∧
    (DrawPoint [some (c_str "239"), some (c_str "319")] 2
        (object_uart_init, ⟨false, []⟩,
          { lcd_start with display_x := 240, display_y := 320 })).map
        (fun w => w.2.2.events.length) = some 12 := by
  refine ⟨by decide!, by decide!, by decide!, by decide!, by decide!, by decide!⟩


/-- C35, evaluated on a 240 x 320 panel: the range test of `DrawCircle` has no
case for a negative radius.  The argument `4294967096` is read by `str_to_uint`
as that number and becomes the `int` -200; with the centre (100, 100) every
sum and difference passes the test, and `_Draw_Circle` plots (100, -100),
(-100, 100) and (300, 100), none of them on the screen (the row written to
the controller is 65436).  A centre of (-1, -1) with radius -5 passes as
well.  With the radius 2 all twenty points are on the screen, and with the
radius 200 nothing is drawn. -/
theorem DrawCircle_plots_outside_for_a_negative_radius :
    str_to_uint (c_str "4294967096") = 4294967096 ∧ to_int 4294967096 = -200 ∧
    DrawCircle_points [some (c_str "100"), some (c_str "100"), some (c_str "4294967096")] 3
        240 320 = some [(100, -100), (100, 300), (-100, 100), (300, 100)] ∧
    (DrawCircle [some (c_str "100"), some (c_str "100"), some (c_str "4294967096")] 3
        (object_uart_init, ⟨false, []⟩,
          { lcd_start with display_x := 240, display_y := 320 })).map
        (fun w => w.2.2.events.take 12) =
      some [LcdEvent.command 0x44, LcdEvent.data 25700, LcdEvent.command 0x45,
        LcdEvent.data 65436, LcdEvent.command 0x46, LcdEvent.data 65436,
        LcdEvent.command 0x4e, LcdEvent.data 100, LcdEvent.command 0x4f,
        LcdEvent.data 65436, LcdEvent.command 0x22, LcdEvent.data 0] ∧
    DrawCircle_points [some (c_str "4294967295"), some (c_str "4294967295"),
        some (c_str "4294967291")] 3 240 320 =
      some [(-1, -6), (-1, 4), (-6, -1), (4, -1)] ∧
    DrawCircle_points [some (c_str "100"), some (c_str "100"), some (c_str "2")] 3 240 320 =
      some [(100, 102), (100, 98), (102, 100), (98, 100),
        (101, 102), (99, 102), (101, 98), (99, 98),
        (102, 101), (98, 101), (102, 99), (98, 99),
        (102, 101), (98, 101), (102, 99), (98, 99),
        (101, 102), (99, 102), (101, 98), (99, 98)] ∧
    DrawCircle_points [some (c_str "100"), some (c_str "100"), some (c_str "200")] 3 240 320 =
      some [] := by
  refine ⟨by decide!, by decide!, by decide!, by decide!, by decide!, by decide!, by decide!⟩

/-! ## Empty fields -/

/-- `strtok` called with NULL resumes where the call before stopped: the same
scan as a call with that pointer. -/
theorem strtok_resume (mem : List uchar) (p : Nat) (delim : List uchar) (saved : Option Nat) :
    strtok mem (some p) none delim = strtok mem saved (some p) delim := rfl

/-- `strtok` skips a delimiter it starts at. -/
theorem strtok_skip_one (mem : List uchar) (p : Nat) (delim : List uchar)
    (saved s : Option Nat) (hp : p < mem.length) (hd : mem.getD p 0 ∈ delim)
    (hstart : s = some p ∨ (s = none ∧ saved = some p)) :
    strtok mem saved s delim = strtok mem saved (some (p + 1)) delim := by
  have hskip : skip_delim mem p delim = skip_delim mem (p + 1) delim := by
    unfold skip_delim
    have e : mem.drop p = mem.getD p 0 :: mem.drop (p + 1) := by
      rw [List.getD_eq_getElem _ _ hp]
      exact List.drop_eq_getElem_cons hp
    rw [e, List.takeWhile_cons]
    simp only [hd, decide_True, if_true, List.length_cons]
    have : p + ((List.takeWhile (fun b => decide (b ∈ delim)) (mem.drop (p + 1))).length + 1) =
        p + 1 + (List.takeWhile (fun b => decide (b ∈ delim)) (mem.drop (p + 1))).length := by
      omega
    rw [this]
  unfold strtok
  rcases hstart with h | ⟨h1, h2⟩
  · subst h; simp only [hskip]
  · subst h1 h2; simp only [hskip]

/-- The comma loop skips a comma it resumes at. -/
theorem get_cmd_param_loop_skip (fuel : Nat) (mem : List uchar) (p : Nat)
    (args : List (Option Nat)) (count : Nat) (hp : p < mem.length)
    (hd : mem.getD p 0 = 44) (hcur : ¬ args.getD count none = none) :
    get_cmd_param_loop fuel mem (some p) args count =
      get_cmd_param_loop fuel mem (some (p + 1)) args count := by
  cases fuel with
  | zero =>
    unfold get_cmd_param_loop
    rw [if_neg hcur, if_neg hcur]
  | succ fuel =>
    rw [get_cmd_param_loop]
    conv_rhs => rw [get_cmd_param_loop]
    rw [if_neg hcur, if_neg hcur]
    have h1 := strtok_skip_one mem p [44] (some p) none hp (by rw [hd]; simp)
      (Or.inr ⟨rfl, rfl⟩)
    have h2 := strtok_resume mem (p + 1) [44] (some p)
    simp only [h1, h2]


/-- The comma loop at the closing NUL: one more call of `strtok`, which
returns NULL, and the loop ends. -/
theorem get_cmd_param_loop_end (fuel : Nat) (done Z : List uchar) (A : List (Option Nat))
    (c : Nat) (b0 : Option Nat) (B : List (Option Nat)) :
    get_cmd_param_loop (fuel + 1) (done ++ 0 :: Z) (some done.length)
        (A ++ some c :: b0 :: B) A.length =
      some (done ++ 0 :: Z, some done.length, A ++ some c :: none :: B, A.length + 1) := by
  have hcur : ¬ (A ++ some c :: b0 :: B).getD A.length none = none := by
    rw [getD_args_at]; simp
  have hst := strtok_end done Z [44] (some done.length) none (by decide) (Or.inr ⟨rfl, rfl⟩)
  have hstore : store_arg (A ++ some c :: b0 :: B) (A.length + 1) none =
      some ((A ++ [some c]) ++ none :: B) := by
    have := store_arg_at (A ++ [some c]) B b0 none
    simpa using this
  have hnext : ((A ++ [some c]) ++ none :: B).getD (A.length + 1) none = none := by
    have := getD_args_at (A ++ [some c]) B none
    simpa using this
  rw [get_cmd_param_loop_step fuel _ _ _ _ _ _ _ _ hcur hst hstore,
    get_cmd_param_loop_stop _ _ _ _ _ hnext]
  simp

/-- The comma loop over the fields `F`, each followed by its comma, and the
last field `L`, which the closing NUL follows.  Entry `A.length` of `args`
holds the pointer stored last. -/
theorem get_cmd_param_loop_fields (L : List uchar) (hL : L ≠ [])
    (hLx : ∀ x ∈ L, x ≠ 0 ∧ x ∉ [(44 : uchar)]) :
    ∀ (F : List (List uchar)) (done : List uchar) (A : List (Option Nat)) (c : Nat)
      (B : List (Option Nat)) (Z : List uchar) (fuel : Nat),
    (∀ g ∈ F, ∀ x ∈ g, x ≠ 0 ∧ x ∉ [(44 : uchar)]) →
    (F.filter (fun g => decide (g ≠ []))).length + 1 < B.length →
    (F.filter (fun g => decide (g ≠ []))).length + 1 < fuel →
    get_cmd_param_loop fuel (done ++ F.flatMap (fun g => g ++ [44]) ++ L ++ 0 :: Z)
        (some done.length) (A ++ some c :: B) A.length =
      some (done ++ F.flatMap field_cut ++ L ++ 0 :: Z,
            some (done ++ F.flatMap field_cut ++ L).length,
            A ++ some c :: (field_ptrs done.length F ++
              some (done ++ F.flatMap field_cut).length :: none ::
                B.drop ((F.filter (fun g => decide (g ≠ []))).length + 2)),
            A.length + (F.filter (fun g => decide (g ≠ []))).length + 2) := by
  intro F
  induction F with
  | nil =>
    intro done A c B Z fuel _ hB hfuel
    simp only [List.filter_nil, List.length_nil, Nat.zero_add] at hB hfuel
    obtain ⟨b0, B1, rfl⟩ := List.exists_cons_of_ne_nil
      (List.ne_nil_of_length_pos (Nat.lt_of_le_of_lt (Nat.zero_le _) hB))
    simp only [List.length_cons] at hB
    obtain ⟨b1, B2, rfl⟩ := List.exists_cons_of_ne_nil
      (List.ne_nil_of_length_pos (by omega : 0 < B1.length))
    obtain ⟨f, rfl⟩ : ∃ f, fuel = f + 2 := ⟨fuel - 2, by omega⟩
    have hcur : ¬ (A ++ some c :: b0 :: b1 :: B2).getD A.length none = none := by
      rw [getD_args_at]; simp
    have hst := strtok_token done L Z 0 [44] (some done.length) none hL hLx (Or.inl rfl)
      (Or.inr ⟨rfl, rfl⟩)
    simp only [if_true] at hst
    have hstore : store_arg (A ++ some c :: b0 :: b1 :: B2) (A.length + 1) (some done.length) =
        some ((A ++ [some c]) ++ some done.length :: b1 :: B2) := by
      have := store_arg_at (A ++ [some c]) (b1 :: B2) b0 (some done.length)
      simpa using this
    have hend := get_cmd_param_loop_end f (done ++ L) Z (A ++ [some c]) done.length b1 B2
    have hl : (A ++ [some c]).length = A.length + 1 := by simp
    have hl2 : (done ++ L).length = done.length + L.length := by simp
    rw [hl, hl2] at hend
    simp only [List.flatMap_nil, List.append_nil, List.filter_nil, List.length_nil, field_ptrs,
      List.nil_append, Nat.add_zero]
    rw [get_cmd_param_loop_step (f + 1) _ _ _ _ _ _ _ _ hcur hst hstore, hend]
    simp [List.append_assoc]
  | cons g G ih =>
    intro done A c B Z fuel hF hB hfuel
    by_cases hg : g = []
    · subst hg
      have hcur : ¬ (A ++ some c :: B).getD A.length none = none := by
        rw [getD_args_at]; simp
      have hmem : done ++ ([] :: G).flatMap (fun g => g ++ [44]) ++ L ++ 0 :: Z =
          done ++ 44 :: (G.flatMap (fun g => g ++ [44]) ++ L ++ 0 :: Z) := by
        simp [List.flatMap_cons, List.append_assoc]
      have hmem2 : (done ++ [44]) ++ G.flatMap (fun g => g ++ [44]) ++ L ++ 0 :: Z =
          done ++ 44 :: (G.flatMap (fun g => g ++ [44]) ++ L ++ 0 :: Z) := by
        simp [List.append_assoc]
      have hrec := ih (done ++ [44]) A c B Z fuel (fun q hq => hF q (by simp [hq]))
        (by simpa using hB) (by simpa using hfuel)
      rw [hmem2] at hrec
      have hl : (done ++ [44]).length = done.length + 1 := by simp
      rw [hl] at hrec
      rw [hmem, get_cmd_param_loop_skip fuel _ done.length _ _ (by simp)
        (getD_length_append done _ 44) hcur, hrec]
      simp [List.flatMap_cons, field_cut, field_ptrs, List.append_assoc, Nat.add_assoc]
    · have hn : (List.filter (fun g => decide (g ≠ [])) (g :: G)).length =
          (G.filter (fun g => decide (g ≠ []))).length + 1 := by
        simp [List.filter_cons, hg]
      rw [hn] at hB hfuel
      obtain ⟨b0, B1, rfl⟩ := List.exists_cons_of_ne_nil
        (List.ne_nil_of_length_pos (Nat.lt_of_le_of_lt (Nat.zero_le _) hB))
      obtain ⟨f, rfl⟩ : ∃ f, fuel = f + 1 := ⟨fuel - 1, by omega⟩
      have hcur : ¬ (A ++ some c :: b0 :: B1).getD A.length none = none := by
        rw [getD_args_at]; simp
      have hmem : done ++ (g :: G).flatMap (fun g => g ++ [44]) ++ L ++ 0 :: Z =
          done ++ g ++ 44 :: (G.flatMap (fun g => g ++ [44]) ++ L ++ 0 :: Z) := by
        simp [List.flatMap_cons, List.append_assoc]
      have hst := strtok_token done g (G.flatMap (fun g => g ++ [44]) ++ L ++ 0 :: Z) 44 [44]
        (some done.length) none hg (hF g (by simp)) (Or.inr (by simp)) (Or.inr ⟨rfl, rfl⟩)
      have d : ¬ ((44 : uchar) = 0) := by decide
      simp only [d, if_false] at hst
      have hstore : store_arg (A ++ some c :: b0 :: B1) (A.length + 1) (some done.length) =
          some ((A ++ [some c]) ++ some done.length :: B1) := by
        have := store_arg_at (A ++ [some c]) B1 b0 (some done.length)
        simpa using this
      have hrec := ih (done ++ g ++ [0]) (A ++ [some c]) done.length B1 Z f
        (fun q hq => hF q (by simp [hq]))
        (by simp only [List.length_cons] at hB; omega) (by omega)
      have hmem2 : (done ++ g ++ [0]) ++ G.flatMap (fun g => g ++ [44]) ++ L ++ 0 :: Z =
          done ++ g ++ 0 :: (G.flatMap (fun g => g ++ [44]) ++ L ++ 0 :: Z) := by
        simp [List.append_assoc]
      have hl : (A ++ [some c]).length = A.length + 1 := by simp
      have hl2 : (done ++ g ++ [0]).length = done.length + g.length + 1 := by
        simp; omega
      rw [hmem2, hl, hl2] at hrec
      rw [hmem, get_cmd_param_loop_step f _ _ _ _ _ _ _ _ hcur hst hstore, hrec, hn]
      simp [List.flatMap_cons, field_cut, field_ptrs, hg, List.append_assoc, Nat.add_assoc,
        Nat.add_comm 1, Nat.add_left_comm]


/-- The comma loop does not look below the entry it starts at: one more entry
in front of `args` shifts the result by one. -/
theorem get_cmd_param_loop_shift (x : Option Nat) (fuel : Nat) :
    ∀ (mem : List uchar) (saved : Option Nat) (args : List (Option Nat)) (count : Nat),
    get_cmd_param_loop fuel mem saved (x :: args) (count + 1) =
      (get_cmd_param_loop fuel mem saved args count).map
        (fun r => (r.1, r.2.1, x :: r.2.2.1, r.2.2.2 + 1)) := by
  induction fuel with
  | zero =>
    intro mem saved args count
    unfold get_cmd_param_loop
    rw [List.getD_cons_succ]
    by_cases h : args.getD count none = none
    · rw [if_pos h, if_pos h]; rfl
    · rw [if_neg h, if_neg h]; rfl
  | succ fuel ih =>
    intro mem saved args count
    rw [get_cmd_param_loop]
    conv_rhs => rw [get_cmd_param_loop]
    rw [List.getD_cons_succ]
    by_cases h : args.getD count none = none
    · rw [if_pos h, if_pos h]; rfl
    · rw [if_neg h, if_neg h]
      cases hs : strtok mem saved none [44] with
      | none => rfl
      | some t =>
        obtain ⟨tok, mem2, saved2⟩ := t
        simp only
        unfold store_arg
        by_cases hl : count + 1 < args.length
        · have hl2 : count + 1 + 1 < (x :: args).length := by simpa using hl
          rw [if_pos hl, if_pos hl2]
          simp only [List.set_cons_succ]
          exact ih _ _ _ _
        · have hl2 : ¬ count + 1 + 1 < (x :: args).length := by simpa using hl
          rw [if_neg hl, if_neg hl2]
          rfl

/-- The first `strtok` call of `get_cmd_param`, its store into `args[0]` and
the comma loop, seen as the comma loop on an array with one more entry in
front. -/
theorem get_cmd_param_first_as_loop (mem : List uchar) (p : Nat) (args : List (Option Nat))
    (r : List uchar × Option Nat × List (Option Nat) × Nat)
    (h : get_cmd_param_loop (args.length + 1) mem (some p) (some 0 :: args) 0 = some r) :
    ∃ tok mem1 saved args1,
      strtok mem none (some p) [44] = some (tok, mem1, saved) ∧
      store_arg args 0 tok = some args1 ∧
      ∃ count, get_cmd_param_loop args.length mem1 saved args1 0 =
          some (r.1, r.2.1, r.2.2.1.tail, count) ∧ r.2.2.2 = count + 1 := by
  rw [get_cmd_param_loop] at h
  have hcur : ¬ (some 0 :: args).getD 0 none = none := by simp
  rw [if_neg hcur] at h
  have e : strtok mem (some p) none [44] = strtok mem none (some p) [44] :=
    strtok_resume mem p [44] none
  rw [e] at h
  cases hs : strtok mem none (some p) [44] with
  | none => simp [hs] at h
  | some t =>
    obtain ⟨tok, mem1, saved⟩ := t
    simp only [hs] at h
    unfold store_arg at h
    by_cases hl : 0 < args.length
    · have hl2 : 0 + 1 < (some 0 :: args).length := by simpa using hl
      rw [if_pos hl2] at h
      simp only [List.set_cons_succ] at h
      rw [get_cmd_param_loop_shift] at h
      simp only [Option.map_eq_some'] at h
      obtain ⟨r0, hr0, rfl⟩ := h
      refine ⟨tok, mem1, saved, args.set 0 tok, rfl, ?_, r0.2.2.2, ?_, rfl⟩
      · unfold store_arg; rw [if_pos hl]
      · simpa using hr0
    · have hl2 : ¬ 0 + 1 < (some 0 :: args).length := by simpa using hl
      rw [if_neg hl2] at h
      simp at h


theorem field_ptrs_length (F : List (List uchar)) : ∀ off,
    (field_ptrs off F).length = (F.filter (fun g => decide (g ≠ []))).length := by
  induction F with
  | nil => intro off; rfl
  | cons g G ih =>
    intro off
    by_cases hg : g = []
    · simp [field_ptrs, hg, ih]
    · simp [field_ptrs, hg, ih, List.filter_cons]

/-- The strings the pointers of the comma loop point to are the non-empty
fields, in order. -/
theorem argv_of_field_ptrs (F : List (List uchar)) : ∀ (a W : List uchar),
    (∀ g ∈ F, ∀ x ∈ g, x ≠ 0) →
    (field_ptrs a.length F).map
        (fun o => o.map (c_string_at (a ++ F.flatMap field_cut ++ W))) =
      (F.filter (fun g => decide (g ≠ []))).map some := by
  induction F with
  | nil => intro a W _; rfl
  | cons g G ih =>
    intro a W h
    by_cases hg : g = []
    · subst hg
      have hrec := ih (a ++ [44]) W (fun q hq => h q (by simp [hq]))
      have e : a ++ ([] :: G).flatMap field_cut ++ W =
          a ++ [44] ++ G.flatMap field_cut ++ W := by
        simp [List.flatMap_cons, field_cut, List.append_assoc]
      have e3 : (a ++ [44]).length = a.length + 1 := by simp
      rw [e3] at hrec
      rw [e]
      simpa [field_ptrs, List.filter_cons] using hrec
    · have hrec := ih (a ++ g ++ [0]) W (fun q hq => h q (by simp [hq]))
      have e : a ++ (g :: G).flatMap field_cut ++ W =
          a ++ g ++ 0 :: (G.flatMap field_cut ++ W) := by
        simp [List.flatMap_cons, field_cut, hg, List.append_assoc]
      have e2 : a ++ g ++ [0] ++ G.flatMap field_cut ++ W =
          a ++ g ++ 0 :: (G.flatMap field_cut ++ W) := by
        simp [List.append_assoc]
      have e3 : (a ++ g ++ [0]).length = a.length + g.length + 1 := by simp; omega
      rw [e2, e3] at hrec
      simp only [field_ptrs, hg, if_false, List.map_cons, Option.map_some', e, hrec,
        List.filter_cons, ne_eq, not_false_eq_true, decide_True, if_true]
      rw [c_string_at_param a g _ (h g (by simp))]

/-- The last call of `get_cmd_param`, `strtok(args[count-1], ";")`, on a last
field that is the terminator alone: the result is NULL and nothing is
written. -/
theorem strtok_terminator_alone (a Z : List uchar) (saved : Option Nat) :
    strtok (a ++ 59 :: 0 :: Z) saved (some a.length) [59] =
      some (none, a ++ 59 :: 0 :: Z, some (a.length + 1)) := by
  have h1 := strtok_skip_one (a ++ 59 :: 0 :: Z) a.length [59] saved (some a.length)
    (by simp) (by rw [getD_length_append]; simp) (Or.inl rfl)
  have h2 := strtok_end (a ++ [59]) Z [59] saved (some (a.length + 1)) (by decide)
    (Or.inl (by simp))
  have e : a ++ [59] ++ 0 :: Z = a ++ 59 :: 0 :: Z := by simp
  have e2 : (a ++ [59]).length = a.length + 1 := by simp
  rw [e, e2] at h2
  rw [h1, h2]

/-- The last call of `get_cmd_param` on a last field with a text before the
terminator: the pointer stays and the terminator is overwritten with NUL. -/
theorem strtok_terminator (a f Z : List uchar) (saved : Option Nat) (hne : f ≠ [])
    (hf : ∀ x ∈ f, x ≠ 0 ∧ x ≠ 59) :
    strtok (a ++ f ++ 59 :: 0 :: Z) saved (some a.length) [59] =
      some (some a.length, a ++ f ++ 0 :: 0 :: Z, some (a.length + f.length + 1)) := by
  have h := strtok_token a f (0 :: Z) 59 [59] saved (some a.length) hne
    (by intro x hx; have := hf x hx; simp [this.1, this.2]) (Or.inr (by simp)) (Or.inl rfl)
  have d59 : ¬ ((59 : uchar) = 0) := by decide
  simpa only [d59, if_false] using h


/-- The tokenizer on a parameter section given by its fields: `F` are the
fields that a comma follows and `f` is the last field, which the terminator
follows.  The count is the number of non-empty fields of `F` plus one, the
strings are those fields, and the last string is `f`, or NULL when `f` is
empty. -/
theorem get_cmd_param_fields (at_cmd : ATcmd_buffer) (pre : List uchar)
    (F : List (List uchar)) (f Z : List uchar) (args : List (Option Nat))
    (hpre : pre.length = 6) (h5 : pre.getD 5 0 = 61)
    (hb : at_cmd.buf = pre ++ F.flatMap (fun g => g ++ [44]) ++ (f ++ [59]) ++ 0 :: Z)
    (hF : ∀ g ∈ F, ∀ x ∈ g, x ≠ 0 ∧ x ≠ 44)
    (hf : ∀ x ∈ f, x ≠ 0 ∧ x ≠ 44 ∧ x ≠ 59)
    (hroom : (F.filter (fun g => decide (g ≠ []))).length + 1 < args.length) :
    ∃ at2 args2, get_cmd_param at_cmd args =
        some ((((F.filter (fun g => decide (g ≠ []))).length + 1 : Nat) : Int), at2, args2) ∧
      argv_of at2.buf args2 (((F.filter (fun g => decide (g ≠ []))).length + 1 : Nat) : Int) =
        (F.filter (fun g => decide (g ≠ []))).map some ++ [if f = [] then none else some f] := by
  have hloop := get_cmd_param_loop_fields (f ++ [59]) (by simp)
    (by
      intro x hx
      rw [List.mem_append] at hx
      rcases hx with hx | hx
      · have := hf x hx
        simp [this.1, this.2.1]
      · simp only [List.mem_singleton] at hx
        subst hx
        decide)
    F pre [] 0 args Z (args.length + 1)
    (fun g hg x hx => by have := hF g hg x hx; simp [this.1, this.2])
    hroom (by omega)
  simp only [List.nil_append, List.length_nil, Nat.zero_add, hpre] at hloop
  obtain ⟨tok, mem1, saved, args1, hs, hst, count, hl, hcount⟩ :=
    get_cmd_param_first_as_loop _ 6 args _ hloop
  simp only [List.tail_cons] at hl hcount
  have hc : count = (F.filter (fun g => decide (g ≠ []))).length + 1 := by omega
  subst hc
  have hlen : (field_ptrs 6 F).length = (F.filter (fun g => decide (g ≠ []))).length :=
    field_ptrs_length F 6
  have hget5 : at_cmd.buf.getD 5 0 = 61 := by
    rw [hb, List.append_assoc, List.append_assoc, List.getD_append _ _ _ _ (by omega)]
    exact h5
  have d1 : ¬ ((61 : uchar) = 59) := by decide
  have hlast : (field_ptrs 6 F ++ some (pre ++ F.flatMap field_cut).length :: none ::
      args.drop ((F.filter (fun g => decide (g ≠ []))).length + 2)).getD
        ((F.filter (fun g => decide (g ≠ []))).length + 1 - 1) none =
      some (pre ++ F.flatMap field_cut).length := by
    rw [Nat.add_sub_cancel, ← hlen, getD_args_at]
  have hset : ∀ v : Option Nat, (field_ptrs 6 F ++ some (pre ++ F.flatMap field_cut).length ::
      none :: args.drop ((F.filter (fun g => decide (g ≠ []))).length + 2)).set
        ((F.filter (fun g => decide (g ≠ []))).length + 1 - 1) v =
      field_ptrs 6 F ++ v :: none ::
        args.drop ((F.filter (fun g => decide (g ≠ []))).length + 2) := by
    intro v
    rw [Nat.add_sub_cancel, ← hlen, List.set_append_right _ _ (Nat.le_refl _)]
    simp
  have htake : ∀ v : Option Nat, (field_ptrs 6 F ++ v :: none ::
      args.drop ((F.filter (fun g => decide (g ≠ []))).length + 2)).take
        ((F.filter (fun g => decide (g ≠ []))).length + 1) = field_ptrs 6 F ++ [v] := by
    intro v
    rw [← hlen, List.take_append_eq_append_take]
    simp
  have hcne : ¬ ((F.filter (fun g => decide (g ≠ []))).length + 1 = 0) := by omega
  have hptr := fun W => argv_of_field_ptrs F pre W (fun g hg x hx => (hF g hg x hx).1)
  rw [hpre] at hptr
  by_cases hfe : f = []
  · subst hfe
    have hfin := strtok_terminator_alone (pre ++ F.flatMap field_cut) Z
      (some (pre ++ F.flatMap field_cut ++ ([] ++ [59])).length)
    refine ⟨{ at_cmd with buf := pre ++ F.flatMap field_cut ++ 59 :: 0 :: Z },
      field_ptrs 6 F ++ none :: none ::
        args.drop ((F.filter (fun g => decide (g ≠ []))).length + 2), ?_, ?_⟩
    · unfold get_cmd_param
      rw [hget5, if_neg d1, if_neg (by simp), hb]
      simp only [hs, hst, hl, if_neg hcne, hlast]
      have e : pre ++ F.flatMap field_cut ++ ([] ++ [59]) ++ 0 :: Z =
          pre ++ F.flatMap field_cut ++ 59 :: 0 :: Z := by simp
      rw [e, hfin]
      simp only [hset]
    · unfold argv_of
      simp only [Int.toNat_ofNat, htake, List.map_append, hptr, List.map_cons, List.map_nil,
        Option.map_none', if_true]
  · have hfin := strtok_terminator (pre ++ F.flatMap field_cut) f Z
      (some (pre ++ F.flatMap field_cut ++ (f ++ [59])).length) hfe
      (fun x hx => ⟨(hf x hx).1, (hf x hx).2.2⟩)
    refine ⟨{ at_cmd with buf := pre ++ F.flatMap field_cut ++ f ++ 0 :: 0 :: Z },
      field_ptrs 6 F ++ some (pre ++ F.flatMap field_cut).length :: none ::
        args.drop ((F.filter (fun g => decide (g ≠ []))).length + 2), ?_, ?_⟩
    · unfold get_cmd_param
      rw [hget5, if_neg d1, if_neg (by simp), hb]
      simp only [hs, hst, hl, if_neg hcne, hlast]
      have e : pre ++ F.flatMap field_cut ++ (f ++ [59]) ++ 0 :: Z =
          pre ++ F.flatMap field_cut ++ f ++ 59 :: 0 :: Z := by simp
      rw [e, hfin]
      simp only [hset]
    · unfold argv_of
      have hstr : c_string_at (pre ++ F.flatMap field_cut ++ f ++ 0 :: 0 :: Z)
          (pre ++ F.flatMap field_cut).length = f :=
        c_string_at_param (pre ++ F.flatMap field_cut) f (0 :: Z) (fun x hx => (hf x hx).1)
      have hp2 := hptr (f ++ 0 :: 0 :: Z)
      have e : pre ++ F.flatMap field_cut ++ (f ++ 0 :: 0 :: Z) =
          pre ++ F.flatMap field_cut ++ f ++ 0 :: 0 :: Z := by simp
      rw [e] at hp2
      simp only [Int.toNat_ofNat, htake, List.map_append, hp2, List.map_cons, List.map_nil,
        Option.map_some', hstr, if_neg hfe]


theorem comma_fields_field (g r : List uchar) (hg : (44 : uchar) ∉ g) :
    comma_fields (g ++ 44 :: r) = g :: comma_fields r := by
  induction g with
  | nil => simp [comma_fields]
  | cons b g ih =>
    have hb : ¬ b = 44 := fun h => hg (by simp [h])
    have := ih (fun h => hg (by simp [h]))
    simp [comma_fields, hb, this]

theorem comma_fields_last (f : List uchar) (hf : (44 : uchar) ∉ f) :
    comma_fields f = [f] := by
  induction f with
  | nil => rfl
  | cons b f ih =>
    have hb : ¬ b = 44 := fun h => hf (by simp [h])
    have := ih (fun h => hf (by simp [h]))
    simp [comma_fields, hb, this]

/-- The fields of a text put together from fields: the text of the fields `F`,
each followed by a comma, and of a last field `f` has the fields `F` and `f`. -/
theorem comma_fields_join (F : List (List uchar)) (f : List uchar)
    (hF : ∀ g ∈ F, (44 : uchar) ∉ g) (hf : (44 : uchar) ∉ f) :
    comma_fields (F.flatMap (fun g => g ++ [44]) ++ f) = F ++ [f] := by
  induction F with
  | nil => simpa using comma_fields_last f hf
  | cons g G ih =>
    have e : (g :: G).flatMap (fun g => g ++ [44]) ++ f =
        g ++ 44 :: (G.flatMap (fun g => g ++ [44]) ++ f) := by
      simp [List.flatMap_cons, List.append_assoc]
    rw [e, comma_fields_field g _ (hF g (by simp)), ih (fun q hq => hF q (by simp [hq]))]
    rfl

/-- Every text is put together from its fields. -/
theorem comma_fields_split (body : List uchar) :
    ∃ (F : List (List uchar)) (f : List uchar),
      body = F.flatMap (fun g => g ++ [44]) ++ f ∧
      (∀ g ∈ F, (44 : uchar) ∉ g) ∧ (44 : uchar) ∉ f := by
  induction body with
  | nil => exact ⟨[], [], rfl, by simp, by simp⟩
  | cons b r ih =>
    obtain ⟨F, f, h1, h2, h3⟩ := ih
    by_cases hb : b = 44
    · refine ⟨[] :: F, f, ?_, ?_, h3⟩
      · rw [h1, hb]; simp [List.flatMap_cons]
      · intro g hg
        simp only [List.mem_cons] at hg
        rcases hg with rfl | hg
        · simp
        · exact h2 g hg
    · cases F with
      | nil =>
        refine ⟨[], b :: f, ?_, by simp, ?_⟩
        · rw [h1]; simp
        · simp only [List.mem_cons, not_or]
          exact ⟨fun h => hb h.symm, h3⟩
      | cons g G =>
        refine ⟨(b :: g) :: G, f, ?_, ?_, h3⟩
        · rw [h1]; simp [List.flatMap_cons]
        · intro q hq
          simp only [List.mem_cons] at hq
          rcases hq with rfl | hq
          · simp only [List.mem_cons, not_or]
            exact ⟨fun h => hb h.symm, h2 g (by simp)⟩
          · exact h2 q (by simp [hq])

/-- C38: empty fields are skipped.  For every complete command
`AT+<code>=<body>;` that leaves a byte of the buffer free, with a body that
holds no NUL and no terminator, and for every pointer array with more entries
than the section has non-empty fields, `get_cmd_param` returns the number of
non-empty comma-separated fields of `<body>;`, the terminator counting as part
of the last field.  The strings handed over are the non-empty fields of the
body, in order, so a string behind an empty field moves one position to the
left; when the last field of the body is empty, the entry counted for it is a
NULL pointer. -/
theorem empty_fields_are_skipped (at_cmd : ATcmd_buffer) (m body : List uchar)
    (args : List (Option Nat))
    (hm : m.length = 5)
    (hb : at_cmd.buf = holding (m ++ 61 :: (body ++ [59])))
    (hfit : (m ++ 61 :: (body ++ [59])).length < ATCMD_BUFFER_SIZE)
    (hbody : ∀ x ∈ body, x ≠ 0 ∧ x ≠ 59)
    (hroom : (nonempty_fields (body ++ [59])).length < args.length) :
    ∃ at2 args2,
      get_cmd_param at_cmd args =
        some (((nonempty_fields (body ++ [59])).length : Int), at2, args2) ∧
      argv_of at2.buf args2 ((nonempty_fields (body ++ [59])).length : Int) =
        (nonempty_fields body).map some ++
          (if (comma_fields body).getLast? = some [] then [none] else []) := by
  obtain ⟨F, f, hsplit, hF, hf⟩ := comma_fields_split body
  have hf59 : (44 : uchar) ∉ f ++ [59] := by
    simp only [List.mem_append, List.mem_singleton, not_or]
    exact ⟨hf, by decide⟩
  have hrest : body ++ [59] = F.flatMap (fun g => g ++ [44]) ++ (f ++ [59]) := by
    rw [hsplit]; simp [List.append_assoc]
  have hfields : comma_fields body = F ++ [f] := by
    rw [hsplit]; exact comma_fields_join F f hF hf
  have hfields2 : comma_fields (body ++ [59]) = F ++ [f ++ [59]] := by
    rw [hrest]; exact comma_fields_join F (f ++ [59]) hF hf59
  have hn : (nonempty_fields (body ++ [59])).length =
      (F.filter (fun g => decide (g ≠ []))).length + 1 := by
    unfold nonempty_fields
    rw [hfields2, List.filter_append]
    simp [List.filter_cons]
  have hargv : (nonempty_fields body).map some ++
      (if (comma_fields body).getLast? = some [] then [none] else []) =
      (F.filter (fun g => decide (g ≠ []))).map some ++ [if f = [] then none else some f] := by
    unfold nonempty_fields
    rw [hfields, List.filter_append]
    by_cases hfe : f = []
    · simp [hfe, List.filter_cons]
    · simp [hfe, List.filter_cons]
  have hmemF : ∀ g ∈ F, ∀ x ∈ g, x ∈ body := by
    intro g hg x hx
    rw [hsplit, List.mem_append, List.mem_flatMap]
    exact Or.inl ⟨g, hg, by simp [hx]⟩
  have hmemf : ∀ x ∈ f, x ∈ body := by
    intro x hx
    rw [hsplit, List.mem_append]
    exact Or.inr hx
  obtain ⟨Z, hZ⟩ : ∃ Z, holding (m ++ 61 :: (body ++ [59])) =
      (m ++ [61]) ++ F.flatMap (fun g => g ++ [44]) ++ (f ++ [59]) ++ 0 :: Z := by
    refine ⟨List.replicate (ATCMD_BUFFER_SIZE - (m ++ 61 :: (body ++ [59])).length - 1) 0, ?_⟩
    unfold holding
    have : ATCMD_BUFFER_SIZE - (m ++ 61 :: (body ++ [59])).length =
        (ATCMD_BUFFER_SIZE - (m ++ 61 :: (body ++ [59])).length - 1) + 1 := by omega
    rw [this, List.replicate_succ, hrest]
    simp [List.append_assoc]
  rw [hZ] at hb
  rw [hn] at hroom ⊢
  rw [hargv]
  exact get_cmd_param_fields at_cmd (m ++ [61]) F f Z args (by simp [hm])
    (by
      have := getD_length_append m [] 61
      rw [hm] at this
      exact this)
    hb
    (fun g hg x hx => ⟨(hbody x (hmemF g hg x hx)).1, fun h => hF g hg (h ▸ hx)⟩)
    (fun x hx => ⟨(hbody x (hmemf x hx)).1, fun h => hf (h ▸ hx), (hbody x (hmemf x hx)).2⟩)
    hroom

/-- C38 at `AT+fs=1,,2;` with an array of six entries, as `execute_a_cmd` has
it: two non-empty fields.  And the two commands of the claim run from program
start: `AT+fs=1,,2;` and `AT+fs=,1,2;` both call slot 11 with the strings `1`
and `2` and the count 2. -/
theorem empty_fields_are_skipped_witness :
    (nonempty_fields (c_str "1,,2" ++ [59])).length = 2 ∧
    nonempty_fields (c_str "1,,2") = [c_str "1", c_str "2"] ∧
    (comma_fields (c_str "1,,2")).getLast? = some (c_str "2") ∧
    (∃ at2 args2,
      get_cmd_param
          { buf := holding (c_str "AT+fs" ++ 61 :: (c_str "1,,2" ++ [59])),
            new_position := 11, status := ATCMD_BUFFER_STATUS.complete }
          (List.replicate 6 none) =
        some (((nonempty_fields (c_str "1,,2" ++ [59])).length : Int), at2, args2) ∧
      argv_of at2.buf args2 ((nonempty_fields (c_str "1,,2" ++ [59])).length : Int) =
        (nonempty_fields (c_str "1,,2")).map some ++
          (if (comma_fields (c_str "1,,2")).getLast? = some [] then [none] else [])) ∧
    (feed_stream main_init (c_str "AT+fs=1,,2;")).bind (fun g =>
        (execute_a_cmd (fun _ _ _ w => w) g ()).map (fun r => (r.ret, r.invoked))) =
      some (0, some { slot := 11, argv := [some (c_str "1"), some (c_str "2")], arg_num := 2 }) ∧
    (feed_stream main_init (c_str "AT+fs=,1,2;")).bind (fun g =>
        (execute_a_cmd (fun _ _ _ w => w) g ()).map (fun r => (r.ret, r.invoked))) =
      some (0, some { slot := 11, argv := [some (c_str "1"), some (c_str "2")], arg_num := 2 }) :=
  ⟨by decide, by decide, by decide,
    empty_fields_are_skipped
      { buf := holding (c_str "AT+fs" ++ 61 :: (c_str "1,,2" ++ [59])),
        new_position := 11, status := ATCMD_BUFFER_STATUS.complete }
      (c_str "AT+fs") (c_str "1,,2") (List.replicate 6 none)
      (by decide) rfl (by decide) (by decide!) (by decide!),
    by decide!, by decide!⟩


/-- C37, evaluated: a command whose last field is empty hands a NULL pointer to
the handler.  `AT+fs=;` is assembled and found in row 11; the tokenizer returns
the count 1 and leaves `args[0]` NULL, because the last call
`strtok(args[0], ";")` finds nothing but the terminator; `execute` then calls
slot 11 with the count 1 and a NULL string.  `AT+fs=200,23,;` gives the count 3
with the strings `200`, `23` and NULL.  `AT+DB=;` calls `SetDebug` with the
count 1 and NULL, and the read `**args` of `SetDebug` has no defined result.
`AT+fs=200,23;`, with no empty field, hands over its two strings. -/
theorem empty_last_field_gives_a_null_argument :
    (feed_stream main_init (c_str "AT+fs=;")).map
        (fun g => (g.at_command.status, get_cmd_index g.at_command)) =
      some (.complete, 11) ∧
    (feed_stream main_init (c_str "AT+fs=;")).bind (fun g =>
        (get_cmd_param g.at_command (List.replicate 6 none)).map (fun r => (r.1, r.2.2))) =
      some (1, [none, none, none, none, none, none]) ∧
    (feed_stream main_init (c_str "AT+fs=;")).bind (fun g =>
        (execute_a_cmd (fun _ _ _ w => w) g ()).map (fun r => (r.ret, r.invoked))) =
      some (0, some { slot := 11, argv := [none], arg_num := 1 }) ∧
    (feed_stream main_init (c_str "AT+fs=200,23,;")).bind (fun g =>
        (get_cmd_param g.at_command (List.replicate 6 none)).map (fun r => (r.1, r.2.2))) =
      some (3, [some 6, some 10, none, none, none, none]) ∧
    (feed_stream main_init (c_str "AT+fs=200,23,;")).bind (fun g =>
        (execute_a_cmd (fun _ _ _ w => w) g ()).map (fun r => (r.ret, r.invoked))) =
      some (0, some { slot := 11,
                      argv := [some (c_str "200"), some (c_str "23"), none], arg_num := 3 }) ∧
    (feed_stream main_init (c_str "AT+DB=;")).bind (fun g =>
        (execute_a_cmd (fun _ _ _ w => w) g ()).map (fun r => (r.ret, r.invoked))) =
      some (0, some { slot := 37, argv := [none], arg_num := 1 }) ∧
    SetDebug [none] 1 (object_uart_init, ⟨false, []⟩) = none ∧
    (feed_stream main_init (c_str "AT+fs=200,23;")).bind (fun g =>
        (execute_a_cmd (fun _ _ _ w => w) g ()).map (fun r => (r.ret, r.invoked))) =
      some (0, some { slot := 11,
                      argv := [some (c_str "200"), some (c_str "23")], arg_num := 2 }) := by
  refine ⟨by decide!, by decide!, by decide!, by decide!, by decide!, by decide!, by decide!,
    by decide!⟩

end SerialLCD
